import Mathlib

/-!
# reroute: a shallow embedding of the router and its filter chain

Go strings are byte sequences.  They are embedded as lists of byte values
(`GoString`); the functions below look at a string only through its length,
through equality of single bytes with ASCII bytes, and through equality of
whole strings.
-/

namespace Reroute

/-- A Go `string`: its sequence of bytes. -/
abbrev GoString := List Nat

/-- The byte string of an ASCII literal. -/
def str (s : String) : GoString := s.toList.map Char.toNat

/-- The byte `'/'`. -/
def slash : Nat := 47

/-- The byte `'.'`. -/
def dot : Nat := 46

/-- How a call can fail to return: a run-time panic, termination of the process
(`log.Fatal`), or exhaustion of the recursion budget of the model. -/
inductive Fault where
  | panic
  | fatal
  | outOfFuel
  deriving DecidableEq, Repr

/-! ## `path.Clean` and `strings.TrimRight` (Go standard library) -/

/-- The inner loop of the `..` case of `path.Clean`, on the reversed buffer:
`for out.w > dotdot && out.index(out.w) != '/' { out.w-- }`.
`rev` holds the bytes at indices `w-1, w-2, ..., 0` and `atW` is the byte at index `w`. -/
def backtrackLoop (dotdot : Nat) : List Nat → Nat → List Nat
  | [], _ => []
  | c :: rev, atW =>
    if (c :: rev).length > dotdot ∧ atW ≠ slash then backtrackLoop dotdot rev c
    else c :: rev

/-- The backtracking step of `path.Clean`:
`out.w--; for out.w > dotdot && out.index(out.w) != '/' { out.w-- }`. -/
def backtrack (dotdot : Nat) (out : List Nat) : List Nat :=
  match out.reverse with
  | [] => []
  | c :: rev => (backtrackLoop dotdot rev c).reverse

/-- The main loop `for r < n { switch ... }` of `path.Clean`.  `rest` is `path[r:]`,
`out` is the written part `buf[:w]` of the output buffer; the first argument bounds
the number of iterations (every iteration consumes at least one byte of `rest`). -/
def cleanLoop (rooted : Bool) : Nat → List Nat → List Nat → Nat → List Nat
  | 0, _, out, _ => out
  | fuel + 1, rest, out, dotdot =>
    match rest with
    | [] => out
    | c :: t =>
      if c = slash then
        -- empty path element
        cleanLoop rooted fuel t out dotdot
      else if c = dot ∧ (t = [] ∨ t.head? = some slash) then
        -- . element
        cleanLoop rooted fuel t out dotdot
      else if c = dot ∧ t.head? = some dot ∧ (t.tail = [] ∨ t.tail.head? = some slash) then
        -- .. element: remove to last /
        if out.length > dotdot then
          cleanLoop rooted fuel t.tail (backtrack dotdot out) dotdot
        else if !rooted then
          let out1 := if out.length > 0 then out ++ [slash] else out
          let out2 := out1 ++ [dot, dot]
          cleanLoop rooted fuel t.tail out2 out2.length
        else
          cleanLoop rooted fuel t.tail out dotdot
      else
        -- real path element: add slash if needed, copy element
        let out1 :=
          if (rooted && out.length != 1) || (!rooted && out.length != 0) then out ++ [slash]
          else out
        cleanLoop rooted fuel (rest.dropWhile (fun b => b != slash))
          (out1 ++ rest.takeWhile (fun b => b != slash)) dotdot

/-- Go's `path.Clean`: the shortest path name equivalent to `path` by purely lexical
processing.  The lazily allocated buffer of the library is represented by its
written prefix. -/
def Clean (path : GoString) : GoString :=
  if path = [] then [dot]
  else
    let rooted : Bool := path.head? = some slash
    let out :=
      if rooted then cleanLoop rooted path.length path.tail [slash] 1
      else cleanLoop rooted path.length path [] 0
    if out.length = 0 then [dot] else out

/-- Go's `strings.TrimRight(s, "/")` on the reversed string: drop the leading slashes. -/
def trimRightRev : List Nat → List Nat
  | [] => []
  | c :: rev => if c = slash then trimRightRev rev else c :: rev

/-- Go's `strings.TrimRight(s, "/")`:
`for len(s) > 0 && s[len(s)-1] == '/' { s = s[:len(s)-1] }`. -/
def TrimRight (s : GoString) : GoString := (trimRightRev s.reverse).reverse

/-! ## Regular expressions (Go package `regexp`)

The regular-expression library is outside the repository.  It enters the model as
an interface: the operations the router calls, indexed by the pattern text, with
the one fact about the library that the router relies on when it indexes the
submatch slice. -/

/-- The part of Go's `regexp` package that the router uses. -/
structure RegexEngine where
  /-- Whether `regexp.Compile(pattern)` succeeds (`regexp.MustCompile` panics otherwise). -/
  compiles : GoString → Bool
  /-- The result of `exp.MatchString(s)` for the compiled `pattern`. -/
  matchString : GoString → GoString → Bool
  /-- The result of `exp.FindStringSubmatch(s)` for the compiled `pattern` (`nil` is `[]`). -/
  findStringSubmatch : GoString → GoString → List GoString
  /-- The result of `exp.SubexpNames()` for the compiled `pattern`. -/
  subexpNames : GoString → List GoString
  /-- On a match, `FindStringSubmatch` has one entry per entry of `SubexpNames`. -/
  submatch_length : ∀ pattern s, matchString pattern s = true →
    (findStringSubmatch pattern s).length = (subexpNames pattern).length

/-! ## Data model -/

/-- A Go `map[string]string`: at most one entry per key. -/
abbrev VarMap := List (GoString × GoString)

/-- The map assignment `m[k] = v`. -/
def VarMap.set : VarMap → GoString → GoString → VarMap
  | [], k, v => [(k, v)]
  | (k1, v1) :: m, k, v => if k1 = k then (k, v) :: m else (k1, v1) :: VarMap.set m k v

/-- The map lookup `m[k]`. -/
def VarMap.get? : VarMap → GoString → Option GoString
  | [], _ => none
  | (k1, v1) :: m, k => if k1 = k then some v1 else VarMap.get? m k

/-- The identity of an `http.Handler` value. -/
abbrev HandlerId := Nat

/-- A reference to a Go `map[string]string` that a route owns: the map that `NewRoute`
made for the route at this index of the route table.  Routes are only ever appended
to the table, so the index names the same map for as long as the router lives; the
contents of the map are part of the state of the router (`router.varsOf`). -/
abbrev MapRef := Nat

/-- The fields of `*http.Request` that routing reads, and the value stored under
`varsKey` in the request context: a map value in Go is a reference, so what the
context holds is the map itself, not a copy of its entries (`none` when the context
has no value under the key). -/
structure Request where
  Method : GoString
  Path : GoString
  ctxVars : Option MapRef := none
  /-- The field `URL.Scheme`. -/
  Scheme : GoString := []
  /-- The field `URL.Host`. -/
  Host : GoString := []
  /-- The field `URL.RawQuery`. -/
  RawQuery : GoString := []
  /-- What `Header.Get` returns for each name for which it does not return the empty
  string. -/
  Header : VarMap := []
  deriving DecidableEq, Repr

/-- What a filter can do to the world outside the chain: invoke one of the four
handlers of the router, write to the variable map of its route, or anything else. -/
inductive Effect where
  | badRequest
  | notFound
  | methodNotAllowed
  | internalServerError
  | setVar (name value : GoString)
  | other (tag : Nat)
  deriving DecidableEq, Repr

/-- The body of a `Filter.Run(w, req, chain)` call, as the sequence of its
interactions: return a boolean, call `chain.Run(w, req)` and go on with its
result, perform an outside effect, or fail to return. -/
inductive FilterProg where
  | ret (b : Bool)
  | run (k : Bool → FilterProg)
  | act (e : Effect) (k : FilterProg)
  | fail (f : Fault)

/-- The interface `Filter` (and `FilterFunc`): the body of `Run` for each request.
The body is determined by the fields of the request and by the reference to the map
that the request carries; what a filter writes to the map of its route is an effect
(`Effect.setVar`), and the entries of the map at any moment are those of the route
with the writes so far applied (`applyWrites`). -/
abbrev Filter := Request → FilterProg

/-- The struct `FilterChain`. -/
structure FilterChain where
  count : Nat
  current : Nat
  filters : List Filter

/-- The events of a dispatch, in order: `FilterChain.Run` hands control to
`filters[i]`; an effect of a filter or of the router itself (the router invoking
its `NotFoundHandler` or `MethodNotAllowedHandler`); `ServeHTTP` invokes the
`Handler` of route `i` with the given request. -/
inductive Event where
  | gate (i : Nat)
  | act (e : Effect)
  | handler (i : Nat) (req : Request)
  deriving DecidableEq, Repr

/-- The struct `route`.  The field `Router` is the router the route is registered
with; it is passed to the methods explicitly.  `Handler` and `methods` are `none`
for Go's `nil`; `Vars` is the map that `NewRoute` makes, and `Filters` the chain it
allocates. -/
structure route where
  PathRegexp : GoString
  Handler : Option HandlerId
  Vars : VarMap
  Filters : FilterChain
  methods : Option (List GoString)

/-- The struct `router`.  The four handler fields are represented by the effects
`badRequest`, `notFound`, `methodNotAllowed`, `internalServerError` that record
their invocation. -/
structure router where
  routes : List route
  trimTrailingSlashes : Bool
  cleanPath : Bool

/-! ## FilterChain.go -/

/-- One call `filter.Run(w, req, c)`: the body `prog` is executed on the chain state
`c`; `runChain` is what a nested `chain.Run(w, req)` does. -/
def execFilter (runChain : FilterChain → Except Fault (Bool × FilterChain × List Event)) :
    FilterProg → FilterChain → Except Fault (Bool × FilterChain × List Event)
  | .ret b, c => .ok (b, c, [])
  | .run k, c =>
    match runChain c with
    | .error f => .error f
    | .ok (b, c1, evs1) =>
      match execFilter runChain (k b) c1 with
      | .error f => .error f
      | .ok (b2, c2, evs2) => .ok (b2, c2, evs1 ++ evs2)
  | .act e k, c =>
    match execFilter runChain k c with
    | .error f => .error f
    | .ok (b, c1, evs) => .ok (b, c1, Event.act e :: evs)
  | .fail f, _ => .error f

/-- The method `FilterChain.Run`.  The first argument bounds the depth of nested
`Run` calls; the result is the returned boolean, the chain afterwards, and the
events that took place. -/
def FilterChain.Run : Nat → Request → FilterChain →
    Except Fault (Bool × FilterChain × List Event)
  | 0, _, _ => .error .outOfFuel
  | fuel + 1, req, c =>
    if c.count = 0 ∨ c.current ≥ c.count then .ok (true, c, [])
    else
      match c.filters[c.current]? with
      | none => .error .panic
      | some filter =>
        let c1 := { c with current := c.current + 1 }
        -- defer func() { c.current = 0 }()
        match execFilter (FilterChain.Run fuel req) (filter req) c1 with
        | .error f => .error f
        | .ok (b, c2, evs) => .ok (b, { c2 with current := 0 }, Event.gate c.current :: evs)

/-- The zero value `new(FilterChain)`. -/
def newFilterChain : FilterChain := { count := 0, current := 0, filters := [] }

/-- The method `FilterChain.Add`. -/
def FilterChain.Add (c : FilterChain) (filter : Filter) : FilterChain :=
  { c with filters := c.filters ++ [filter], count := c.count + 1 }

/-- The method `FilterChain.AddFunc`. -/
def FilterChain.AddFunc (c : FilterChain) (f : Request → FilterProg) : FilterChain :=
  c.Add f

/-! ## Router.go and Route.go -/

/-- The function `Vars`: the map stored in the context of the request (`none` for the
`nil` map returned when there is none). -/
def Vars (r : Request) : Option MapRef := r.ctxVars

/-- The entries of the map behind a reference, in the state `r` of the router. -/
def router.varsOf (r : router) (ref : MapRef) : Option VarMap :=
  (r.routes[ref]?).map (fun rt => rt.Vars)

/-- The method `router.PreparePath`.  Indexing a string out of range panics. -/
def router.PreparePath (r : router) (p : GoString) : Except Fault GoString :=
  if r.cleanPath then
    let p1 := if p = [] then [slash] else p
    match p1.head? with
    | none => .error .panic
    | some b =>
      let p2 := if b ≠ slash then slash :: p1 else p1
      let p3 := Clean p2
      if !r.trimTrailingSlashes then
        match p3.getLast? with
        | none => .error .panic
        | some l => if l = slash ∧ p3 ≠ [slash] then .ok (p3 ++ [slash]) else .ok p3
      else .ok p3
  else if r.trimTrailingSlashes then .ok (TrimRight p)
  else .ok p

/-- The function `NewRouter`. -/
def NewRouter : router := { routes := [], trimTrailingSlashes := true, cleanPath := true }

/-- The method `router.CleanPath`. -/
def router.CleanPath (r : router) (clean : Bool) : router := { r with cleanPath := clean }

/-- The method `router.TrimTrailingSlashes`. -/
def router.TrimTrailingSlashes (r : router) (trim : Bool) : router :=
  { r with trimTrailingSlashes := trim }

/-- The method `route.matchMethods`. -/
def route.matchMethods (rt : route) (req : Request) : Bool :=
  match rt.methods with
  | none => true
  | some ms => ms.any (fun m => decide (req.Method = m))

/-- The loop of `route.ExtractVarsWithRegex` over `exp.SubexpNames()`, from index `i`. -/
def extractLoop (m : List GoString) : List GoString → Nat → VarMap → Except Fault VarMap
  | [], _, vars => .ok vars
  | name :: names, i, vars =>
    if i ≠ 0 ∧ name ≠ [] then
      match m[i]? with
      | none => .error .panic
      | some v => extractLoop m names (i + 1) (vars.set name v)
    else extractLoop m names (i + 1) vars

/-- The method `route.ExtractVarsWithRegex`; `exp` is the pattern that was compiled. -/
def route.ExtractVarsWithRegex (E : RegexEngine) (rt : route) (exp : GoString)
    (s : GoString) : Except Fault route :=
  match extractLoop (E.findStringSubmatch exp s) (E.subexpNames exp) 0 rt.Vars with
  | .error f => .error f
  | .ok vars => .ok { rt with Vars := vars }

/-- The method `route.match` (`match` is a keyword of Lean) of the route `rt`
registered with router `r`: the two returned booleans and the route afterwards.
`regexp.MustCompile` panics when the pattern does not compile. -/
def route.matchRequest (E : RegexEngine) (r : router) (rt : route) (req : Request) :
    Except Fault ((Bool × Bool) × route) :=
  if !E.compiles rt.PathRegexp then .error .panic
  else
    match r.PreparePath req.Path with
    | .error f => .error f
    | .ok path =>
      if !E.matchString rt.PathRegexp path then .ok ((false, false), rt)
      else if !rt.matchMethods req then .ok ((true, true), rt)
      else
        match rt.ExtractVarsWithRegex E rt.PathRegexp path with
        | .error f => .error f
        | .ok rt1 => .ok ((true, false), rt1)

/-- The scan loop of `router.ServeHTTP` over the routes from index `i` on: the routes
afterwards, `matchedRoute` (index and route, `none` for `nil`) and `wrongMethod`. -/
def scanRoutes (E : RegexEngine) (r : router) (req : Request) :
    List route → Nat → Bool → Except Fault (List route × Option (Nat × route) × Bool)
  | [], _, wrongMethod => .ok ([], none, wrongMethod)
  | rt :: rest, i, wrongMethod =>
    match rt.matchRequest E r req with
    | .error f => .error f
    | .ok ((m, method), rt1) =>
      if m && !method then .ok (rt1 :: rest, some (i, rt1), false)
      else
        match scanRoutes E r req rest (i + 1) (if m && method then method else wrongMethod) with
        | .error f => .error f
        | .ok (rest1, matched, wrong) => .ok (rt1 :: rest1, matched, wrong)

/-- The writes of filters to the variable map of their route, applied in order. -/
def applyWrites : List Event → VarMap → VarMap
  | [], vars => vars
  | Event.act (Effect.setVar k v) :: evs, vars => applyWrites evs (vars.set k v)
  | _ :: evs, vars => applyWrites evs vars

/-- The method `router.ServeHTTP`: the router afterwards and the events of the
dispatch.  The value attached to the request is the map of the matched route itself
(the reference `i`), so what the filters of the route write to the map is what a
later filter and the handler find behind `Vars(req)`: the entries of route `i` in the
router afterwards. -/
def router.ServeHTTP (E : RegexEngine) (fuel : Nat) (r : router) (req : Request) :
    Except Fault (router × List Event) :=
  match scanRoutes E r req r.routes 0 false with
  | .error f => .error f
  | .ok (routes1, matched, wrongMethod) =>
    let r1 := { r with routes := routes1 }
    if wrongMethod then .ok (r1, [Event.act Effect.methodNotAllowed])
    else
      match matched with
      | none => .ok (r1, [Event.act Effect.notFound])
      | some (i, rt) =>
        match rt.Handler with
        | none => .ok (r1, [Event.act Effect.notFound])
        | some _ =>
          let req1 := { req with ctxVars := some i }
          match rt.Filters.Run fuel req1 with
          | .error f => .error f
          | .ok (b, chain, evs) =>
            let rt1 := { rt with Filters := chain, Vars := applyWrites evs rt.Vars }
            .ok ({ r1 with routes := routes1.set i rt1 },
              evs ++ (if b then [Event.handler i req1] else []))

/-- The method `router.NewRoute`: the router afterwards and the returned route.
Indexing the empty pattern panics. -/
def router.NewRoute (r : router) (regexp : GoString) (handler : Option HandlerId) :
    Except Fault (router × route) :=
  match regexp.head? with
  | none => .error .panic
  | some b =>
    let regexp1 := if b ≠ 94 then 94 :: regexp else regexp
    let rt : route :=
      { PathRegexp := regexp1, Handler := handler, Vars := [], Filters := newFilterChain,
        methods := none }
    .ok ({ r with routes := r.routes ++ [rt] }, rt)

/-- The method `router.Handle`.  Indexing the empty pattern panics. -/
def router.Handle (r : router) (regex : GoString) (handler : Option HandlerId) :
    Except Fault (router × route) :=
  match regex.getLast? with
  | none => .error .panic
  | some b =>
    let regex1 := if b ≠ 36 then regex ++ [36] else regex
    r.NewRoute regex1 handler

/-- The method `router.HandlePartial`. -/
def router.HandlePartial (r : router) (regex : GoString) (handler : Option HandlerId) :
    Except Fault (router × route) :=
  r.NewRoute regex handler

/-- The loop of `mapFromPairs`: `resMap[pairs[i]] = pairs[i+1]` for `i = 0, 2, ...`. -/
def mapFromPairsLoop : List GoString → VarMap → VarMap
  | k :: v :: rest, resMap => mapFromPairsLoop rest (resMap.set k v)
  | _, resMap => resMap

/-- The function `mapFromPairs`: `none` stands for the returned error. -/
def mapFromPairs (pairs : List GoString) : Option VarMap :=
  if pairs.length &&& 1 ≠ 0 then none
  else some (mapFromPairsLoop pairs [])

/-- The call `request.Header.Get(k)`. -/
def Request.headerGet (req : Request) (k : GoString) : GoString :=
  (req.Header.get? k).getD []

/-- The filter that `route.Schemes` appends. -/
def schemesFilter (scheme : GoString) : Filter := fun req =>
  if req.Scheme = scheme then .run (fun b => .ret b)
  else .act Effect.notFound (.ret false)

/-- The method `route.Schemes`. -/
def route.Schemes (rt : route) (scheme : GoString) : route :=
  { rt with Filters := rt.Filters.AddFunc (schemesFilter scheme) }

/-- The call `r.ExtractVarsWithRegex(exp, host)` inside the filter of `route.Host`,
followed by the rest `k` of the filter body: the writes to the variable map are
effects of the filter. -/
def hostExtract (m : List GoString) : List GoString → Nat → FilterProg → FilterProg
  | [], _, k => k
  | name :: names, i, k =>
    if i ≠ 0 ∧ name ≠ [] then
      match m[i]? with
      | none => .fail .panic
      | some v => .act (Effect.setVar name v) (hostExtract m names (i + 1) k)
    else hostExtract m names (i + 1) k

/-- The filter that `route.Host` appends. -/
def hostFilter (E : RegexEngine) (schemeRegex : GoString) : Filter := fun req =>
  if E.matchString schemeRegex req.Host then
    hostExtract (E.findStringSubmatch schemeRegex req.Host) (E.subexpNames schemeRegex) 0
      (.run (fun b => .ret b))
  else .act Effect.notFound (.ret false)

/-- The method `route.Host`: `regexp.MustCompile` runs when the route is configured.
The method works on the route through the pointer `r`, so the result is the route as
the call leaves it, together with the panic when the call does not return. -/
def route.Host (E : RegexEngine) (rt : route) (schemeRegex : GoString) :
    route × Option Fault :=
  if !E.compiles schemeRegex then (rt, some .panic)
  else ({ rt with Filters := rt.Filters.AddFunc (hostFilter E schemeRegex) }, none)

/-- The order in which a `range` loop visits the entries of a map.  Go leaves it
unspecified: each execution of the loop visits the entries in some arrangement,
which may differ from one request to the next. -/
structure MapOrder where
  /-- The entries in the order in which the loop visits them. -/
  visit : Request → VarMap → VarMap
  /-- Every entry is visited, once. -/
  perm : ∀ req m, (visit req m).Perm m

/-- The order in which the entries are listed. -/
def MapOrder.listed : MapOrder := ⟨fun _ m => m, fun _ m => List.Perm.refl m⟩

/-- The opposite order. -/
def MapOrder.reversed : MapOrder := ⟨fun _ m => m.reverse, fun _ m => List.reverse_perm m⟩

/-- The loop over `headersMap` in the filter of `route.Headers`, on the entries in the
order in which the loop visits them. -/
def headersLoop (req : Request) : List (GoString × GoString) → FilterProg
  | [] => .run (fun b => .ret b)
  | (k, v) :: rest =>
    if v ≠ req.headerGet k then .act Effect.badRequest (.ret false)
    else headersLoop req rest

/-- The filter that `route.Headers` appends; `O` is the order of its `range` loop. -/
def headersFilter (O : MapOrder) (headersMap : VarMap) : Filter :=
  fun req => headersLoop req (O.visit req headersMap)

/-- The method `route.Headers`: the route as the call leaves it, and the panic when
the call does not return.  The test of the error of `mapFromPairs` comes before
`AddFunc`. -/
def route.Headers (O : MapOrder) (rt : route) (pairs : List GoString) : route × Option Fault :=
  match mapFromPairs pairs with
  | none => (rt, some .panic)
  | some headersMap =>
    ({ rt with Filters := rt.Filters.AddFunc (headersFilter O headersMap) }, none)

/-- The pattern the filter of `route.Queries` builds for the entry `k`, `v` with a
non-empty name `k`. -/
def queryPattern (k v : GoString) : GoString :=
  let v1 := if v ≠ [] then str "(?:" ++ v ++ str ")(?:$|&)" else v
  let k1 := str "(?:^|&)" ++ k
  k1 ++ str "=" ++ v1

/-- The loop over `queryMap` in the filter of `route.Queries`, on the entries in the
order in which the loop visits them.  `regexp.MatchString` compiles the pattern and
matches; `log.Fatal` ends the process. -/
def queriesLoop (E : RegexEngine) (req : Request) : List (GoString × GoString) → FilterProg
  | [] => .run (fun b => .ret b)
  | (k, v) :: rest =>
    if k = [] then .act Effect.internalServerError (.fail .fatal)
    else if E.compiles (queryPattern k v) then
      if E.matchString (queryPattern k v) req.RawQuery then queriesLoop E req rest
      else .act Effect.badRequest (.ret false)
    else .act Effect.internalServerError (.fail .fatal)

/-- The filter that `route.Queries` appends; `O` is the order of its `range` loop. -/
def queriesFilter (E : RegexEngine) (O : MapOrder) (queryMap : VarMap) : Filter :=
  fun req => queriesLoop E req (O.visit req queryMap)

/-- The method `route.Queries`: the route as the call leaves it, and the panic when
the call does not return.  The test of the error of `mapFromPairs` comes before
`AddFunc`. -/
def route.Queries (E : RegexEngine) (O : MapOrder) (rt : route) (pairs : List GoString) :
    route × Option Fault :=
  match mapFromPairs pairs with
  | none => (rt, some .panic)
  | some queryMap =>
    ({ rt with Filters := rt.Filters.AddFunc (queriesFilter E O queryMap) }, none)

/-! ## Auxiliary notions for the analysis of `path.Clean` -/

/-- A path element that `path.Clean` keeps: non-empty, without a slash, and neither
`.` nor `..`. -/
def GoodComp (c : List Nat) : Prop := c ≠ [] ∧ slash ∉ c ∧ c ≠ [dot] ∧ c ≠ [dot, dot]

/-- The elements `cs` written one after the other, each preceded by a slash. -/
def joinComps : List (List Nat) → List Nat
  | [] => []
  | c :: cs => slash :: c ++ joinComps cs

/-- The rooted path with the elements `cs`: `/` when there is none. -/
def rootedPath (cs : List (List Nat)) : List Nat := if cs = [] then [slash] else joinComps cs

/-! ## Notions used to state the properties of the chain and of the dispatch -/

/-- The indices of the filters that were run, in the order in which they were run. -/
def gatesOf : List Event → List Nat
  | [] => []
  | Event.gate i :: evs => i :: gatesOf evs
  | _ :: evs => gatesOf evs

/-- The route handlers that were invoked, in order. -/
def handlersOf : List Event → List (Nat × Request)
  | [] => []
  | Event.handler i req :: evs => (i, req) :: handlersOf evs
  | _ :: evs => handlersOf evs

/-- The body returns `b` without invoking `chain.Run`. -/
def FilterProg.returnsOnly : FilterProg → Bool → Bool
  | .ret b1, b => b1 == b
  | .run _, _ => false
  | .act _ k, b => k.returnsOnly b
  | .fail _, _ => false

/-- A rejecting gate: it returns false without invoking `chain.Run`. -/
def FilterProg.rejects (p : FilterProg) : Bool := p.returnsOnly false

/-- An accepting gate: it invokes `chain.Run` exactly once and returns its result. -/
def FilterProg.accepts : FilterProg → Bool
  | .ret _ => false
  | .run k => (k true).returnsOnly true && (k false).returnsOnly false
  | .act _ k => k.accepts
  | .fail _ => false

/-- The number of gates that run when the gates are the given bodies: all up to and
including the first that does not accept. -/
def runLen : List FilterProg → Nat
  | [] => 0
  | p :: ps => if p.accepts then runLen ps + 1 else 1

/-- The call `rt.match(req)` returns `(true, false)`: a full match. -/
def route.FullMatch (E : RegexEngine) (r : router) (rt : route) (req : Request) : Prop :=
  ∃ rt1, rt.matchRequest E r req = .ok ((true, false), rt1)

/-- The call `rt.match(req)` returns `(true, true)`: a method mismatch. -/
def route.MethodMismatch (E : RegexEngine) (r : router) (rt : route) (req : Request) : Prop :=
  ∃ rt1, rt.matchRequest E r req = .ok ((true, true), rt1)

/-- The call `rt.match(req)` returns `(false, false)`: no match. -/
def route.NoMatch (E : RegexEngine) (r : router) (rt : route) (req : Request) : Prop :=
  ∃ rt1, rt.matchRequest E r req = .ok ((false, false), rt1)

/-- Route `i` is the first route of the table whose `match` returns a full match. -/
def router.FirstFullMatch (E : RegexEngine) (r : router) (req : Request) (i : Nat)
    (rt : route) : Prop :=
  r.routes[i]? = some rt ∧ rt.FullMatch E r req ∧
    ∀ j rj, j < i → r.routes[j]? = some rj → ¬ rj.FullMatch E r req

/-- The patterns of the routes before index `i` compile, so that `match` returns on
each of them. -/
def router.CompilesBefore (E : RegexEngine) (r : router) (i : Nat) : Prop :=
  ∀ j rj, j < i → r.routes[j]? = some rj → E.compiles rj.PathRegexp = true

/-- The arguments of `Headers` and `Queries` taken two by two: `(pairs[0], pairs[1])`,
`(pairs[2], pairs[3])`, and so on. -/
def pairsOf : List GoString → List (GoString × GoString)
  | k :: v :: rest => (k, v) :: pairsOf rest
  | _ => []

/-- The value configured for the name `k` by a list of (name, value) pairs: the value
of the last pair with this name, `none` when no pair has it. -/
def configuredValue : List (GoString × GoString) → GoString → Option GoString
  | [], _ => none
  | (k1, v1) :: ps, k =>
    match configuredValue ps k with
    | some v => some v
    | none => if k1 = k then some v1 else none

/-- The chains that arise from the zero value `new(FilterChain)` by calls of `Add`
and `AddFunc` and by top-level calls of `Run` that have returned. -/
inductive FilterChain.Reachable : FilterChain → Prop where
  | new : FilterChain.Reachable newFilterChain
  | add (c : FilterChain) (f : Filter) :
      FilterChain.Reachable c → FilterChain.Reachable (c.Add f)
  | addFunc (c : FilterChain) (f : Request → FilterProg) :
      FilterChain.Reachable c → FilterChain.Reachable (c.AddFunc f)
  | run (c : FilterChain) (fuel : Nat) (req : Request) (b : Bool) (c1 : FilterChain)
      (evs : List Event) :
      FilterChain.Reachable c → c.Run fuel req = .ok (b, c1, evs) → FilterChain.Reachable c1

/-- The body invokes `chain.Run` at least `n` times on every path before it returns. -/
def FilterProg.runsAtLeast : FilterProg → Nat → Bool
  | _, 0 => true
  | .ret _, _ + 1 => false
  | .run k, n + 1 => (k true).runsAtLeast n && (k false).runsAtLeast n
  | .act _ k, n + 1 => k.runsAtLeast (n + 1)
  | .fail _, _ + 1 => false

/-! ## A small regular-expression engine for the worked examples

It knows three forms of pattern, where `text` is made of letters, digits, `/`, `-`
and `_` and `name` of letters, digits and `_`: `^text$` (the subject equals `text`),
`^text` (the subject begins with `text`), and `^text(?P<name>[0-9]+)$` (the subject
is `text` followed by one or more decimal digits, which the group `name` captures).
On these it agrees with Go's `regexp`.  Every other pattern it reports as not
compiling. -/

/-- The patterns the example engine knows. -/
inductive DemoPattern where
  | exact (text : GoString)
  | starts (text : GoString)
  | digits (text name : GoString)

/-- A decimal digit. -/
def digitByte (b : Nat) : Bool := 48 ≤ b && b ≤ 57

/-- Letters, digits and `_`. -/
def wordByte (b : Nat) : Bool :=
  digitByte b || (65 ≤ b && b ≤ 90) || (97 ≤ b && b ≤ 122) || b == 95

/-- Letters, digits, `_`, `/` and `-`. -/
def plainByte (b : Nat) : Bool := wordByte b || b == 47 || b == 45

/-- Reading a pattern of one of the three forms. -/
def parseDemoPattern (pattern : GoString) : Option DemoPattern :=
  match pattern with
  | 94 :: rest =>
    let text := rest.takeWhile plainByte
    let tail := rest.dropWhile plainByte
    if tail = [] then some (.starts text)
    else if tail = str "$" then some (.exact text)
    else
      let name := (tail.drop 4).takeWhile wordByte
      if name ≠ [] ∧ tail = str "(?P<" ++ name ++ str ">[0-9]+)$" then some (.digits text name)
      else none
  | _ => none

/-- The submatches of a pattern on a subject: the whole match, then the group. -/
def demoSubmatch : DemoPattern → GoString → List GoString
  | .exact text, s => if s = text then [s] else []
  | .starts text, s => if text.isPrefixOf s then [text] else []
  | .digits text _, s =>
    if text.isPrefixOf s ∧ s.drop text.length ≠ [] ∧ (s.drop text.length).all digitByte then
      [s, s.drop text.length]
    else []

/-- The group names of a pattern: the whole match has the empty name. -/
def demoNames : DemoPattern → List GoString
  | .digits _ name => [[], name]
  | _ => [[]]

/-- The example engine. -/
def demoEngine : RegexEngine where
  compiles pattern := (parseDemoPattern pattern).isSome
  matchString pattern s :=
    match parseDemoPattern pattern with
    | some pat => !(demoSubmatch pat s).isEmpty
    | none => false
  findStringSubmatch pattern s :=
    match parseDemoPattern pattern with
    | some pat => demoSubmatch pat s
    | none => []
  subexpNames pattern :=
    match parseDemoPattern pattern with
    | some pat => demoNames pat
    | none => []
  submatch_length := by
    intro pattern s h
    cases hp : parseDemoPattern pattern with
    | none => simp [hp] at h
    | some pat =>
      simp only [hp] at h ⊢
      cases pat with
      | exact text =>
        simp only [demoSubmatch, demoNames] at h ⊢
        split <;> simp_all
      | starts text =>
        simp only [demoSubmatch, demoNames] at h ⊢
        split <;> simp_all
      | digits text name =>
        simp only [demoSubmatch, demoNames] at h ⊢
        split <;> simp_all

/-! ## The patterns of the query filter in the example engine

The example engine is extended to the patterns that the filter of `Queries` builds
from a name and a list of alternatives made of letters, digits and `_`:
`(?:^|&)name=` and `(?:^|&)name=(?:alt1|alt2|...)(?:$|&)`.  A match starts at the
beginning of the subject or at a `&`, reads `name=`, then (in the second form) the
first alternative that is followed by the end of the subject or by a `&`. -/

/-- A pattern of the query filter: the name and, in the second form, the alternatives. -/
structure QueryPattern where
  name : GoString
  alts : Option (List GoString)

/-- The pieces of a string between the bytes `|`. -/
def splitBar : GoString → List GoString
  | [] => [[]]
  | c :: t =>
    if c = 124 then [] :: splitBar t
    else
      match splitBar t with
      | [] => [[c]]
      | a :: rest => (c :: a) :: rest

/-- Reading a pattern of one of the two forms. -/
def parseQueryPattern (pattern : GoString) : Option QueryPattern :=
  if (str "(?:^|&)").isPrefixOf pattern then
    let rest := pattern.drop 7
    let name := rest.takeWhile wordByte
    let tail := rest.dropWhile wordByte
    if name = [] then none
    else if tail = str "=" then some { name := name, alts := none }
    else
      let body := (tail.drop 4).takeWhile (fun b => wordByte b || b == 124)
      if tail = str "=(?:" ++ body ++ str ")(?:$|&)" ∧ (splitBar body).all (fun a => a ≠ []) then
        some { name := name, alts := some (splitBar body) }
      else none
  else none

/-- The match of `name=...` at the beginning of `t`, if there is one: the text matched. -/
def queryMatchAt (q : QueryPattern) (t : GoString) : Option GoString :=
  if (q.name ++ str "=").isPrefixOf t then
    let after := t.drop (q.name.length + 1)
    match q.alts with
    | none => some (q.name ++ str "=")
    | some alts =>
      match alts.find? (fun a => a.isPrefixOf after &&
          (after.drop a.length == [] || (after.drop a.length).head? == some 38)) with
      | some a =>
        some (q.name ++ str "=" ++ a ++
          (if (after.drop a.length).head? = some 38 then [38] else []))
      | none => none
  else none

/-- The leftmost match that starts at a `&` of the subject. -/
def querySearchFrom (q : QueryPattern) : GoString → Option GoString
  | [] => none
  | c :: t =>
    match (if c = 38 then (queryMatchAt q t).map (fun m => 38 :: m) else none) with
    | some m => some m
    | none => querySearchFrom q t

/-- The leftmost match in the subject. -/
def querySearch (q : QueryPattern) (s : GoString) : Option GoString :=
  match queryMatchAt q s with
  | some m => some m
  | none => querySearchFrom q s

/-- The example engine with the patterns of the query filter. -/
def exampleEngine : RegexEngine where
  compiles pattern := (parseQueryPattern pattern).isSome || demoEngine.compiles pattern
  matchString pattern s :=
    match parseQueryPattern pattern with
    | some q => (querySearch q s).isSome
    | none => demoEngine.matchString pattern s
  findStringSubmatch pattern s :=
    match parseQueryPattern pattern with
    | some q =>
      (match querySearch q s with
      | some m => [m]
      | none => [])
    | none => demoEngine.findStringSubmatch pattern s
  subexpNames pattern :=
    match parseQueryPattern pattern with
    | some _ => [[]]
    | none => demoEngine.subexpNames pattern
  submatch_length := by
    intro pattern s h
    cases hp : parseQueryPattern pattern with
    | none =>
      simp only [hp] at h ⊢
      exact demoEngine.submatch_length pattern s h
    | some q =>
      simp only [hp] at h ⊢
      cases hq : querySearch q s with
      | none => simp [hq] at h
      | some m => simp

/-! ## Worked examples -/

/-- A filter that accepts the way the built-in ones do: `return chain.Run(w, req)`. -/
def passFilter : Filter := fun _ => .run (fun b => .ret b)

/-- A filter that rejects the way `Headers` does: it invokes `BadRequestHandler` and
returns false. -/
def denyFilter : Filter := fun _ => .act Effect.badRequest (.ret false)

/-- A filter that returns true without continuing the chain. -/
def stopFilter : Filter := fun _ => .ret true

/-- The request `GET /a`. -/
def requestA : Request := { Method := str "GET", Path := str "/a" }

/-- The chain with the filters `passFilter`, `denyFilter`, `passFilter`. -/
def chainPassDenyPass : FilterChain :=
  ((newFilterChain.Add passFilter).Add denyFilter).Add passFilter

/-- The chain with the filters `passFilter`, `passFilter`. -/
def chainPassPass : FilterChain := (newFilterChain.Add passFilter).Add passFilter

/-- The chain with the filters `stopFilter`, `stopFilter`. -/
def chainStopStop : FilterChain := (newFilterChain.Add stopFilter).Add stopFilter

/-- The request `GET /user/42`. -/
def requestUser : Request := { Method := str "GET", Path := str "/user/42" }

/-- The route `^/b$` with handler 1. -/
def routeB : route :=
  { PathRegexp := str "^/b$", Handler := some 1, Vars := [], Filters := newFilterChain,
    methods := none }

/-- The route `^/user/(?P<id>[0-9]+)$` with handler 2, restricted to the method `POST`. -/
def routePostUser : route :=
  { PathRegexp := str "^/user/(?P<id>[0-9]+)$", Handler := some 2, Vars := [],
    Filters := newFilterChain, methods := some [str "POST"] }

/-- The route `^/user/(?P<id>[0-9]+)$` with handler 3, for all methods, with two
accepting filters. -/
def routeUser : route :=
  { PathRegexp := str "^/user/(?P<id>[0-9]+)$", Handler := some 3, Vars := [],
    Filters := chainPassPass, methods := none }

/-- The router with the routes `routeB`, `routePostUser`, `routeUser`, in this order. -/
def exampleRouter : router := { NewRouter with routes := [routeB, routePostUser, routeUser] }

/-- The route `routeUser` after it has matched `/user/42`. -/
def routeUserMatched : route := { routeUser with Vars := [(str "id", str "42")] }

/-- The request `GET /user/42` with the variable map of route 2 attached. -/
def requestUserVars : Request := { requestUser with ctxVars := some 2 }

/-- The request `GET /b` with the header `X-Auth: 1`. -/
def requestAuth1 : Request :=
  { Method := str "GET", Path := str "/b", Header := [(str "X-Auth", str "1")] }

/-- The request `GET /b` with the header `X-Auth: 2`. -/
def requestAuth2 : Request :=
  { Method := str "GET", Path := str "/b", Header := [(str "X-Auth", str "2")] }

/-- The request `GET /b` without the header `X-Auth`. -/
def requestNoAuth : Request := { Method := str "GET", Path := str "/b" }

/-- The route `^/b$` with handler 1 and the filter of `Headers("X-Auth", "1")`. -/
def routeAuth : route :=
  { routeB with Filters :=
      newFilterChain.AddFunc (headersFilter MapOrder.listed [(str "X-Auth", str "1")]) }

/-- The router with the one route `routeAuth`. -/
def routerAuth : router := { NewRouter with routes := [routeAuth] }

/-- The request `GET /b?sort=asc&x=1`. -/
def requestSortAsc : Request :=
  { Method := str "GET", Path := str "/b", RawQuery := str "sort=asc&x=1" }

/-- The request `GET /b?sort=bogus`. -/
def requestSortBogus : Request :=
  { Method := str "GET", Path := str "/b", RawQuery := str "sort=bogus" }

/-- The route `^/b$` with handler 1 and the filter of `Queries("sort", "asc|desc")`. -/
def routeSort : route :=
  { routeB with Filters :=
      (newFilterChain.AddFunc
        (queriesFilter exampleEngine MapOrder.listed [(str "sort", str "asc|desc")])) }

/-- The router with the one route `routeSort`. -/
def routerSort : router := { NewRouter with routes := [routeSort] }

/-- The request `GET /b?debug=`. -/
def requestDebugEq : Request :=
  { Method := str "GET", Path := str "/b", RawQuery := str "debug=" }

/-- The request `GET /b?debug`. -/
def requestDebugAlone : Request :=
  { Method := str "GET", Path := str "/b", RawQuery := str "debug" }

/-- The request `GET /b?x=1`. -/
def requestDebugAbsent : Request :=
  { Method := str "GET", Path := str "/b", RawQuery := str "x=1" }

/-- The route `^/b$` with handler 1 and the filter of `Queries("debug", "")`. -/
def routeDebug : route :=
  { routeB with Filters :=
      (newFilterChain.AddFunc
        (queriesFilter exampleEngine MapOrder.listed [(str "debug", str "")])) }

/-- The router with the one route `routeDebug`. -/
def routerDebug : router := { NewRouter with routes := [routeDebug] }

/-- The route with the pattern `^($`, which does not compile, and handler 4: what
`Handle("(", h)` registers. -/
def routeBad : route :=
  { PathRegexp := str "^($", Handler := some 4, Vars := [], Filters := newFilterChain,
    methods := none }

/-- The router with the one route `routeBad`. -/
def routerBad : router := { NewRouter with routes := [routeBad] }

/-- The router with the routes `routeBad`, `routeB`, in this order. -/
def routerBadFirst : router := { NewRouter with routes := [routeBad, routeB] }

/-- The router with the routes `routeB`, `routeBad`, in this order. -/
def routerBadLast : router := { NewRouter with routes := [routeB, routeBad] }

/-- The request `GET /b`. -/
def requestB : Request := { Method := str "GET", Path := str "/b" }

/-- The route `^/b$` with handler 1 and the filter of `Host("^node-(?P<shard>[0-9]+)$")`. -/
def routeShard : route :=
  { routeB with Filters :=
      newFilterChain.AddFunc (hostFilter demoEngine (str "^node-(?P<shard>[0-9]+)$")) }

/-- The router with the one route `routeShard`. -/
def routerShard : router := { NewRouter with routes := [routeShard] }

/-- The request `GET /b` to the host `node-7`. -/
def requestShard : Request := { Method := str "GET", Path := str "/b", Host := str "node-7" }

/-- The route `^/b$` with handler 1 and the filter of
`Headers("X-Auth", "1", "X-Id", "9")`. -/
def routeAuthId : route :=
  { routeB with Filters :=
      newFilterChain.AddFunc (headersFilter MapOrder.listed
        [(str "X-Auth", str "1"), (str "X-Id", str "9")]) }

/-- The router with the one route `routeAuthId`. -/
def routerAuthId : router := { NewRouter with routes := [routeAuthId] }

/-- The request `GET /b` with the headers `X-Auth: 1` and `X-Id: 9`. -/
def requestAuthId : Request :=
  { Method := str "GET", Path := str "/b",
    Header := [(str "X-Auth", str "1"), (str "X-Id", str "9")] }

/-- The route `routeUser` with an entry `lang` left in its variable map. -/
def routeUserStale : route := { routeUser with Vars := [(str "lang", str "en")] }

/-- A filter that invokes the chain twice: `chain.Run(w, req); return chain.Run(w, req)`. -/
def twiceFilter : Filter := fun _ => .run (fun _ => .run (fun b => .ret b))

/-- The chain with the filters `twiceFilter`, `passFilter`. -/
def chainTwicePass : FilterChain := (newFilterChain.Add twiceFilter).Add passFilter

/-! ## Properties of `path.Clean` on rooted paths -/

theorem joinComps_append (cs ds : List (List Nat)) :
    joinComps (cs ++ ds) = joinComps cs ++ joinComps ds := by
  induction cs with
  | nil => rfl
  | cons c cs ih => simp [joinComps, ih]

theorem joinComps_eq_nil {cs : List (List Nat)} : joinComps cs = [] ↔ cs = [] := by
  cases cs <;> simp [joinComps]

theorem rootedPath_concat (cs : List (List Nat)) (c : List Nat) :
    rootedPath (cs ++ [c]) = joinComps cs ++ slash :: c := by
  simp [rootedPath, joinComps_append, joinComps]

theorem rootedPath_length_eq_one {cs : List (List Nat)} (h : ∀ c ∈ cs, GoodComp c) :
    (rootedPath cs).length = 1 ↔ cs = [] := by
  cases cs with
  | nil => simp [rootedPath]
  | cons c cs =>
    have hc : c ≠ [] := (h c (List.mem_cons_self _ _)).1
    have : 0 < c.length := List.length_pos.mpr hc
    constructor
    · intro h
      simp only [rootedPath, joinComps, List.length_cons, List.length_append] at h
      simp at h
      exact absurd h.1 hc
    · intro h
      simp at h

theorem rootedPath_length_pos (cs : List (List Nat)) : 0 < (rootedPath cs).length := by
  cases cs <;> simp [rootedPath, joinComps]

theorem backtrackLoop_component (l : List Nat) : ∀ (x : Nat) (jrev : List Nat),
    x ≠ slash → slash ∉ l →
    backtrackLoop 1 (l ++ slash :: jrev) x = if jrev = [] then [slash] else jrev := by
  induction l with
  | nil =>
    intro x jrev hx _
    cases jrev with
    | nil => simp [backtrackLoop]
    | cons d j => simp [backtrackLoop, hx]
  | cons y l ih =>
    intro x jrev hx hl
    have hy : y ≠ slash := fun h => hl (by simp [h])
    have hl2 : slash ∉ l := fun h => hl (by simp [h])
    have := ih y jrev hy hl2
    simp [backtrackLoop, hx]
    simpa using this

theorem backtrack_rootedPath (cs : List (List Nat)) (c : List Nat) (hc : GoodComp c) :
    backtrack 1 (rootedPath (cs ++ [c])) = rootedPath cs := by
  obtain ⟨hne, hns, _, _⟩ := hc
  rcases List.eq_nil_or_concat c with h | ⟨l, x, rfl⟩
  · exact absurd h hne
  · rw [List.concat_eq_append] at hns ⊢
    have hx : x ≠ slash := fun h => hns (by simp [h])
    have hl : slash ∉ l.reverse := fun h => hns (by simp at h; simp [h])
    have := backtrackLoop_component l.reverse x (joinComps cs).reverse hx hl
    simp only [backtrack, rootedPath_concat]
    simp only [List.reverse_append, List.reverse_cons, List.append_assoc, List.singleton_append,
      List.cons_append, List.nil_append, List.reverse_nil]
    rw [this]
    by_cases hcs : cs = []
    · simp [hcs, joinComps, rootedPath]
    · have : joinComps cs ≠ [] := fun h => hcs (joinComps_eq_nil.mp h)
      simp [this, hcs, rootedPath]

theorem takeWhile_ne_slash_eq_nil {t : List Nat} :
    t.takeWhile (fun b => b != slash) = [] ↔ (t = [] ∨ t.head? = some slash) := by
  cases t with
  | nil => simp
  | cons d t =>
    by_cases hd : d = slash
    · simp [List.takeWhile_cons, hd]
    · simp [List.takeWhile_cons, hd]

theorem slash_not_mem_takeWhile (t : List Nat) :
    slash ∉ t.takeWhile (fun b => b != slash) := by
  intro h
  have := List.mem_takeWhile_imp h
  simp at this

theorem goodComp_takeWhile (c : Nat) (t : List Nat) (h1 : c ≠ slash)
    (h2 : ¬ (c = dot ∧ (t = [] ∨ t.head? = some slash)))
    (h3 : ¬ (c = dot ∧ t.head? = some dot ∧ (t.tail = [] ∨ t.tail.head? = some slash))) :
    GoodComp ((c :: t).takeWhile (fun b => b != slash)) := by
  have hcons : (c :: t).takeWhile (fun b => b != slash)
      = c :: t.takeWhile (fun b => b != slash) := by
    simp [List.takeWhile_cons, h1]
  refine ⟨?_, slash_not_mem_takeWhile _, ?_, ?_⟩
  · rw [hcons]; simp
  · rw [hcons]
    intro h
    simp only [List.cons.injEq] at h
    exact h2 ⟨h.1, takeWhile_ne_slash_eq_nil.mp h.2⟩
  · rw [hcons]
    intro h
    simp only [List.cons.injEq] at h
    obtain ⟨hc, ht⟩ := h
    cases t with
    | nil => simp at ht
    | cons d t =>
      by_cases hd : d = slash
      · simp [List.takeWhile_cons, hd] at ht
      · have hd2 : (d != slash) = true := by simp [hd]
        simp only [List.takeWhile_cons, hd2, if_true, List.cons.injEq] at ht
        exact h3 ⟨hc, by simp [ht.1], by simpa using takeWhile_ne_slash_eq_nil.mp ht.2⟩

theorem length_dropWhile_le (p : Nat → Bool) (t : List Nat) :
    (t.dropWhile p).length ≤ t.length := by
  induction t with
  | nil => simp
  | cons d t ih =>
    simp only [List.dropWhile]
    split
    · simp; omega
    · simp

/-- The loop of `path.Clean` keeps the buffer a rooted path of kept elements. -/
theorem cleanLoop_rooted (fuel : Nat) : ∀ (rest : List Nat) (cs : List (List Nat)),
    (∀ c ∈ cs, GoodComp c) →
    ∃ cs', (∀ c ∈ cs', GoodComp c) ∧
      cleanLoop true fuel rest (rootedPath cs) 1 = rootedPath cs' := by
  induction fuel with
  | zero => intro rest cs h; exact ⟨cs, h, rfl⟩
  | succ fuel ih =>
    intro rest cs h
    cases rest with
    | nil => exact ⟨cs, h, rfl⟩
    | cons c t =>
      simp only [cleanLoop]
      by_cases h1 : c = slash
      · rw [if_pos h1]
        exact ih t cs h
      · rw [if_neg h1]
        by_cases h2 : c = dot ∧ (t = [] ∨ t.head? = some slash)
        · rw [if_pos h2]
          exact ih t cs h
        · rw [if_neg h2]
          by_cases h3 : c = dot ∧ t.head? = some dot ∧ (t.tail = [] ∨ t.tail.head? = some slash)
          · rw [if_pos h3]
            by_cases h4 : (rootedPath cs).length > 1
            · rw [if_pos h4]
              rcases List.eq_nil_or_concat cs with hnil | ⟨cs0, c0, hcs⟩
              · simp [hnil, rootedPath] at h4
              · rw [List.concat_eq_append] at hcs
                subst hcs
                rw [backtrack_rootedPath cs0 c0 (h c0 (by simp))]
                exact ih t.tail cs0 (fun c hc => h c (by simp [hc]))
            · rw [if_neg h4]
              simp only [Bool.not_true, Bool.false_eq_true, if_false]
              exact ih t.tail cs h
          · rw [if_neg h3]
            have hg := goodComp_takeWhile c t h1 h2 h3
            have hout : (if (true && (rootedPath cs).length != 1
                  || !true && (rootedPath cs).length != 0) = true
                then rootedPath cs ++ [slash] else rootedPath cs)
                ++ List.takeWhile (fun b => b != slash) (c :: t)
                = rootedPath (cs ++ [List.takeWhile (fun b => b != slash) (c :: t)]) := by
              rw [rootedPath_concat]
              by_cases hcs : cs = []
              · simp [hcs, rootedPath, joinComps]
              · have hlen : (rootedPath cs).length ≠ 1 :=
                  fun hl => hcs ((rootedPath_length_eq_one h).mp hl)
                have hlen2 : (joinComps cs).length ≠ 1 := by
                  simpa [rootedPath, hcs] using hlen
                simp [hlen2, rootedPath, hcs]
            rw [hout]
            exact ih _ _ (fun c1 hc1 => by
              rcases List.mem_append.mp hc1 with hm | hm
              · exact h c1 hm
              · simp at hm
                rw [hm]
                exact hg)

theorem takeWhile_dropWhile_append (c j : List Nat) (hs : slash ∉ c)
    (hj : j = [] ∨ j.head? = some slash) :
    (c ++ j).takeWhile (fun b => b != slash) = c ∧
      (c ++ j).dropWhile (fun b => b != slash) = j := by
  induction c with
  | nil =>
    refine ⟨takeWhile_ne_slash_eq_nil.mpr hj, ?_⟩
    cases j with
    | nil => rfl
    | cons d j =>
      have hd : d = slash := by simpa using hj
      simp [List.dropWhile_cons, hd]
  | cons d c ih =>
    have hd : d ≠ slash := fun h => hs (by simp [h])
    have hc : slash ∉ c := fun h => hs (by simp [h])
    obtain ⟨h1, h2⟩ := ih hc
    simp only [List.cons_append] at h1 h2 ⊢
    constructor
    · simp [List.takeWhile_cons, hd, h1]
    · simp [List.dropWhile_cons, hd, h2]

theorem joinComps_nil_or_head (cs : List (List Nat)) :
    joinComps cs = [] ∨ (joinComps cs).head? = some slash := by
  cases cs <;> simp [joinComps]

theorem cleanLoop_nil (rooted : Bool) (fuel : Nat) (out : List Nat) (dotdot : Nat) :
    cleanLoop rooted fuel [] out dotdot = out := by
  cases fuel <;> rfl

theorem addElem_rootedPath (cs : List (List Nat)) (h : ∀ c ∈ cs, GoodComp c) (e : List Nat) :
    (if (true && (rootedPath cs).length != 1 || !true && (rootedPath cs).length != 0) = true
      then rootedPath cs ++ [slash] else rootedPath cs) ++ e = rootedPath (cs ++ [e]) := by
  rw [rootedPath_concat]
  by_cases hcs : cs = []
  · simp [hcs, rootedPath, joinComps]
  · have hlen : (rootedPath cs).length ≠ 1 :=
      fun hl => hcs ((rootedPath_length_eq_one h).mp hl)
    have hlen2 : (joinComps cs).length ≠ 1 := by
      simpa [rootedPath, hcs] using hlen
    simp [hlen2, rootedPath, hcs]

/-- On a rooted path of kept elements the loop of `path.Clean` rebuilds the same path. -/
theorem cleanLoop_canonical : ∀ (cs done : List (List Nat)) (c : List Nat) (fuel : Nat),
    GoodComp c → (∀ d ∈ cs, GoodComp d) → (∀ d ∈ done, GoodComp d) →
    (c ++ joinComps cs).length ≤ fuel →
    cleanLoop true fuel (c ++ joinComps cs) (rootedPath done) 1
      = rootedPath (done ++ c :: cs) := by
  intro cs
  induction cs with
  | nil =>
    intro done c fuel hc _ hdone hfuel
    obtain ⟨hne, hns, hd1, hd2⟩ := hc
    cases c with
    | nil => exact absurd rfl hne
    | cons c0 c1 =>
      cases fuel with
      | zero => simp at hfuel
      | succ f =>
        have h1 : c0 ≠ slash := fun h => hns (by simp [h])
        have hc1 : slash ∉ c1 := fun h => hns (by simp [h])
        have h2 : ¬ (c0 = dot ∧ (c1 ++ joinComps [] = [] ∨
            (c1 ++ joinComps []).head? = some slash)) := by
          rintro ⟨h0, ht⟩
          cases c1 with
          | nil => exact hd1 (by rw [h0])
          | cons d c2 =>
            have : d = slash := by simpa [joinComps] using ht
            exact hc1 (by simp [this])
        have h3 : ¬ (c0 = dot ∧ (c1 ++ joinComps []).head? = some dot ∧
            ((c1 ++ joinComps []).tail = [] ∨
              (c1 ++ joinComps []).tail.head? = some slash)) := by
          rintro ⟨h0, hh, ht⟩
          cases c1 with
          | nil => exact hd1 (by rw [h0])
          | cons d c2 =>
            have hd : d = dot := by simpa [joinComps] using hh
            cases c2 with
            | nil => exact hd2 (by rw [h0, hd])
            | cons e c3 =>
              have : e = slash := by simpa [joinComps] using ht
              exact hc1 (by simp [this])
        have htd := takeWhile_dropWhile_append (c0 :: c1) (joinComps []) hns (Or.inl rfl)
        simp only [List.cons_append] at htd
        simp only [List.cons_append, cleanLoop]
        rw [if_neg h1, if_neg h2, if_neg h3, htd.1, htd.2, addElem_rootedPath done hdone]
        simp [joinComps, cleanLoop_nil]
  | cons c2 cs ih =>
    intro done c fuel hc hcs hdone hfuel
    obtain ⟨hne, hns, hd1, hd2⟩ := hc
    cases c with
    | nil => exact absurd rfl hne
    | cons c0 c1 =>
      cases fuel with
      | zero => simp at hfuel
      | succ f =>
        have h1 : c0 ≠ slash := fun h => hns (by simp [h])
        have hc1 : slash ∉ c1 := fun h => hns (by simp [h])
        have h2 : ¬ (c0 = dot ∧ (c1 ++ joinComps (c2 :: cs) = [] ∨
            (c1 ++ joinComps (c2 :: cs)).head? = some slash)) := by
          rintro ⟨h0, ht⟩
          cases c1 with
          | nil => exact hd1 (by rw [h0])
          | cons d c3 =>
            have : d = slash := by simpa [joinComps] using ht
            exact hc1 (by simp [this])
        have h3 : ¬ (c0 = dot ∧ (c1 ++ joinComps (c2 :: cs)).head? = some dot ∧
            ((c1 ++ joinComps (c2 :: cs)).tail = [] ∨
              (c1 ++ joinComps (c2 :: cs)).tail.head? = some slash)) := by
          rintro ⟨h0, hh, ht⟩
          cases c1 with
          | nil =>
            have : slash = dot := by simpa [joinComps] using hh
            exact absurd this (by decide)
          | cons d c3 =>
            have hd : d = dot := by simpa [joinComps] using hh
            cases c3 with
            | nil => exact hd2 (by rw [h0, hd])
            | cons e c4 =>
              have : e = slash := by simpa [joinComps] using ht
              exact hc1 (by simp [this])
        have htd := takeWhile_dropWhile_append (c0 :: c1) (joinComps (c2 :: cs)) hns
          (joinComps_nil_or_head _)
        simp only [List.cons_append] at htd
        simp only [List.cons_append, cleanLoop]
        rw [if_neg h1, if_neg h2, if_neg h3, htd.1, htd.2, addElem_rootedPath done hdone]
        have hf : (c2 ++ joinComps cs).length < f := by
          simp only [joinComps, List.length_cons, List.length_append] at hfuel ⊢
          omega
        cases f with
        | zero => simp at hf
        | succ f2 =>
          have hg : ∀ d ∈ done ++ [c0 :: c1], GoodComp d := by
            intro d hd
            rcases List.mem_append.mp hd with hm | hm
            · exact hdone d hm
            · simp at hm
              rw [hm]
              exact ⟨hne, hns, hd1, hd2⟩
          have := ih (done ++ [c0 :: c1]) c2 f2 (hcs c2 (by simp))
            (fun d hd => hcs d (by simp [hd])) hg (by omega)
          simp only [joinComps, cleanLoop, List.cons_append, if_true]
          rw [this]
          simp

theorem rootedPath_ne_nil (cs : List (List Nat)) : rootedPath cs ≠ [] := by
  cases cs <;> simp [rootedPath, joinComps]

theorem rootedPath_head (cs : List (List Nat)) : (rootedPath cs).head? = some slash := by
  cases cs <;> simp [rootedPath, joinComps]

theorem rootedPath_getLast {cs : List (List Nat)} (h : ∀ c ∈ cs, GoodComp c)
    (hl : (rootedPath cs).getLast? = some slash) : rootedPath cs = [slash] := by
  rcases List.eq_nil_or_concat cs with hnil | ⟨cs0, c0, hcs⟩
  · simp [hnil, rootedPath]
  · rw [List.concat_eq_append] at hcs
    subst hcs
    obtain ⟨hne, hns, _, _⟩ := h c0 (by simp)
    rw [rootedPath_concat] at hl
    rcases List.eq_nil_or_concat c0 with h0 | ⟨l, x, hx⟩
    · exact absurd h0 hne
    · rw [List.concat_eq_append] at hx
      subst hx
      have : x = slash := by
        have h2 : joinComps cs0 ++ slash :: (l ++ [x]) = (joinComps cs0 ++ slash :: l) ++ [x] := by
          simp
        rw [h2, List.getLast?_append] at hl
        simpa using hl
      exact absurd (by simp [this]) hns

/-- On a rooted path `path.Clean` returns a rooted path of kept elements. -/
theorem Clean_rooted (p : GoString) (hp : p.head? = some slash) :
    ∃ cs, (∀ c ∈ cs, GoodComp c) ∧ Clean p = rootedPath cs := by
  cases p with
  | nil => simp at hp
  | cons b t =>
    have hb : b = slash := by simpa using hp
    subst hb
    obtain ⟨cs, hcs, heq⟩ := cleanLoop_rooted (slash :: t).length t [] (by simp)
    refine ⟨cs, hcs, ?_⟩
    have hr : rootedPath [] = [slash] := rfl
    rw [hr] at heq
    have hpos := rootedPath_length_pos cs
    simp only [Clean, List.head?_cons, decide_True, if_true, List.tail_cons, heq]
    simp [rootedPath_ne_nil]

/-- A rooted path of kept elements is a fixed point of `path.Clean`. -/
theorem Clean_rootedPath (cs : List (List Nat)) (h : ∀ c ∈ cs, GoodComp c) :
    Clean (rootedPath cs) = rootedPath cs := by
  cases cs with
  | nil => decide
  | cons c cs =>
    have hcl := cleanLoop_canonical cs [] c (slash :: c ++ joinComps cs).length
      (h c (by simp)) (fun d hd => h d (by simp [hd])) (by simp) (by simp)
    have hr : rootedPath [] = [slash] := rfl
    rw [hr] at hcl
    have hpos := rootedPath_length_pos (c :: cs)
    have hrp : rootedPath (c :: cs) = slash :: c ++ joinComps cs := by
      simp [rootedPath, joinComps]
    rw [hrp] at hpos ⊢
    simp only [List.nil_append] at hcl
    rw [hrp] at hcl
    simp only [Clean, List.cons_append, List.head?_cons, decide_True, if_true, List.tail_cons]
    simp only [List.cons_append] at hcl
    rw [hcl]
    simp

/-- The loop of `path.Clean` needs no more iterations than there are bytes left. -/
theorem cleanLoop_fuel (rooted : Bool) (fuel : Nat) : ∀ (rest out : List Nat) (dotdot extra : Nat),
    rest.length ≤ fuel →
    cleanLoop rooted (fuel + extra) rest out dotdot = cleanLoop rooted fuel rest out dotdot := by
  induction fuel with
  | zero =>
    intro rest out dotdot extra h
    have : rest = [] := List.length_eq_zero.mp (by omega)
    subst this
    simp [cleanLoop_nil]
  | succ fuel ih =>
    intro rest out dotdot extra h
    have hf : fuel + 1 + extra = (fuel + extra) + 1 := by omega
    rw [hf]
    cases rest with
    | nil => rfl
    | cons c t =>
      have ht : t.length ≤ fuel := by simpa using h
      have htt : t.tail.length ≤ fuel := by simp; omega
      have hd : (List.dropWhile (fun b => b != slash) (c :: t)).length ≤ fuel ∨ c = slash := by
        by_cases hc : c = slash
        · exact Or.inr hc
        · left
          have := length_dropWhile_le (fun b => b != slash) t
          simp only [List.dropWhile_cons, bne_iff_ne, ne_eq, hc, not_false_eq_true, if_true]
          omega
      simp only [cleanLoop]
      by_cases h1 : c = slash
      · rw [if_pos h1, if_pos h1]
        exact ih _ _ _ _ ht
      · rw [if_neg h1, if_neg h1]
        rcases hd with hd | hd
        · rw [ih _ _ _ _ ht, ih _ _ _ _ htt, ih _ _ _ _ htt, ih _ _ _ _ htt, ih _ _ _ _ hd]
        · exact absurd hd h1

theorem trimRightRev_idem (l : List Nat) : trimRightRev (trimRightRev l) = trimRightRev l := by
  induction l with
  | nil => rfl
  | cons c l ih =>
    by_cases hc : c = slash
    · simp [trimRightRev, hc, ih]
    · simp [trimRightRev, hc]

theorem TrimRight_idem (s : GoString) : TrimRight (TrimRight s) = TrimRight s := by
  simp [TrimRight, trimRightRev_idem]

/-- With path cleaning on, `PreparePath` returns a rooted path of kept elements,
whatever the trailing-slash flag; on a rooted argument it returns what `path.Clean`
returns. -/
theorem PreparePath_cleanPath (r : router) (p : GoString) (hc : r.cleanPath = true) :
    ∃ cs, (∀ c ∈ cs, GoodComp c) ∧ r.PreparePath p = .ok (rootedPath cs) ∧
      (p.head? = some slash → Clean p = rootedPath cs) := by
  have key : ∀ q : GoString, q.head? = some slash →
      ∃ cs, (∀ c ∈ cs, GoodComp c) ∧
        (if (!r.trimTrailingSlashes) = true then
          match (Clean q).getLast? with
          | none => (Except.error Fault.panic : Except Fault GoString)
          | some l => if l = slash ∧ Clean q ≠ [slash] then .ok (Clean q ++ [slash])
              else .ok (Clean q)
        else .ok (Clean q)) = .ok (rootedPath cs) ∧ Clean q = rootedPath cs := by
    intro q hq
    obtain ⟨cs, hcs, heq⟩ := Clean_rooted q hq
    refine ⟨cs, hcs, ?_, heq⟩
    rw [heq]
    split
    · cases hl : (rootedPath cs).getLast? with
      | none => exact absurd (List.getLast?_eq_none_iff.mp hl) (rootedPath_ne_nil cs)
      | some l =>
        simp only
        rw [if_neg]
        rintro ⟨h1, h2⟩
        exact h2 (rootedPath_getLast hcs (by rw [hl, h1]))
    · rfl
  cases p with
  | nil =>
    simp only [router.PreparePath, hc, if_true, List.head?_cons]
    obtain ⟨cs, h1, h2, _⟩ := key [slash] rfl
    exact ⟨cs, h1, h2, by simp⟩
  | cons b t =>
    simp only [router.PreparePath, hc, if_true, List.head?_cons]
    by_cases hb : b = slash
    · subst hb
      obtain ⟨cs, h1, h2, h3⟩ := key (slash :: t) rfl
      exact ⟨cs, h1, by simpa using h2, fun _ => h3⟩
    · obtain ⟨cs, h1, h2, _⟩ := key (slash :: b :: t) rfl
      exact ⟨cs, h1, by simpa [hb] using h2, by simp [hb]⟩

/-! ## The filter chain -/

theorem gatesOf_append (a b : List Event) : gatesOf (a ++ b) = gatesOf a ++ gatesOf b := by
  induction a with
  | nil => rfl
  | cons e a ih => cases e <;> simp [gatesOf, ih]

theorem handlersOf_append (a b : List Event) :
    handlersOf (a ++ b) = handlersOf a ++ handlersOf b := by
  induction a with
  | nil => rfl
  | cons e a ih => cases e <;> simp [handlersOf, ih]

/-- A filter body leaves `count` and `filters` alone and invokes no route handler,
when the nested `chain.Run` does so. -/
theorem execFilter_inv (runChain : FilterChain → Except Fault (Bool × FilterChain × List Event))
    (hrun : ∀ c b c1 evs, runChain c = .ok (b, c1, evs) →
      c1.count = c.count ∧ c1.filters = c.filters ∧ handlersOf evs = []) :
    ∀ (p : FilterProg) (c : FilterChain) (b : Bool) (c1 : FilterChain) (evs : List Event),
      execFilter runChain p c = .ok (b, c1, evs) →
      c1.count = c.count ∧ c1.filters = c.filters ∧ handlersOf evs = [] := by
  intro p
  induction p with
  | ret b0 =>
    intro c b c1 evs h
    simp only [execFilter, Except.ok.injEq, Prod.mk.injEq] at h
    obtain ⟨_, h2, h3⟩ := h
    subst h2 h3
    exact ⟨rfl, rfl, rfl⟩
  | run k ih =>
    intro c b c1 evs h
    simp only [execFilter] at h
    cases hr : runChain c with
    | error f => rw [hr] at h; simp at h
    | ok res =>
      obtain ⟨b1, c2, evs1⟩ := res
      rw [hr] at h
      simp only at h
      cases he : execFilter runChain (k b1) c2 with
      | error f => rw [he] at h; simp at h
      | ok res2 =>
        obtain ⟨b2, c3, evs2⟩ := res2
        rw [he] at h
        simp only [Except.ok.injEq, Prod.mk.injEq] at h
        obtain ⟨_, h2, h3⟩ := h
        subst h2 h3
        obtain ⟨a1, a2, a3⟩ := hrun c b1 c2 evs1 hr
        obtain ⟨d1, d2, d3⟩ := ih b1 c2 b2 c3 evs2 he
        exact ⟨d1.trans a1, d2.trans a2, by rw [handlersOf_append, a3, d3]; rfl⟩
  | act e k ih =>
    intro c b c1 evs h
    simp only [execFilter] at h
    cases he : execFilter runChain k c with
    | error f => rw [he] at h; simp at h
    | ok res =>
      obtain ⟨b2, c3, evs2⟩ := res
      rw [he] at h
      simp only [Except.ok.injEq, Prod.mk.injEq] at h
      obtain ⟨_, h2, h3⟩ := h
      subst h2 h3
      obtain ⟨d1, d2, d3⟩ := ih c b2 c3 evs2 he
      exact ⟨d1, d2, by simpa [handlersOf] using d3⟩
  | fail f =>
    intro c b c1 evs h
    simp [execFilter] at h

/-- The chain after `Run` has the same `count` and `filters`, and `Run` invokes no
route handler. -/
theorem Run_inv (fuel : Nat) : ∀ (req : Request) (c : FilterChain) (b : Bool)
    (c1 : FilterChain) (evs : List Event), c.Run fuel req = .ok (b, c1, evs) →
    c1.count = c.count ∧ c1.filters = c.filters ∧ handlersOf evs = [] := by
  induction fuel with
  | zero => intro req c b c1 evs h; simp [FilterChain.Run] at h
  | succ fuel ih =>
    intro req c b c1 evs h
    simp only [FilterChain.Run] at h
    split at h
    · simp only [Except.ok.injEq, Prod.mk.injEq] at h
      obtain ⟨_, h2, h3⟩ := h
      subst h2 h3
      exact ⟨rfl, rfl, rfl⟩
    · split at h
      · simp at h
      · rename_i filter _
        split at h
        · simp at h
        · rename_i b2 c2 evs2 he
          simp only [Except.ok.injEq, Prod.mk.injEq] at h
          obtain ⟨_, h2, h3⟩ := h
          subst h2 h3
          obtain ⟨d1, d2, d3⟩ := execFilter_inv (FilterChain.Run fuel req) (ih req) _ _ _ _ _ he
          exact ⟨d1, d2, by simpa [handlersOf] using d3⟩

/-- A chain entered with the cursor at 0 is left with the cursor at 0. -/
theorem Run_current (fuel : Nat) (req : Request) (c : FilterChain) (b : Bool)
    (c1 : FilterChain) (evs : List Event) (h0 : c.current = 0)
    (h : c.Run fuel req = .ok (b, c1, evs)) : c1.current = 0 := by
  cases fuel with
  | zero => simp [FilterChain.Run] at h
  | succ fuel =>
    simp only [FilterChain.Run] at h
    split at h
    · simp only [Except.ok.injEq, Prod.mk.injEq] at h
      obtain ⟨_, h2, _⟩ := h
      subst h2
      exact h0
    · split at h
      · simp at h
      · split at h
        · simp at h
        · simp only [Except.ok.injEq, Prod.mk.injEq] at h
          obtain ⟨_, h2, _⟩ := h
          subst h2
          rfl

theorem execFilter_returnsOnly
    (runChain : FilterChain → Except Fault (Bool × FilterChain × List Event)) :
    ∀ (p : FilterProg) (b : Bool) (c : FilterChain), p.returnsOnly b = true →
      ∃ evs, execFilter runChain p c = .ok (b, c, evs) ∧ gatesOf evs = [] := by
  intro p
  induction p with
  | ret b0 =>
    intro b c h
    have : b0 = b := by simpa [FilterProg.returnsOnly] using h
    subst this
    exact ⟨[], rfl, rfl⟩
  | run k _ => intro b c h; simp [FilterProg.returnsOnly] at h
  | act e k ih =>
    intro b c h
    obtain ⟨evs, h1, h2⟩ := ih b c (by simpa [FilterProg.returnsOnly] using h)
    exact ⟨Event.act e :: evs, by simp [execFilter, h1], by simpa [gatesOf] using h2⟩
  | fail f => intro b c h; simp [FilterProg.returnsOnly] at h

theorem execFilter_accepts
    (runChain : FilterChain → Except Fault (Bool × FilterChain × List Event)) :
    ∀ (p : FilterProg) (c : FilterChain), p.accepts = true →
      ∀ b c1 evs1, runChain c = .ok (b, c1, evs1) →
        ∃ evs, execFilter runChain p c = .ok (b, c1, evs) ∧ gatesOf evs = gatesOf evs1 := by
  intro p
  induction p with
  | ret b0 => intro c h; simp [FilterProg.accepts] at h
  | run k _ =>
    intro c h b c1 evs1 hr
    have hk : (k b).returnsOnly b = true := by
      simp only [FilterProg.accepts, Bool.and_eq_true] at h
      cases b
      · exact h.2
      · exact h.1
    obtain ⟨evs2, h1, h2⟩ := execFilter_returnsOnly runChain (k b) b c1 hk
    exact ⟨evs1 ++ evs2, by simp [execFilter, hr, h1], by simp [gatesOf_append, h2]⟩
  | act e k ih =>
    intro c h b c1 evs1 hr
    obtain ⟨evs, h1, h2⟩ := ih c (by simpa [FilterProg.accepts] using h) b c1 evs1 hr
    exact ⟨Event.act e :: evs, by simp [execFilter, h1], by simpa [gatesOf] using h2⟩
  | fail f => intro c h; simp [FilterProg.accepts] at h

theorem not_accepts_of_rejects : ∀ (p : FilterProg), p.rejects = true → p.accepts = false := by
  intro p
  induction p with
  | ret b0 => intro _; rfl
  | run k _ => intro h; simp [FilterProg.rejects, FilterProg.returnsOnly] at h
  | act e k ih =>
    intro h
    simpa [FilterProg.accepts] using ih (by simpa [FilterProg.rejects, FilterProg.returnsOnly] using h)
  | fail f => intro _; rfl

/-- The run of a chain of accepting and rejecting gates from the cursor on, when the
cursor is `n` gates before the end. -/
theorem Run_wellBehaved (req : Request) : ∀ (n : Nat) (c : FilterChain) (fuel : Nat),
    c.count = c.filters.length → c.current + n = c.count → n < fuel →
    (∀ f ∈ c.filters.drop c.current, (f req).accepts = true ∨ (f req).rejects = true) →
    ∃ evs, c.Run fuel req =
        .ok (((c.filters.drop c.current).map (fun f => f req)).all FilterProg.accepts,
          { c with current := if n = 0 then c.current else 0 }, evs) ∧
      gatesOf evs =
        List.range' c.current (runLen ((c.filters.drop c.current).map (fun f => f req))) := by
  intro n
  induction n with
  | zero =>
    intro c fuel hcount hcur hfuel _
    cases fuel with
    | zero => omega
    | succ fuel =>
      have hge : c.current ≥ c.count := by omega
      have hdrop : c.filters.drop c.current = [] := List.drop_eq_nil_of_le (by omega)
      refine ⟨[], ?_, ?_⟩
      · simp [FilterChain.Run, hge, hdrop]
      · simp [hdrop, runLen, gatesOf]
  | succ n ih =>
    intro c fuel hcount hcur hfuel hgates
    cases fuel with
    | zero => omega
    | succ fuel =>
      have hlt : c.current < c.filters.length := by omega
      have hcond : ¬ (c.count = 0 ∨ c.current ≥ c.count) := by omega
      have hdrop : c.filters.drop c.current
          = c.filters[c.current] :: c.filters.drop (c.current + 1) :=
        List.drop_eq_getElem_cons hlt
      have hget : c.filters[c.current]? = some c.filters[c.current] :=
        List.getElem?_eq_getElem hlt
      simp only [FilterChain.Run, if_neg hcond, hget]
      have hih := ih { c with current := c.current + 1 } fuel hcount
        (by simp only; omega) (by omega)
      dsimp only at hih
      generalize c.filters[c.current] = f at hdrop hget
      generalize c.filters.drop (c.current + 1) = rest at hdrop hih
      rw [hdrop] at hgates ⊢
      rcases hgates _ (List.mem_cons_self _ _) with hacc | hrej
      · obtain ⟨evs1, hrun, hg1⟩ := hih (fun f hf => hgates f (List.mem_cons_of_mem _ hf))
        obtain ⟨evs, hex, hg⟩ := execFilter_accepts (FilterChain.Run fuel req)
          (f req) { c with current := c.current + 1 } hacc _ _ _ hrun
        refine ⟨Event.gate c.current :: evs, ?_, ?_⟩
        · simp [hex, hacc]
        · simp only [gatesOf, hg, hg1, List.map_cons, runLen, hacc, if_true]
          rw [List.range'_succ]
      · have hna := not_accepts_of_rejects _ hrej
        obtain ⟨evs, hex, hg⟩ := execFilter_returnsOnly (FilterChain.Run fuel req)
          (f req) false { c with current := c.current + 1 } hrej
        refine ⟨Event.gate c.current :: evs, ?_, ?_⟩
        · simp [hex, hna]
        · simp [gatesOf, hg, runLen, hna]

theorem runLen_all_accept (ps : List FilterProg) (h : ∀ p ∈ ps, p.accepts = true) :
    runLen ps = ps.length := by
  induction ps with
  | nil => rfl
  | cons p ps ih =>
    simp [runLen, h p (List.mem_cons_self _ _), ih (fun q hq => h q (List.mem_cons_of_mem _ hq))]

theorem runLen_first_reject : ∀ (ps : List FilterProg) (k : Nat) (p : FilterProg),
    ps[k]? = some p → p.accepts = false →
    (∀ j q, j < k → ps[j]? = some q → q.accepts = true) → runLen ps = k + 1 := by
  intro ps
  induction ps with
  | nil => intro k p h; simp at h
  | cons q ps ih =>
    intro k p hk hp hbefore
    cases k with
    | zero =>
      have : q = p := by simpa using hk
      subst this
      simp [runLen, hp]
    | succ k =>
      have hq : q.accepts = true := hbefore 0 q (by omega) (by simp)
      have := ih k p (by simpa using hk) hp
        (fun j q2 hj hq2 => hbefore (j + 1) q2 (by omega) (by simpa using hq2))
      simp [runLen, hq, this]

/-- C5: short-circuit semantics of `FilterChain.Run`.  For a chain of `N` gates
(`count` is the number of filters) entered with the cursor at 0, each gate either
rejecting (returning false without invoking `chain.Run`) or accepting (invoking
`chain.Run` once and returning its result), `Run` returns; it returns true exactly
when every gate accepts, in particular when `N = 0`; and when gate `k` is the first
to reject, the gates that run are `0, 1, ..., k`, once each and in this order. -/
theorem Run_short_circuit (c : FilterChain) (req : Request) (fuel : Nat)
    (hcount : c.count = c.filters.length) (hcur : c.current = 0)
    (hgates : ∀ f ∈ c.filters, (f req).accepts = true ∨ (f req).rejects = true)
    (hfuel : c.filters.length < fuel) :
    ∃ b evs, c.Run fuel req = .ok (b, c, evs) ∧
      (b = true ↔ ∀ f ∈ c.filters, (f req).accepts = true) ∧
      (c.filters = [] → b = true) ∧
      (∀ k f, c.filters[k]? = some f → (f req).rejects = true →
        (∀ j g, j < k → c.filters[j]? = some g → (g req).accepts = true) →
        gatesOf evs = List.range (k + 1)) := by
  obtain ⟨evs, hrun, hg⟩ := Run_wellBehaved req c.filters.length c fuel hcount
    (by omega) hfuel (by simpa [hcur] using hgates)
  have hc : ({ c with current := if c.filters.length = 0 then c.current else 0 } : FilterChain)
      = c := by
    cases c with
    | mk count current filters =>
      simp only at hcur
      subst hcur
      simp
  rw [hc, hcur, List.drop_zero] at hrun
  rw [hcur, List.drop_zero] at hg
  refine ⟨_, evs, hrun, ?_, ?_, ?_⟩
  · simp [List.all_eq_true]
  · intro h
    simp [h]
  · intro k f hk hrej hbefore
    rw [hg, List.range_eq_range']
    congr 1
    apply runLen_first_reject _ k (f req)
    · simp [hk]
    · exact not_accepts_of_rejects _ hrej
    · intro j q hj hq
      rw [List.getElem?_map] at hq
      cases hgj : c.filters[j]? with
      | none => simp [hgj] at hq
      | some g =>
        simp only [hgj, Option.map_some', Option.some.injEq] at hq
        rw [← hq]
        exact hbefore j g hj hgj

/-- C5 at the chain pass, deny, pass: `Run` returns false and the gates 0 and 1 run. -/
theorem Run_short_circuit_witness :
    chainPassDenyPass.count = chainPassDenyPass.filters.length ∧
    chainPassDenyPass.current = 0 ∧
    (∀ f ∈ chainPassDenyPass.filters,
      (f requestA).accepts = true ∨ (f requestA).rejects = true) ∧
    chainPassDenyPass.filters.length < 4 ∧
    ∃ b evs, chainPassDenyPass.Run 4 requestA = .ok (b, chainPassDenyPass, evs) ∧
      (b = true ↔ ∀ f ∈ chainPassDenyPass.filters, (f requestA).accepts = true) ∧
      (chainPassDenyPass.filters = [] → b = true) ∧
      (∀ k f, chainPassDenyPass.filters[k]? = some f → (f requestA).rejects = true →
        (∀ j g, j < k → chainPassDenyPass.filters[j]? = some g →
          (g requestA).accepts = true) →
        gatesOf evs = List.range (k + 1)) :=
  ⟨rfl, rfl, by decide, by decide,
    Run_short_circuit chainPassDenyPass requestA 4 rfl rfl (by decide) (by decide)⟩

/-- C6: cursor invariant of `FilterChain.Run`.  For a chain entered with the cursor
at 0 and gates of any behaviour, whenever the top-level `Run` returns, with true or
with false, the cursor is 0 again and the filters are the same, so that the next
`Run` starts from gate 0. -/
theorem Run_cursor_invariant (c : FilterChain) (req : Request) (fuel : Nat) (b : Bool)
    (c1 : FilterChain) (evs : List Event) (hcur : c.current = 0)
    (hrun : c.Run fuel req = .ok (b, c1, evs)) :
    c1.current = 0 ∧ c1.count = c.count ∧ c1.filters = c.filters := by
  obtain ⟨h1, h2, _⟩ := Run_inv fuel req c b c1 evs hrun
  exact ⟨Run_current fuel req c b c1 evs hcur hrun, h1, h2⟩

/-- C6 at the chain pass, deny, pass, whose run returns false after two gates. -/
theorem Run_cursor_invariant_witness :
    chainPassDenyPass.current = 0 ∧
    chainPassDenyPass.Run 3 requestA = .ok (false, chainPassDenyPass,
      [Event.gate 0, Event.gate 1, Event.act Effect.badRequest]) ∧
    chainPassDenyPass.current = 0 ∧ chainPassDenyPass.count = chainPassDenyPass.count ∧
    chainPassDenyPass.filters = chainPassDenyPass.filters :=
  ⟨rfl, rfl, Run_cursor_invariant chainPassDenyPass requestA 3 false chainPassDenyPass
    [Event.gate 0, Event.gate 1, Event.act Effect.badRequest] rfl rfl⟩

/-- C7 fails as stated: in the chain of two filters that each return true without
invoking `chain.Run`, the top-level `Run` returns true although filter 1 never
runs; the only gate that runs is gate 0. -/
theorem Run_true_without_all_filters :
    chainStopStop.current = 0 ∧ chainStopStop.count = 2 ∧ chainStopStop.filters.length = 2 ∧
    chainStopStop.Run 2 requestA = .ok (true, chainStopStop, [Event.gate 0]) ∧
    1 ∉ gatesOf [Event.gate 0] :=
  ⟨rfl, rfl, rfl, rfl, by decide⟩

/-- C7 as amended: for a chain entered with the cursor at 0 whose filters keep to
the contract of `Filter` (on success they invoke `chain.Run` once and return its
result, on failure they return false without invoking it), `Run` returns; if it
returns true then every filter accepted and every filter ran, once each and in
order; and if every filter accepts then it returns true and every filter runs. -/
theorem Run_true_iff_all_run (c : FilterChain) (req : Request) (fuel : Nat)
    (hcount : c.count = c.filters.length) (hcur : c.current = 0)
    (hgates : ∀ f ∈ c.filters, (f req).accepts = true ∨ (f req).rejects = true)
    (hfuel : c.filters.length < fuel) :
    ∃ b evs, c.Run fuel req = .ok (b, c, evs) ∧
      (b = true → (∀ f ∈ c.filters, (f req).accepts = true) ∧
        gatesOf evs = List.range c.filters.length) ∧
      ((∀ f ∈ c.filters, (f req).accepts = true) →
        b = true ∧ gatesOf evs = List.range c.filters.length) := by
  obtain ⟨evs, hrun, hg⟩ := Run_wellBehaved req c.filters.length c fuel hcount
    (by omega) hfuel (by simpa [hcur] using hgates)
  have hc : ({ c with current := if c.filters.length = 0 then c.current else 0 } : FilterChain)
      = c := by
    cases c with
    | mk count current filters =>
      simp only at hcur
      subst hcur
      simp
  rw [hc, hcur, List.drop_zero] at hrun
  rw [hcur, List.drop_zero] at hg
  have hall : (∀ f ∈ c.filters, (f req).accepts = true) →
      gatesOf evs = List.range c.filters.length := by
    intro h
    rw [hg, List.range_eq_range', runLen_all_accept _ (by simpa using h)]
    simp
  refine ⟨_, evs, hrun, ?_, ?_⟩
  · intro hb
    have h : ∀ f ∈ c.filters, (f req).accepts = true := by
      simpa [List.all_eq_true] using hb
    exact ⟨h, hall h⟩
  · intro h
    exact ⟨by simpa [List.all_eq_true] using h, hall h⟩

/-- C7 as amended, at the chain pass, pass: `Run` returns true and both gates run. -/
theorem Run_true_iff_all_run_witness :
    chainPassPass.count = chainPassPass.filters.length ∧ chainPassPass.current = 0 ∧
    (∀ f ∈ chainPassPass.filters,
      (f requestA).accepts = true ∨ (f requestA).rejects = true) ∧
    chainPassPass.filters.length < 3 ∧
    ∃ b evs, chainPassPass.Run 3 requestA = .ok (b, chainPassPass, evs) ∧
      (b = true → (∀ f ∈ chainPassPass.filters, (f requestA).accepts = true) ∧
        gatesOf evs = List.range chainPassPass.filters.length) ∧
      ((∀ f ∈ chainPassPass.filters, (f requestA).accepts = true) →
        b = true ∧ gatesOf evs = List.range chainPassPass.filters.length) :=
  ⟨rfl, rfl, by decide, by decide,
    Run_true_iff_all_run chainPassPass requestA 3 rfl rfl (by decide) (by decide)⟩

/-! ## Path preparation -/

/-- C8: path preparation is idempotent.  For every router, hence for each of the
four settings of the flags `cleanPath` and `trimTrailingSlashes`, and for every
path `p`, `PreparePath` returns a path `q`, and `PreparePath` of `q` returns `q`. -/
theorem PreparePath_idempotent (r : router) (p : GoString) :
    ∃ q, r.PreparePath p = .ok q ∧ r.PreparePath q = .ok q := by
  by_cases hc : r.cleanPath = true
  · obtain ⟨cs, hcs, h1, _⟩ := PreparePath_cleanPath r p hc
    obtain ⟨cs2, _, h2, h3⟩ := PreparePath_cleanPath r (rootedPath cs) hc
    refine ⟨rootedPath cs, h1, ?_⟩
    rw [h2, ← h3 (rootedPath_head cs), Clean_rootedPath cs hcs]
  · have hc2 : r.cleanPath = false := by simpa using hc
    by_cases ht : r.trimTrailingSlashes = true
    · exact ⟨TrimRight p, by simp [router.PreparePath, hc2, ht],
        by simp [router.PreparePath, hc2, ht, TrimRight_idem]⟩
    · have ht2 : r.trimTrailingSlashes = false := by simpa using ht
      exact ⟨p, by simp [router.PreparePath, hc2, ht2], by simp [router.PreparePath, hc2, ht2]⟩

/-- C9: with `cleanPath` on and `trimTrailingSlashes` off, the path `/foo/` is
prepared to `/foo`: the trailing slash that the claim wants preserved is lost,
because the test for a trailing slash reads the path after `path.Clean`. -/
theorem PreparePath_loses_trailing_slash :
    router.PreparePath { routes := [], trimTrailingSlashes := false, cleanPath := true }
      (str "/foo/") = .ok (str "/foo") := by
  rfl

/-- C10: with `cleanPath` and `trimTrailingSlashes` both on, for every path `p`, the
empty one included, `PreparePath` returns (no index is out of range), and what it
returns is not empty, begins with `/`, and ends in `/` only when it is `/`. -/
theorem PreparePath_defaults (r : router) (p : GoString)
    (hc : r.cleanPath = true) (ht : r.trimTrailingSlashes = true) :
    ∃ q, r.PreparePath p = .ok q ∧ q ≠ [] ∧ q.head? = some slash ∧
      (q.getLast? = some slash → q = [slash]) := by
  have _ := ht
  obtain ⟨cs, hcs, h1, _⟩ := PreparePath_cleanPath r p hc
  exact ⟨rootedPath cs, h1, rootedPath_ne_nil cs, rootedPath_head cs,
    fun hl => rootedPath_getLast hcs hl⟩

/-- C10 at the router `NewRouter` and the empty path. -/
theorem PreparePath_defaults_witness :
    NewRouter.cleanPath = true ∧ NewRouter.trimTrailingSlashes = true ∧
    ∃ q, NewRouter.PreparePath [] = .ok q ∧ q ≠ [] ∧ q.head? = some slash ∧
      (q.getLast? = some slash → q = [slash]) :=
  ⟨rfl, rfl, PreparePath_defaults NewRouter [] rfl rfl⟩

/-! ## Matching and dispatch -/

theorem PreparePath_ok (r : router) (p : GoString) : ∃ q, r.PreparePath p = .ok q := by
  by_cases hc : r.cleanPath = true
  · obtain ⟨cs, _, h, _⟩ := PreparePath_cleanPath r p hc
    exact ⟨_, h⟩
  · have hc2 : r.cleanPath = false := by simpa using hc
    by_cases ht : r.trimTrailingSlashes = true
    · exact ⟨TrimRight p, by simp [router.PreparePath, hc2, ht]⟩
    · have ht2 : r.trimTrailingSlashes = false := by simpa using ht
      exact ⟨p, by simp [router.PreparePath, hc2, ht2]⟩

theorem extractLoop_ok (m : List GoString) : ∀ (names : List GoString) (i : Nat) (vars : VarMap),
    m.length = names.length + i → ∃ vars1, extractLoop m names i vars = .ok vars1 := by
  intro names
  induction names with
  | nil => intro i vars _; exact ⟨vars, rfl⟩
  | cons name names ih =>
    intro i vars h
    simp only [List.length_cons] at h
    simp only [extractLoop]
    split
    · have hi : i < m.length := by omega
      rw [List.getElem?_eq_getElem hi]
      exact ih (i + 1) _ (by omega)
    · exact ih (i + 1) _ (by omega)

theorem matchMethods_iff (rt : route) (req : Request) :
    rt.matchMethods req = true ↔
      (rt.methods = none ∨ ∃ ms, rt.methods = some ms ∧ req.Method ∈ ms) := by
  cases hm : rt.methods with
  | none => simp [route.matchMethods, hm]
  | some ms =>
    simp only [route.matchMethods, hm, List.any_eq_true, decide_eq_true_eq, false_or,
      Option.some.injEq, exists_eq_left', reduceCtorEq]
    constructor
    · rintro ⟨m, hm1, hm2⟩
      rw [hm2]
      exact hm1
    · intro h
      exact ⟨req.Method, h, rfl⟩

/-- The three ways in which `route.match` returns when the pattern compiles. -/
theorem matchRequest_cases (E : RegexEngine) (r : router) (rt : route) (req : Request)
    (hc : E.compiles rt.PathRegexp = true) :
    ∃ path, r.PreparePath req.Path = .ok path ∧
      ((E.matchString rt.PathRegexp path = false ∧
          rt.matchRequest E r req = .ok ((false, false), rt)) ∨
        (E.matchString rt.PathRegexp path = true ∧ rt.matchMethods req = false ∧
          rt.matchRequest E r req = .ok ((true, true), rt)) ∨
        (E.matchString rt.PathRegexp path = true ∧ rt.matchMethods req = true ∧
          ∃ vars, rt.matchRequest E r req = .ok ((true, false), { rt with Vars := vars }))) := by
  obtain ⟨path, hpath⟩ := PreparePath_ok r req.Path
  refine ⟨path, hpath, ?_⟩
  cases hm : E.matchString rt.PathRegexp path with
  | false =>
    left
    exact ⟨rfl, by simp [route.matchRequest, hc, hpath, hm]⟩
  | true =>
    right
    cases hmm : rt.matchMethods req with
    | false =>
      left
      exact ⟨rfl, rfl, by simp [route.matchRequest, hc, hpath, hm, hmm]⟩
    | true =>
      right
      obtain ⟨vars, hv⟩ := extractLoop_ok (E.findStringSubmatch rt.PathRegexp path)
        (E.subexpNames rt.PathRegexp) 0 rt.Vars
        (by simpa using E.submatch_length rt.PathRegexp path hm)
      exact ⟨rfl, rfl, vars,
        by simp [route.matchRequest, hc, hpath, hm, hmm, route.ExtractVarsWithRegex, hv]⟩

/-- A scan in which no route matches fully: the routes stay as they are, no route is
selected, and `wrongMethod` is set exactly when it was set or some route reports a
method mismatch. -/
theorem scanRoutes_none (E : RegexEngine) (r : router) (req : Request) :
    ∀ (routes : List route) (i : Nat) (wrong : Bool),
      (∀ rt ∈ routes, E.compiles rt.PathRegexp = true) →
      (∀ rt ∈ routes, ¬ rt.FullMatch E r req) →
      ∃ w, scanRoutes E r req routes i wrong = .ok (routes, none, w) ∧
        (w = true ↔ (wrong = true ∨ ∃ rt ∈ routes, rt.MethodMismatch E r req)) := by
  intro routes
  induction routes with
  | nil => intro i wrong _ _; exact ⟨wrong, rfl, by simp⟩
  | cons rt rest ih =>
    intro i wrong hcomp hnone
    have hcr : ∀ rt ∈ rest, E.compiles rt.PathRegexp = true :=
      fun x hx => hcomp x (List.mem_cons_of_mem _ hx)
    have hnr : ∀ rt ∈ rest, ¬ rt.FullMatch E r req :=
      fun x hx => hnone x (List.mem_cons_of_mem _ hx)
    obtain ⟨path, _, hcase⟩ := matchRequest_cases E r rt req (hcomp rt (List.mem_cons_self _ _))
    rcases hcase with ⟨_, hm⟩ | ⟨_, _, hm⟩ | ⟨_, _, vars, hm⟩
    · obtain ⟨w, hw, hiff⟩ := ih (i + 1) wrong hcr hnr
      refine ⟨w, by simp [scanRoutes, hm, hw], ?_⟩
      rw [hiff]
      constructor
      · rintro (h | ⟨x, hx, hxm⟩)
        · exact Or.inl h
        · exact Or.inr ⟨x, List.mem_cons_of_mem _ hx, hxm⟩
      · rintro (h | ⟨x, hx, hxm⟩)
        · exact Or.inl h
        · rcases List.mem_cons.mp hx with hx | hx
          · subst hx
            obtain ⟨rt1, hrt1⟩ := hxm
            rw [hm] at hrt1
            simp at hrt1
          · exact Or.inr ⟨x, hx, hxm⟩
    · obtain ⟨w, hw, hiff⟩ := ih (i + 1) true hcr hnr
      refine ⟨w, by simp [scanRoutes, hm, hw], ?_⟩
      have hwt : w = true := hiff.mpr (Or.inl rfl)
      simp only [hwt, true_iff]
      exact Or.inr ⟨rt, List.mem_cons_self _ _, rt, hm⟩
    · exact absurd ⟨_, hm⟩ (hnone rt (List.mem_cons_self _ _))

/-- A scan in which route `k` is the first to match fully, the patterns of the routes
before it compiling: that route is selected, only it changes, and `wrongMethod` is
clear.  The patterns of the routes after it play no part. -/
theorem scanRoutes_first (E : RegexEngine) (r : router) (req : Request) :
    ∀ (routes : List route) (k : Nat) (rt rt1 : route) (i : Nat) (wrong : Bool),
      (∀ j rj, j < k → routes[j]? = some rj → E.compiles rj.PathRegexp = true) →
      routes[k]? = some rt → rt.matchRequest E r req = .ok ((true, false), rt1) →
      (∀ j rj, j < k → routes[j]? = some rj → ¬ rj.FullMatch E r req) →
      scanRoutes E r req routes i wrong = .ok (routes.set k rt1, some (i + k, rt1), false) := by
  intro routes
  induction routes with
  | nil => intro k rt rt1 i wrong _ hk; simp at hk
  | cons rj rest ih =>
    intro k rt rt1 i wrong hcomp hk hm hbefore
    cases k with
    | zero =>
      have : rj = rt := by simpa using hk
      subst this
      simp [scanRoutes, hm]
    | succ k =>
      have hcj : E.compiles rj.PathRegexp = true := hcomp 0 rj (by omega) (by simp)
      have hrj : ¬ rj.FullMatch E r req := hbefore 0 rj (by omega) (by simp)
      have hrec : ∀ w, scanRoutes E r req rest (i + 1) w
          = .ok (rest.set k rt1, some (i + 1 + k, rt1), false) :=
        fun w => ih k rt rt1 (i + 1) w
          (fun j x hj hx => hcomp (j + 1) x (by omega) (by simpa using hx))
          (by simpa using hk) hm
          (fun j x hj hx => hbefore (j + 1) x (by omega) (by simpa using hx))
      have hik : i + 1 + k = i + (k + 1) := by omega
      obtain ⟨path, _, hcase⟩ := matchRequest_cases E r rj req hcj
      rcases hcase with ⟨_, hmj⟩ | ⟨_, _, hmj⟩ | ⟨_, _, vars, hmj⟩
      · simp [scanRoutes, hmj, hrec, hik]
      · simp [scanRoutes, hmj, hrec, hik]
      · exact absurd ⟨_, hmj⟩ hrj

/-- A scan that reaches a route whose pattern does not compile panics: no route before
that route matches fully, so the scan does not stop before it. -/
theorem scanRoutes_reaches_bad (E : RegexEngine) (r : router) (req : Request) :
    ∀ (routes : List route) (k : Nat) (rk : route) (i : Nat) (wrong : Bool),
      routes[k]? = some rk → E.compiles rk.PathRegexp = false →
      (∀ j rj, j < k → routes[j]? = some rj → ¬ rj.FullMatch E r req) →
      scanRoutes E r req routes i wrong = .error .panic := by
  intro routes
  induction routes with
  | nil => intro k rk i wrong hk; simp at hk
  | cons rj rest ih =>
    intro k rk i wrong hk hbad hbefore
    cases k with
    | zero =>
      have : rj = rk := by simpa using hk
      subst this
      simp [scanRoutes, route.matchRequest, hbad]
    | succ k =>
      have hrec : ∀ w, scanRoutes E r req rest (i + 1) w = .error .panic :=
        fun w => ih k rk (i + 1) w (by simpa using hk) hbad
          (fun j x hj hx => hbefore (j + 1) x (by omega) (by simpa using hx))
      cases hcj : E.compiles rj.PathRegexp with
      | false => simp [scanRoutes, route.matchRequest, hcj]
      | true =>
        have hrj : ¬ rj.FullMatch E r req := hbefore 0 rj (by omega) (by simp)
        obtain ⟨path, _, hcase⟩ := matchRequest_cases E r rj req hcj
        rcases hcase with ⟨_, hmj⟩ | ⟨_, _, hmj⟩ | ⟨_, _, vars, hmj⟩
        · simp [scanRoutes, hmj, hrec]
        · simp [scanRoutes, hmj, hrec]
        · exact absurd ⟨_, hmj⟩ hrj

/-- A call of `route.match` that does not report a full match leaves the route as
it was. -/
theorem matchRequest_not_full (E : RegexEngine) (r : router) (rt : route) (req : Request)
    (o : Bool × Bool) (rt1 : route) (h : rt.matchRequest E r req = .ok (o, rt1))
    (ho : o ≠ (true, false)) : rt1 = rt := by
  simp only [route.matchRequest] at h
  split at h
  · simp at h
  · split at h
    · simp at h
    · split at h
      · simp only [Except.ok.injEq, Prod.mk.injEq] at h
        exact h.2.symm
      · split at h
        · simp only [Except.ok.injEq, Prod.mk.injEq] at h
          exact h.2.symm
        · split at h
          · simp at h
          · simp only [Except.ok.injEq, Prod.mk.injEq] at h
            exact absurd h.1.symm ho

/-- A full match changes at most the variable map of the route. -/
theorem matchRequest_full (E : RegexEngine) (r : router) (rt : route) (req : Request)
    (rt1 : route) (h : rt.matchRequest E r req = .ok ((true, false), rt1)) :
    ∃ vars, rt1 = { rt with Vars := vars } := by
  simp only [route.matchRequest] at h
  split at h
  · simp at h
  · split at h
    · simp at h
    · split at h
      · simp at h
      · split at h
        · simp at h
        · simp only [route.ExtractVarsWithRegex] at h
          split at h
          · simp at h
          · rename_i heq
            split at heq
            · simp at heq
            · rename_i vars _
              simp only [Except.ok.injEq] at heq
              simp only [Except.ok.injEq, Prod.mk.injEq, true_and] at h
              exact ⟨vars, by rw [← h, ← heq]⟩

/-- What the scan leaves behind: every route is still there, and a route that has
changed is the first one that matches fully, which is then the selected one. -/
theorem scanRoutes_frame (E : RegexEngine) (r : router) (req : Request) :
    ∀ (routes : List route) (i : Nat) (wrong : Bool) (routes1 : List route)
      (matched : Option (Nat × route)) (w : Bool),
      scanRoutes E r req routes i wrong = .ok (routes1, matched, w) →
      ∀ j rj, routes[j]? = some rj → ∃ rj1, routes1[j]? = some rj1 ∧
        (rj1 ≠ rj → rj.FullMatch E r req ∧ matched = some (i + j, rj1) ∧
          ∀ k rk, k < j → routes[k]? = some rk → ¬ rk.FullMatch E r req) := by
  intro routes
  induction routes with
  | nil => intro i wrong routes1 matched w _ j rj hj; simp at hj
  | cons rt rest ih =>
    intro i wrong routes1 matched w h j rj hj
    simp only [scanRoutes] at h
    split at h
    · simp at h
    · rename_i m method rt1 hm
      split at h
      · rename_i hfull
        have hmm : m = true ∧ method = false := by simpa using hfull
        obtain ⟨h1, h2⟩ := hmm
        subst h1 h2
        simp only [Except.ok.injEq, Prod.mk.injEq] at h
        obtain ⟨hr, hmat, _⟩ := h
        subst hr hmat
        cases j with
        | zero =>
          have : rt = rj := by simpa using hj
          subst this
          exact ⟨rt1, by simp, fun _ => ⟨⟨rt1, hm⟩, by simp, fun k rk hk => by omega⟩⟩
        | succ j =>
          exact ⟨rj, by simpa using hj, fun hne => absurd rfl hne⟩
      · rename_i hfull
        have hne : (m, method) ≠ (true, false) := by
          intro heq
          simp only [Prod.mk.injEq] at heq
          exact hfull (by simp [heq.1, heq.2])
        have hrt : rt1 = rt := matchRequest_not_full E r rt req _ rt1 hm hne
        subst hrt
        have hnf : ¬ rt1.FullMatch E r req := by
          rintro ⟨x, hx⟩
          rw [hm] at hx
          simp only [Except.ok.injEq, Prod.mk.injEq] at hx
          exact hne (by rw [hx.1.1, hx.1.2])
        split at h
        · simp at h
        · rename_i rest1 matched1 wrong1 hrec
          simp only [Except.ok.injEq, Prod.mk.injEq] at h
          obtain ⟨hr, hmat, _⟩ := h
          subst hr hmat
          cases j with
          | zero =>
            have : rt1 = rj := by simpa using hj
            subst this
            exact ⟨rt1, by simp, fun hne2 => absurd rfl hne2⟩
          | succ j =>
            obtain ⟨rj1, hj1, hch⟩ := ih (i + 1) _ rest1 matched1 wrong1 hrec j rj
              (by simpa using hj)
            refine ⟨rj1, by simpa using hj1, fun hne2 => ?_⟩
            obtain ⟨a1, a2, a3⟩ := hch hne2
            refine ⟨a1, by rw [a2]; congr 2; omega, ?_⟩
            intro k rk hk hrk
            cases k with
            | zero =>
              have : rt1 = rk := by simpa using hrk
              subst this
              exact hnf
            | succ k => exact a3 k rk (by omega) (by simpa using hrk)

/-- `ServeHTTP` when route `i` is the first to match fully and the patterns of the
routes before it compile. -/
theorem ServeHTTP_first (E : RegexEngine) (fuel : Nat) (r : router) (req : Request)
    (i : Nat) (rt rt1 : route) (hcomp : r.CompilesBefore E i)
    (hfirst : r.FirstFullMatch E req i rt)
    (hm : rt.matchRequest E r req = .ok ((true, false), rt1)) :
    r.ServeHTTP E fuel req =
      match rt1.Handler with
      | none => .ok ({ r with routes := r.routes.set i rt1 }, [Event.act Effect.notFound])
      | some _ =>
        match rt1.Filters.Run fuel { req with ctxVars := some i } with
        | .error f => .error f
        | .ok (b, chain, evs) =>
          .ok ({ r with routes := (r.routes.set i
                  { rt1 with Filters := chain, Vars := applyWrites evs rt1.Vars }) },
            evs ++ (if b then [Event.handler i { req with ctxVars := some i }] else [])) := by
  have hscan := scanRoutes_first E r req r.routes i rt rt1 0 false hcomp hfirst.1 hm hfirst.2.2
  simp only [router.ServeHTTP, hscan, Nat.zero_add]
  simp

/-- The entries behind the reference `i` once route `i` of the table has been
replaced. -/
theorem varsOf_set (r : router) (i : Nat) (rt rt1 : route) (h : r.routes[i]? = some rt) :
    ({ r with routes := r.routes.set i rt1 } : router).varsOf i = some rt1.Vars := by
  have hi : i < r.routes.length := by
    rcases Nat.lt_or_ge i r.routes.length with h1 | h1
    · exact h1
    · rw [List.getElem?_eq_none h1] at h
      simp at h
  simp [router.varsOf, List.getElem?_set, hi]

/-- `ServeHTTP` panics when its scan reaches a route whose pattern does not compile. -/
theorem ServeHTTP_reaches_bad (E : RegexEngine) (fuel : Nat) (r : router) (req : Request)
    (k : Nat) (rk : route) (hk : r.routes[k]? = some rk)
    (hbad : E.compiles rk.PathRegexp = false)
    (hbefore : ∀ j rj, j < k → r.routes[j]? = some rj → ¬ rj.FullMatch E r req) :
    r.ServeHTTP E fuel req = .error .panic := by
  have := scanRoutes_reaches_bad E r req r.routes k rk 0 false hk hbad hbefore
  simp [router.ServeHTTP, this]

/-- `ServeHTTP` when no route matches fully. -/
theorem ServeHTTP_none (E : RegexEngine) (fuel : Nat) (r : router) (req : Request)
    (hcomp : ∀ rt ∈ r.routes, E.compiles rt.PathRegexp = true)
    (hnone : ∀ rt ∈ r.routes, ¬ rt.FullMatch E r req) :
    ((∃ rt ∈ r.routes, rt.MethodMismatch E r req) →
      r.ServeHTTP E fuel req = .ok (r, [Event.act Effect.methodNotAllowed])) ∧
    ((∀ rt ∈ r.routes, ¬ rt.MethodMismatch E r req) →
      r.ServeHTTP E fuel req = .ok (r, [Event.act Effect.notFound])) := by
  obtain ⟨w, hscan, hw⟩ := scanRoutes_none E r req r.routes 0 false hcomp hnone
  constructor
  · intro h
    have hwt : w = true := hw.mpr (Or.inr h)
    subst hwt
    simp [router.ServeHTTP, hscan]
  · intro h
    have hwf : w = false := by
      cases w with
      | false => rfl
      | true =>
        rcases hw.mp rfl with h1 | ⟨x, hx, hxm⟩
        · simp at h1
        · exact absurd hxm (h x hx)
    subst hwf
    simp [router.ServeHTTP, hscan]

theorem exampleRouter_compiles :
    ∀ rt ∈ exampleRouter.routes, demoEngine.compiles rt.PathRegexp = true := by
  intro rt h
  simp only [exampleRouter, List.mem_cons, List.mem_singleton, List.not_mem_nil, or_false] at h
  rcases h with rfl | rfl | rfl <;> rfl

theorem exampleRouter_first :
    exampleRouter.FirstFullMatch demoEngine requestUser 2 routeUser := by
  refine ⟨rfl, ⟨routeUserMatched, rfl⟩, ?_⟩
  intro j rj hj hrj
  have h0 : routeB.matchRequest demoEngine exampleRouter requestUser
      = .ok ((false, false), routeB) := rfl
  have h1 : routePostUser.matchRequest demoEngine exampleRouter requestUser
      = .ok ((true, true), routePostUser) := rfl
  rcases j with _ | _ | j
  · have : routeB = rj := by simpa [exampleRouter] using hrj
    subst this
    rintro ⟨x, hx⟩
    rw [h0] at hx
    simp at hx
  · have : routePostUser = rj := by simpa [exampleRouter] using hrj
    subst this
    rintro ⟨x, hx⟩
    rw [h1] at hx
    simp at hx
  · omega

theorem exampleRouter_compilesBefore (i : Nat) : exampleRouter.CompilesBefore demoEngine i :=
  fun _ rj _ hj => exampleRouter_compiles rj (List.getElem?_mem hj)

/-- The route `routeBad` reports nothing: its `match` panics. -/
theorem routeBad_panics (r : router) (req : Request) :
    routeBad.matchRequest demoEngine r req = .error .panic := rfl

/-- C1 fails as stated: the router whose only route has the pattern `^($` (what
`Handle("(", h)` registers) and the request `GET /a`.  No route returns a full match
and no route returns a method mismatch, so the claim has the `NotFoundHandler`
invoked; but `ServeHTTP` panics in `route.match` and invokes no handler at all. -/
theorem ServeHTTP_panics_without_match :
    NewRouter.Handle (str "(") (some 4) = .ok (routerBad, routeBad) ∧
    (∀ rt ∈ routerBad.routes, ¬ rt.FullMatch demoEngine routerBad requestA) ∧
    (∀ rt ∈ routerBad.routes, ¬ rt.MethodMismatch demoEngine routerBad requestA) ∧
    (∀ fuel, routerBad.ServeHTTP demoEngine fuel requestA = .error .panic) ∧
    (∀ fuel r1, routerBad.ServeHTTP demoEngine fuel requestA
      ≠ .ok (r1, [Event.act Effect.notFound])) := by
  refine ⟨rfl, ?_, ?_, fun _ => rfl, ?_⟩
  · intro rt hrt
    have : rt = routeBad := by simpa [routerBad] using hrt
    subst this
    rintro ⟨x, hx⟩
    rw [routeBad_panics] at hx
    simp at hx
  · intro rt hrt
    have : rt = routeBad := by simpa [routerBad] using hrt
    subst this
    rintro ⟨x, hx⟩
    rw [routeBad_panics] at hx
    simp at hx
  · intro fuel r1 h
    have hp : routerBad.ServeHTTP demoEngine fuel requestA = .error .panic := rfl
    rw [hp] at h
    simp at h

/-- C1 as amended: the outcome of `Router.ServeHTTP`, for every router and request.
If route `i` is the first whose `match` returns a full match and the patterns of the
routes before it compile: with a nil `Handler` the `NotFoundHandler` is invoked and
nothing else; with a non-nil `Handler` the route is dispatched (its filter chain is
run on the request that carries the map of the route and, when the chain passes, its
handler is invoked with that request, the map then holding what the filters wrote),
and no handler of another route is invoked.  If all patterns compile, no route
matches fully and some route reports a method mismatch, the
`MethodNotAllowedHandler` is invoked and nothing else.  If all patterns compile and
no route matches fully or reports a method mismatch, the `NotFoundHandler` is invoked
and nothing else.  If the scan reaches a route whose pattern does not compile (no
route before it matches fully), `ServeHTTP` panics. -/
theorem ServeHTTP_outcome (E : RegexEngine) (fuel : Nat) (r : router) (req : Request) :
    (∀ i rt, r.FirstFullMatch E req i rt → r.CompilesBefore E i →
      (rt.Handler = none →
        ∃ r1, r.ServeHTTP E fuel req = .ok (r1, [Event.act Effect.notFound])) ∧
      (rt.Handler ≠ none →
        (∀ r1 evs, r.ServeHTTP E fuel req = .ok (r1, evs) →
          ∀ j rq, (j, rq) ∈ handlersOf evs → j = i) ∧
        (∃ rt1, rt.matchRequest E r req = .ok ((true, false), rt1) ∧
          ∀ b c fevs,
            rt1.Filters.Run fuel { req with ctxVars := some i } = .ok (b, c, fevs) →
            ∃ r1, r.ServeHTTP E fuel req = .ok (r1, fevs ++
                (if b then [Event.handler i { req with ctxVars := some i }] else [])) ∧
              r1.varsOf i = some (applyWrites fevs rt1.Vars)))) ∧
    ((∀ rt ∈ r.routes, E.compiles rt.PathRegexp = true) →
      (∀ rt ∈ r.routes, ¬ rt.FullMatch E r req) →
      (∃ rt ∈ r.routes, rt.MethodMismatch E r req) →
      r.ServeHTTP E fuel req = .ok (r, [Event.act Effect.methodNotAllowed])) ∧
    ((∀ rt ∈ r.routes, E.compiles rt.PathRegexp = true) →
      (∀ rt ∈ r.routes, ¬ rt.FullMatch E r req) →
      (∀ rt ∈ r.routes, ¬ rt.MethodMismatch E r req) →
      r.ServeHTTP E fuel req = .ok (r, [Event.act Effect.notFound])) ∧
    (∀ (k : Nat) (rk : route), r.routes[k]? = some rk → E.compiles rk.PathRegexp = false →
      (∀ (j : Nat) (rj : route), j < k → r.routes[j]? = some rj → ¬ rj.FullMatch E r req) →
      r.ServeHTTP E fuel req = .error .panic) := by
  refine ⟨?_, ?_, ?_,
    fun k rk hk hbad hbefore => ServeHTTP_reaches_bad E fuel r req k rk hk hbad hbefore⟩
  rotate_left
  · intro hcomp hnone
    exact (ServeHTTP_none E fuel r req hcomp hnone).1
  · intro hcomp hnone
    exact (ServeHTTP_none E fuel r req hcomp hnone).2
  intro i rt hfirst hcomp
  obtain ⟨rt1, hm⟩ := hfirst.2.1
  obtain ⟨vars, hrt1⟩ := matchRequest_full E r rt req rt1 hm
  have hserve := ServeHTTP_first E fuel r req i rt rt1 hcomp hfirst hm
  have hh : rt1.Handler = rt.Handler := by rw [hrt1]
  constructor
  · intro hnil
    rw [hh, hnil] at hserve
    exact ⟨_, hserve⟩
  · intro hsome
    cases hH : rt.Handler with
    | none => exact absurd hH hsome
    | some h =>
      rw [hh, hH] at hserve
      simp only at hserve
      refine ⟨?_, rt1, hm, ?_⟩
      · intro r1 evs hok j rq hj
        rw [hserve] at hok
        split at hok
        · simp at hok
        · rename_i b chain fevs hrun
          simp only [Except.ok.injEq, Prod.mk.injEq] at hok
          obtain ⟨_, hevs⟩ := hok
          obtain ⟨_, _, hno⟩ := Run_inv fuel _ _ _ _ _ hrun
          rw [← hevs, handlersOf_append, hno] at hj
          cases b with
          | false => simp [handlersOf] at hj
          | true =>
            simp only [handlersOf, if_true, List.nil_append, List.mem_singleton,
              Prod.mk.injEq] at hj
            exact hj.1
      · intro b c fevs hrun
        rw [hserve, hrun]
        exact ⟨_, rfl, varsOf_set r i rt _ hfirst.1⟩

theorem routerBadLast_first :
    routerBadLast.FirstFullMatch demoEngine requestB 0 routeB :=
  ⟨rfl, ⟨routeB, rfl⟩, fun j _ hj => absurd hj (Nat.not_lt_zero j)⟩

/-- C1 as amended, at three routers.  At `exampleRouter` and the request
`GET /user/42` route 2 is the first to match fully, and no handler of another route
is invoked.  At the router with the routes `^/b$` and `^($` the request `GET /b` is
dispatched to route 0, although the pattern of route 1 does not compile.  At the
router with the one route `^($` the request `GET /a` makes `ServeHTTP` panic. -/
theorem ServeHTTP_outcome_witness :
    exampleRouter.FirstFullMatch demoEngine requestUser 2 routeUser ∧
    exampleRouter.CompilesBefore demoEngine 2 ∧
    routeUser.Handler ≠ none ∧
    (∀ r1 evs, exampleRouter.ServeHTTP demoEngine 3 requestUser = .ok (r1, evs) →
      ∀ j rq, (j, rq) ∈ handlersOf evs → j = 2) ∧
    routerBadLast.FirstFullMatch demoEngine requestB 0 routeB ∧
    routerBadLast.CompilesBefore demoEngine 0 ∧
    (∀ r1 evs, routerBadLast.ServeHTTP demoEngine 1 requestB = .ok (r1, evs) →
      ∀ j rq, (j, rq) ∈ handlersOf evs → j = 0) ∧
    routerBadLast.ServeHTTP demoEngine 1 requestB =
      .ok (routerBadLast, [Event.handler 0 { requestB with ctxVars := some 0 }]) ∧
    routerBad.routes[0]? = some routeBad ∧
    demoEngine.compiles routeBad.PathRegexp = false ∧
    routerBad.ServeHTTP demoEngine 1 requestA = .error .panic :=
  ⟨exampleRouter_first, exampleRouter_compilesBefore 2, by decide,
    (((ServeHTTP_outcome demoEngine 3 exampleRouter requestUser).1
      2 routeUser exampleRouter_first (exampleRouter_compilesBefore 2)).2 (by decide)).1,
    routerBadLast_first, fun j _ hj => absurd hj (Nat.not_lt_zero j),
    (((ServeHTTP_outcome demoEngine 1 routerBadLast requestB).1
      0 routeB routerBadLast_first (fun j _ hj => absurd hj (Nat.not_lt_zero j))).2
        (by decide)).1,
    rfl, rfl, rfl,
    (ServeHTTP_outcome demoEngine 1 routerBad requestA).2.2.2 0 routeBad rfl rfl
      (fun j _ hj => absurd hj (Nat.not_lt_zero j))⟩

/-- C2 fails as stated: the route with the pattern `^($` and the request `GET /a`.
The pattern does not match the prepared path `/a`, so the claim has `match` return
`(false, false)`; but `match` panics in `regexp.MustCompile` and returns none of the
three results. -/
theorem match_panics_on_bad_pattern :
    demoEngine.compiles routeBad.PathRegexp = false ∧
    routerBad.PreparePath requestA.Path = .ok (str "/a") ∧
    demoEngine.matchString routeBad.PathRegexp (str "/a") = false ∧
    routeBad.matchRequest demoEngine routerBad requestA = .error .panic ∧
    (∀ o rt1, routeBad.matchRequest demoEngine routerBad requestA ≠ .ok (o, rt1)) := by
  refine ⟨by decide, rfl, by decide, rfl, ?_⟩
  intro o rt1 h
  rw [routeBad_panics] at h
  simp at h

/-- C2 as amended: the three-way classification of `route.match`.  For a route whose
pattern compiles the call returns; it returns `(false, false)` exactly when the
pattern does not match the prepared path, `(true, true)` exactly when the pattern
matches and the method list is non-nil and does not contain the request method, and
`(true, false)` exactly when the pattern matches and the method list is nil or
contains the request method; it never returns `(false, true)`.  For a route whose
pattern does not compile the call panics. -/
theorem matchRequest_classification (E : RegexEngine) (r : router) (rt : route)
    (req : Request) :
    (E.compiles rt.PathRegexp = true →
      ∃ path o rt1, r.PreparePath req.Path = .ok path ∧
        rt.matchRequest E r req = .ok (o, rt1) ∧
        (o = (false, false) ↔ E.matchString rt.PathRegexp path = false) ∧
        (o = (true, true) ↔ (E.matchString rt.PathRegexp path = true ∧
          ∃ ms, rt.methods = some ms ∧ req.Method ∉ ms)) ∧
        (o = (true, false) ↔ (E.matchString rt.PathRegexp path = true ∧
          (rt.methods = none ∨ ∃ ms, rt.methods = some ms ∧ req.Method ∈ ms))) ∧
        o ≠ (false, true)) ∧
    (E.compiles rt.PathRegexp = false → rt.matchRequest E r req = .error .panic) := by
  refine ⟨fun hc => ?_, fun hc => by simp [route.matchRequest, hc]⟩
  have hmeth := matchMethods_iff rt req
  have hnot : rt.matchMethods req = false ↔ ∃ ms, rt.methods = some ms ∧ req.Method ∉ ms := by
    rw [← Bool.not_eq_true, hmeth]
    cases hms : rt.methods with
    | none => simp
    | some ms => simp
  obtain ⟨path, hpath, hcase⟩ := matchRequest_cases E r rt req hc
  rcases hcase with ⟨h1, hm⟩ | ⟨h1, h2, hm⟩ | ⟨h1, h2, vars, hm⟩
  · exact ⟨path, (false, false), rt, hpath, hm, by simp [h1], by simp [h1], by simp [h1],
      by simp⟩
  · have hn : ¬ (rt.methods = none ∨ ∃ ms, rt.methods = some ms ∧ req.Method ∈ ms) := by
      rw [← hmeth, h2]
      simp
    refine ⟨path, (true, true), rt, hpath, hm, by simp [h1], by simpa [h1] using hnot.mp h2,
      ?_, by simp⟩
    simp only [Prod.mk.injEq, Bool.true_eq_false, and_false, false_iff, not_and]
    exact fun _ => hn
  · refine ⟨path, (true, false), _, hpath, hm, by simp [h1], ?_, ?_, by simp⟩
    · have hn : ¬ ∃ ms, rt.methods = some ms ∧ req.Method ∉ ms := by
        rw [← hnot, h2]
        simp
      simp only [Prod.mk.injEq, Bool.false_eq_true, and_false, false_iff, not_and]
      exact fun _ => hn
    · simp only [true_iff]
      exact ⟨h1, hmeth.mp h2⟩

/-- C2 as amended, at the route `routePostUser` and the request `GET /user/42`, and at
the route with the pattern `^($`. -/
theorem matchRequest_classification_witness :
    demoEngine.compiles routePostUser.PathRegexp = true ∧
    (∃ path o rt1, exampleRouter.PreparePath requestUser.Path = .ok path ∧
      routePostUser.matchRequest demoEngine exampleRouter requestUser = .ok (o, rt1) ∧
      (o = (false, false) ↔ demoEngine.matchString routePostUser.PathRegexp path = false) ∧
      (o = (true, true) ↔ (demoEngine.matchString routePostUser.PathRegexp path = true ∧
        ∃ ms, routePostUser.methods = some ms ∧ requestUser.Method ∉ ms)) ∧
      (o = (true, false) ↔ (demoEngine.matchString routePostUser.PathRegexp path = true ∧
        (routePostUser.methods = none ∨
          ∃ ms, routePostUser.methods = some ms ∧ requestUser.Method ∈ ms))) ∧
      o ≠ (false, true)) ∧
    routePostUser.matchRequest demoEngine exampleRouter requestUser
      = .ok ((true, true), routePostUser) ∧
    demoEngine.compiles routeBad.PathRegexp = false ∧
    routeBad.matchRequest demoEngine exampleRouter requestUser = .error .panic :=
  ⟨rfl,
    (matchRequest_classification demoEngine exampleRouter routePostUser requestUser).1 rfl,
    rfl, rfl,
    (matchRequest_classification demoEngine exampleRouter routeBad requestUser).2 rfl⟩

/-- C3: a call of `route.match` that returns no match or a method mismatch leaves
the variable map of the route as it was; and in the scan of `Router.ServeHTTP` a
route whose variable map is changed is the first route that matches fully, so the
routes scanned before it and all routes after it keep their maps. -/
theorem match_keeps_vars (E : RegexEngine) (r : router) (req : Request) :
    (∀ (rt : route) (o : Bool × Bool) (rt1 : route),
      rt.matchRequest E r req = .ok (o, rt1) →
      (o = (false, false) ∨ o = (true, true)) → rt1.Vars = rt.Vars) ∧
    (∀ routes1 matched wrong,
      scanRoutes E r req r.routes 0 false = .ok (routes1, matched, wrong) →
      ∀ j rj, r.routes[j]? = some rj → ∃ rj1, routes1[j]? = some rj1 ∧
        (rj1.Vars ≠ rj.Vars → r.FirstFullMatch E req j rj)) := by
  constructor
  · intro rt o rt1 h ho
    have hne : o ≠ (true, false) := by
      rcases ho with ho | ho <;> rw [ho] <;> simp
    rw [matchRequest_not_full E r rt req o rt1 h hne]
  · intro routes1 matched wrong h j rj hj
    obtain ⟨rj1, hj1, hch⟩ := scanRoutes_frame E r req r.routes 0 false routes1 matched wrong h
      j rj hj
    refine ⟨rj1, hj1, fun hv => ?_⟩
    have hne : rj1 ≠ rj := fun heq => hv (by rw [heq])
    obtain ⟨a1, _, a3⟩ := hch hne
    exact ⟨hj, a1, a3⟩

/-- C3 at the router `exampleRouter` and the request `GET /user/42`: the method
mismatch of `routePostUser` leaves its map empty, and the scan changes the map of
route 2 only. -/
theorem match_keeps_vars_witness :
    routePostUser.matchRequest demoEngine exampleRouter requestUser
      = .ok ((true, true), routePostUser) ∧
    routePostUser.Vars = routePostUser.Vars ∧
    scanRoutes demoEngine exampleRouter requestUser exampleRouter.routes 0 false
      = .ok ([routeB, routePostUser, routeUserMatched], some (2, routeUserMatched), false) ∧
    ∀ j rj, exampleRouter.routes[j]? = some rj →
      ∃ rj1, [routeB, routePostUser, routeUserMatched][j]? = some rj1 ∧
        (rj1.Vars ≠ rj.Vars → exampleRouter.FirstFullMatch demoEngine requestUser j rj) :=
  ⟨rfl,
    (match_keeps_vars demoEngine exampleRouter requestUser).1 routePostUser (true, true)
      routePostUser rfl (Or.inr rfl),
    rfl,
    (match_keeps_vars demoEngine exampleRouter requestUser).2
      [routeB, routePostUser, routeUserMatched] (some (2, routeUserMatched)) false rfl⟩

theorem routerBadFirst_first :
    routerBadFirst.FirstFullMatch demoEngine requestB 1 routeB := by
  refine ⟨rfl, ⟨routeB, rfl⟩, ?_⟩
  intro j rj hj hrj
  have h0 : j = 0 := by omega
  subst h0
  have : routeBad = rj := by simpa [routerBadFirst] using hrj
  subst this
  rintro ⟨x, hx⟩
  rw [routeBad_panics] at hx
  simp at hx

/-- C4 fails as stated: the router with the routes `^($` and `^/b$`, in this order,
and the request `GET /b`.  The first route whose `match` returns a full match is
route 1, its handler is not nil and its (empty) filter chain returns true; but
`ServeHTTP` panics in the `match` of route 0 and neither runs the chain nor invokes
the handler. -/
theorem ServeHTTP_panics_before_match :
    routerBadFirst.FirstFullMatch demoEngine requestB 1 routeB ∧
    routeB.Handler ≠ none ∧
    routeB.Filters.Run 1 { requestB with ctxVars := some 1 } = .ok (true, routeB.Filters, []) ∧
    (∀ fuel, routerBadFirst.ServeHTTP demoEngine fuel requestB = .error .panic) ∧
    (∀ fuel r1 evs, routerBadFirst.ServeHTTP demoEngine fuel requestB ≠ .ok (r1, evs)) := by
  refine ⟨routerBadFirst_first, by decide, rfl, fun _ => rfl, ?_⟩
  intro fuel r1 evs h
  have hp : routerBadFirst.ServeHTTP demoEngine fuel requestB = .error .panic := rfl
  rw [hp] at h
  simp at h

/-- C4 as amended: filter gating of the dispatch.  When the first fully matching
route, route `i`, has a non-nil handler and the patterns of the routes before it
compile, `ServeHTTP` runs the filter chain of that route once, on the request that
carries the variable map of the route: `Vars` returns the reference `i`, behind which
are the entries of the route as `match` left them.  When the run returns true the
handler of the route is invoked exactly once, after the filters, with that request,
and the map behind the reference then holds what the filters wrote; when the run
returns false no handler is invoked; when the run does not return, neither does
`ServeHTTP`.  In the not-found and method-not-allowed outcomes (all patterns compile
and no route matches fully, or the first route that matches fully has a nil handler)
no filter and no route handler runs, and no call of `FilterChain.Run` is made. -/
theorem ServeHTTP_filter_gating (E : RegexEngine) (fuel : Nat) (r : router) (req : Request) :
    (∀ i rt, r.FirstFullMatch E req i rt → r.CompilesBefore E i → rt.Handler ≠ none →
      ∃ rt1, rt.matchRequest E r req = .ok ((true, false), rt1) ∧
        Vars { req with ctxVars := some i } = some i ∧
        ({ r with routes := r.routes.set i rt1 } : router).varsOf i = some rt1.Vars ∧
        (∀ f, rt1.Filters.Run fuel { req with ctxVars := some i } = .error f →
          r.ServeHTTP E fuel req = .error f) ∧
        (∀ b c fevs,
          rt1.Filters.Run fuel { req with ctxVars := some i } = .ok (b, c, fevs) →
          ∃ r1 evs, r.ServeHTTP E fuel req = .ok (r1, evs) ∧
            evs = fevs ++
              (if b then [Event.handler i { req with ctxVars := some i }] else []) ∧
            handlersOf evs = (if b then [(i, { req with ctxVars := some i })] else []) ∧
            gatesOf evs = gatesOf fevs ∧
            r1.routes = r.routes.set i
              { rt1 with Filters := c, Vars := applyWrites fevs rt1.Vars } ∧
            r1.varsOf i = some (applyWrites fevs rt1.Vars))) ∧
    ((((∀ rt ∈ r.routes, E.compiles rt.PathRegexp = true) ∧
          ∀ rt ∈ r.routes, ¬ rt.FullMatch E r req) ∨
        ∃ i rt, r.FirstFullMatch E req i rt ∧ r.CompilesBefore E i ∧ rt.Handler = none) →
      ∃ r1 evs, (∀ fuel1, r.ServeHTTP E fuel1 req = .ok (r1, evs)) ∧
        gatesOf evs = [] ∧ handlersOf evs = []) := by
  constructor
  · intro i rt hfirst hcomp hsome
    obtain ⟨rt1, hm⟩ := hfirst.2.1
    obtain ⟨vars, hrt1⟩ := matchRequest_full E r rt req rt1 hm
    have hserve := ServeHTTP_first E fuel r req i rt rt1 hcomp hfirst hm
    have hh : rt1.Handler = rt.Handler := by rw [hrt1]
    cases hH : rt.Handler with
    | none => exact absurd hH hsome
    | some h =>
      rw [hh, hH] at hserve
      simp only at hserve
      refine ⟨rt1, hm, rfl, varsOf_set r i rt rt1 hfirst.1, ?_, ?_⟩
      · intro f hrun
        rw [hserve, hrun]
      · intro b c fevs hrun
        obtain ⟨_, _, hno⟩ := Run_inv fuel _ _ _ _ _ hrun
        rw [hserve, hrun]
        refine ⟨_, _, rfl, rfl, ?_, ?_, by simp [hh, hH], varsOf_set r i rt _ hfirst.1⟩
        · rw [handlersOf_append, hno]
          cases b <;> simp [handlersOf]
        · rw [gatesOf_append]
          cases b <;> simp [gatesOf]
  · rintro (⟨hcomp, hnone⟩ | ⟨i, rt, hfirst, hcomp, hnil⟩)
    · by_cases hmm : ∃ rt ∈ r.routes, rt.MethodMismatch E r req
      · exact ⟨r, _, fun fuel1 => (ServeHTTP_none E fuel1 r req hcomp hnone).1 hmm, rfl, rfl⟩
      · have hmm2 : ∀ rt ∈ r.routes, ¬ rt.MethodMismatch E r req :=
          fun x hx hxm => hmm ⟨x, hx, hxm⟩
        exact ⟨r, _, fun fuel1 => (ServeHTTP_none E fuel1 r req hcomp hnone).2 hmm2, rfl, rfl⟩
    · obtain ⟨rt1, hm⟩ := hfirst.2.1
      obtain ⟨vars, hrt1⟩ := matchRequest_full E r rt req rt1 hm
      have hh : rt1.Handler = none := by rw [hrt1]; exact hnil
      refine ⟨{ r with routes := r.routes.set i rt1 }, [Event.act Effect.notFound],
        fun fuel1 => ?_, rfl, rfl⟩
      have hserve := ServeHTTP_first E fuel1 r req i rt rt1 hcomp hfirst hm
      rw [hh] at hserve
      exact hserve

theorem routerShard_first :
    routerShard.FirstFullMatch demoEngine requestShard 0 routeShard :=
  ⟨rfl, ⟨routeShard, rfl⟩, fun j _ hj => absurd hj (Nat.not_lt_zero j)⟩

/-- C4 as amended, at the router whose one route `^/b$` carries the filter of
`Host("^node-(?P<shard>[0-9]+)$")` and the request `GET /b` to the host `node-7`.
The filter writes `shard = 7` into the map of the route; the handler is invoked with
the request whose `Vars` is that map, which then holds `shard = 7`. -/
theorem ServeHTTP_filter_gating_witness :
    routeB.Host demoEngine (str "^node-(?P<shard>[0-9]+)$") = (routeShard, none) ∧
    routerShard.FirstFullMatch demoEngine requestShard 0 routeShard ∧
    routerShard.CompilesBefore demoEngine 0 ∧
    routeShard.Handler ≠ none ∧
    (∃ rt1, routeShard.matchRequest demoEngine routerShard requestShard
        = .ok ((true, false), rt1) ∧
      Vars { requestShard with ctxVars := some 0 } = some 0 ∧
      ({ routerShard with routes := routerShard.routes.set 0 rt1 } : router).varsOf 0
        = some rt1.Vars ∧
      (∀ f, rt1.Filters.Run 2 { requestShard with ctxVars := some 0 } = .error f →
        routerShard.ServeHTTP demoEngine 2 requestShard = .error f) ∧
      (∀ b c fevs,
        rt1.Filters.Run 2 { requestShard with ctxVars := some 0 } = .ok (b, c, fevs) →
        ∃ r1 evs, routerShard.ServeHTTP demoEngine 2 requestShard = .ok (r1, evs) ∧
          evs = fevs ++
            (if b then [Event.handler 0 { requestShard with ctxVars := some 0 }] else []) ∧
          handlersOf evs =
            (if b then [(0, { requestShard with ctxVars := some 0 })] else []) ∧
          gatesOf evs = gatesOf fevs ∧
          r1.routes = routerShard.routes.set 0
            { rt1 with Filters := c, Vars := applyWrites fevs rt1.Vars } ∧
          r1.varsOf 0 = some (applyWrites fevs rt1.Vars))) ∧
    routeShard.Filters.Run 2 { requestShard with ctxVars := some 0 } =
      .ok (true, routeShard.Filters,
        [Event.gate 0, Event.act (Effect.setVar (str "shard") (str "7"))]) ∧
    routerShard.ServeHTTP demoEngine 2 requestShard =
      .ok ({ routerShard with routes := [{ routeShard with Vars := [(str "shard", str "7")] }] },
        [Event.gate 0, Event.act (Effect.setVar (str "shard") (str "7")),
          Event.handler 0 { requestShard with ctxVars := some 0 }]) ∧
    Vars { requestShard with ctxVars := some 0 } = some 0 ∧
    ({ routerShard with routes := [{ routeShard with Vars := [(str "shard", str "7")] }] }
      : router).varsOf 0 = some [(str "shard", str "7")] :=
  ⟨rfl, routerShard_first, fun j _ hj => absurd hj (Nat.not_lt_zero j), by decide,
    (ServeHTTP_filter_gating demoEngine 2 routerShard requestShard).1
      0 routeShard routerShard_first (fun j _ hj => absurd hj (Nat.not_lt_zero j))
      (by decide),
    rfl, rfl, rfl, rfl⟩

/-! ## Path preparation without cleaning -/

theorem trimRightRev_spec (l : List Nat) :
    (∃ n, l = List.replicate n slash ++ trimRightRev l) ∧ (trimRightRev l).head? ≠ some slash := by
  induction l with
  | nil => exact ⟨⟨0, rfl⟩, by simp [trimRightRev]⟩
  | cons c l ih =>
    by_cases hc : c = slash
    · obtain ⟨⟨n, hn⟩, h2⟩ := ih
      refine ⟨⟨n + 1, ?_⟩, by simpa [trimRightRev, hc] using h2⟩
      simp only [trimRightRev, hc, if_true, List.replicate_succ, List.cons_append]
      rw [← hn]
    · exact ⟨⟨0, by simp [trimRightRev, hc]⟩, by simp [trimRightRev, hc]⟩

theorem TrimRight_spec (p : GoString) :
    (∃ n, p = TrimRight p ++ List.replicate n slash) ∧ (TrimRight p).getLast? ≠ some slash := by
  obtain ⟨⟨n, hn⟩, h2⟩ := trimRightRev_spec p.reverse
  constructor
  · refine ⟨n, ?_⟩
    have := congrArg List.reverse hn
    simpa [TrimRight] using this
  · simpa [TrimRight, List.getLast?_reverse] using h2

theorem prefix_longer_ends_in_slash (t q : List Nat) (n : Nat)
    (hq : q <+: t ++ List.replicate n slash) (hlen : t.length < q.length) :
    q.getLast? = some slash := by
  have hq2 := List.prefix_iff_eq_take.mp hq
  rw [List.take_append_eq_append_take, List.take_of_length_le (by omega)] at hq2
  rw [List.take_replicate] at hq2
  have hlen2 : q.length = t.length + min (q.length - t.length) n := by
    have := congrArg List.length hq2
    simpa using this
  have hpos : 0 < min (q.length - t.length) n := by omega
  obtain ⟨m, hm⟩ : ∃ m, min (q.length - t.length) n = m + 1 := ⟨_, (Nat.succ_pred_eq_of_pos hpos).symm⟩
  rw [hm, List.replicate_succ'] at hq2
  rw [hq2, ← List.append_assoc, List.getLast?_append]
  simp

/-- C11: with `cleanPath` off, `PreparePath` does no structural cleaning.  With
`trimTrailingSlashes` on it returns the longest prefix of `p` that does not end in
`/`: `p` is the result followed by slashes only, the result does not end in `/`, and
no longer prefix of `p` has this property.  With `trimTrailingSlashes` off it returns
`p` itself. -/
theorem PreparePath_without_clean (r : router) (p : GoString) (hc : r.cleanPath = false) :
    (r.trimTrailingSlashes = true →
      ∃ q n, r.PreparePath p = .ok q ∧ p = q ++ List.replicate n slash ∧
        q.getLast? ≠ some slash ∧
        ∀ q1, q1 <+: p → q1.getLast? ≠ some slash → q1.length ≤ q.length) ∧
    (r.trimTrailingSlashes = false → r.PreparePath p = .ok p) := by
  constructor
  · intro ht
    obtain ⟨⟨n, hn⟩, hlast⟩ := TrimRight_spec p
    refine ⟨TrimRight p, n, by simp [router.PreparePath, hc, ht], hn, hlast, ?_⟩
    intro q1 hq1 hq1last
    by_contra hlt
    rw [hn] at hq1
    exact hq1last (prefix_longer_ends_in_slash (TrimRight p) q1 n hq1 (by omega))
  · intro ht
    simp [router.PreparePath, hc, ht]

/-- C11 at the paths `/a//b/../` and `/`, with cleaning off and trimming on and off. -/
theorem PreparePath_without_clean_witness :
    (NewRouter.CleanPath false).cleanPath = false ∧
    ((NewRouter.CleanPath false).trimTrailingSlashes = true →
      ∃ q n, (NewRouter.CleanPath false).PreparePath (str "/a//b/../") = .ok q ∧
        str "/a//b/../" = q ++ List.replicate n slash ∧ q.getLast? ≠ some slash ∧
        ∀ q1, q1 <+: str "/a//b/../" → q1.getLast? ≠ some slash → q1.length ≤ q.length) ∧
    (NewRouter.CleanPath false).PreparePath (str "/a//b/../") = .ok (str "/a//b/..") ∧
    (NewRouter.CleanPath false).PreparePath (str "/") = .ok (str "") ∧
    ((NewRouter.CleanPath false).TrimTrailingSlashes false).PreparePath (str "/a//b/../")
      = .ok (str "/a//b/../") :=
  ⟨rfl, (PreparePath_without_clean (NewRouter.CleanPath false) (str "/a//b/../") rfl).1,
    rfl, rfl, rfl⟩

/-! ## Registration -/

theorem NewRoute_ok (r : router) (p : GoString) (h : Option HandlerId) (hp : p ≠ []) :
    r.NewRoute p h = .ok
      ({ r with routes := r.routes ++
          [{ PathRegexp := if p.head? = some 94 then p else 94 :: p, Handler := h, Vars := [],
             Filters := newFilterChain, methods := none }] },
        { PathRegexp := if p.head? = some 94 then p else 94 :: p, Handler := h, Vars := [],
          Filters := newFilterChain, methods := none }) := by
  cases p with
  | nil => exact absurd rfl hp
  | cons b t =>
    by_cases hb : b = 94
    · simp [router.NewRoute, hb]
    · simp [router.NewRoute, hb]

theorem Handle_eq_NewRoute (r : router) (p : GoString) (h : Option HandlerId) (hp : p ≠ []) :
    r.Handle p h = r.NewRoute (if p.getLast? = some 36 then p else p ++ [36]) h := by
  cases hl : p.getLast? with
  | none => exact absurd (List.getLast?_eq_none_iff.mp hl) hp
  | some b =>
    by_cases hb : b = 36
    · simp [router.Handle, hl, hb]
    · simp [router.Handle, hl, hb]

/-- C12: exact and partial registration, for a non-empty pattern `p`.  When `p` does
not end in `$`, `Handle` of `p` and `Handle` of `p` followed by `$` return the same
router and the same route, hence routes with the same `match` outcome on every
request.  `Handle` stores `p`, with `$` appended when `p` does not end in it and `^`
put in front when `p` does not begin with it; `HandlePartial` stores `p` with only
`^` put in front when missing.  Both append the one new route at the end of the
route table and change nothing else in the router. -/
theorem registration_patterns (r : router) (p : GoString) (h : Option HandlerId)
    (hp : p ≠ []) :
    (p.getLast? ≠ some 36 →
      r.Handle p h = r.Handle (p ++ [36]) h ∧
      ∀ r1 rt1 r2 rt2, r.Handle p h = .ok (r1, rt1) → r.Handle (p ++ [36]) h = .ok (r2, rt2) →
        rt1.PathRegexp = rt2.PathRegexp ∧
        ∀ (E : RegexEngine) (req : Request),
          rt1.matchRequest E r1 req = rt2.matchRequest E r2 req) ∧
    (∃ rt, r.Handle p h = .ok ({ r with routes := r.routes ++ [rt] }, rt) ∧
      rt.PathRegexp =
        (if p.head? = some 94 then (if p.getLast? = some 36 then p else p ++ [36])
          else 94 :: (if p.getLast? = some 36 then p else p ++ [36]))) ∧
    (∃ rt, r.HandlePartial p h = .ok ({ r with routes := r.routes ++ [rt] }, rt) ∧
      rt.PathRegexp = (if p.head? = some 94 then p else 94 :: p)) := by
  refine ⟨?_, ?_, ?_⟩
  · intro hl
    have h1 := Handle_eq_NewRoute r p h hp
    have h2 := Handle_eq_NewRoute r (p ++ [36]) h (by simp)
    rw [if_neg hl] at h1
    rw [if_pos (by simp)] at h2
    have heq : r.Handle p h = r.Handle (p ++ [36]) h := by rw [h1, h2]
    refine ⟨heq, ?_⟩
    intro r1 rt1 r2 rt2 ha hb
    rw [heq, hb] at ha
    simp only [Except.ok.injEq, Prod.mk.injEq] at ha
    obtain ⟨hr, hrt⟩ := ha
    subst hr hrt
    exact ⟨rfl, fun _ _ => rfl⟩
  · have h1 := Handle_eq_NewRoute r p h hp
    have hne : (if p.getLast? = some 36 then p else p ++ [36]) ≠ [] := by
      split
      · exact hp
      · simp
    rw [NewRoute_ok r _ h hne] at h1
    refine ⟨_, h1, ?_⟩
    have hhead : (if p.getLast? = some 36 then p else p ++ [36]).head? = p.head? := by
      split
      · rfl
      · cases p with
        | nil => exact absurd rfl hp
        | cons b t => simp
    simp only [hhead]
  · exact ⟨_, by rw [router.HandlePartial, NewRoute_ok r p h hp], rfl⟩

/-- C12 at the pattern `/a` on the router `exampleRouter`. -/
theorem registration_patterns_witness :
    str "/a" ≠ [] ∧ (str "/a").getLast? ≠ some 36 ∧
    exampleRouter.Handle (str "/a") (some 7) = exampleRouter.Handle (str "/a$") (some 7) ∧
    (∃ rt, exampleRouter.Handle (str "/a") (some 7)
        = .ok ({ exampleRouter with routes := exampleRouter.routes ++ [rt] }, rt) ∧
      rt.PathRegexp = str "^/a$") ∧
    (∃ rt, exampleRouter.HandlePartial (str "/a") (some 7)
        = .ok ({ exampleRouter with routes := exampleRouter.routes ++ [rt] }, rt) ∧
      rt.PathRegexp = str "^/a") :=
  ⟨by decide, by decide,
    ((registration_patterns exampleRouter (str "/a") (some 7) (by decide)).1 (by decide)).1,
    (registration_patterns exampleRouter (str "/a") (some 7) (by decide)).2.1,
    (registration_patterns exampleRouter (str "/a") (some 7) (by decide)).2.2⟩

/-! ## Maps -/

theorem VarMap.get?_set_self (m : VarMap) (k v : GoString) : (m.set k v).get? k = some v := by
  induction m with
  | nil => simp [VarMap.set, VarMap.get?]
  | cons kv m ih =>
    obtain ⟨k1, v1⟩ := kv
    by_cases h : k1 = k
    · simp [VarMap.set, VarMap.get?, h]
    · simp [VarMap.set, VarMap.get?, h, ih]

theorem VarMap.get?_set_ne (m : VarMap) (k v key : GoString) (hne : k ≠ key) :
    (m.set k v).get? key = m.get? key := by
  induction m with
  | nil => simp [VarMap.set, VarMap.get?, hne]
  | cons kv m ih =>
    obtain ⟨k1, v1⟩ := kv
    by_cases h : k1 = k
    · simp only [VarMap.set, h, if_true, VarMap.get?, if_neg hne]
    · by_cases h3 : k1 = key
      · simp only [VarMap.set, if_neg h, VarMap.get?, if_pos h3]
      · simp only [VarMap.set, if_neg h, VarMap.get?, if_neg h3, ih]

theorem VarMap.keys_set (m : VarMap) (k v : GoString) :
    ∀ key, key ∈ (m.set k v).map Prod.fst ↔ (key = k ∨ key ∈ m.map Prod.fst) := by
  induction m with
  | nil => intro key; simp [VarMap.set]
  | cons kv m ih =>
    obtain ⟨k1, v1⟩ := kv
    intro key
    by_cases h : k1 = k
    · simp only [VarMap.set, h, if_true, List.map_cons, List.mem_cons]
      tauto
    · simp only [VarMap.set, h, if_false, List.map_cons, List.mem_cons, ih key]
      tauto

theorem VarMap.nodup_set (m : VarMap) (k v : GoString) (h : (m.map Prod.fst).Nodup) :
    ((m.set k v).map Prod.fst).Nodup := by
  induction m with
  | nil => simp [VarMap.set]
  | cons kv m ih =>
    obtain ⟨k1, v1⟩ := kv
    simp only [List.map_cons, List.nodup_cons] at h
    by_cases hk : k1 = k
    · simp only [VarMap.set, hk, if_true, List.map_cons, List.nodup_cons]
      rw [← hk]
      exact h
    · simp only [VarMap.set, hk, if_false, List.map_cons, List.nodup_cons]
      refine ⟨?_, ih h.2⟩
      rw [VarMap.keys_set]
      rintro (h1 | h1)
      · exact hk h1
      · exact h.1 h1

/-! ## The filters of `Headers` and `Queries` -/

theorem mapFromPairs_none_iff (pairs : List GoString) :
    mapFromPairs pairs = none ↔ pairs.length % 2 = 1 := by
  simp only [mapFromPairs, Nat.and_one_is_mod]
  constructor
  · intro h
    split at h
    · omega
    · simp at h
  · intro h
    rw [if_pos (by omega)]

theorem mapFromPairs_some_of_even (pairs : List GoString) (h : pairs.length % 2 = 0) :
    mapFromPairs pairs = some (mapFromPairsLoop pairs []) := by
  simp only [mapFromPairs, Nat.and_one_is_mod]
  rw [if_neg (by omega)]

/-- In a map, an entry is what the lookup of its key returns. -/
theorem VarMap.get?_eq_some_iff (m : VarMap) (h : (m.map Prod.fst).Nodup) (k v : GoString) :
    m.get? k = some v ↔ (k, v) ∈ m := by
  induction m with
  | nil => simp [VarMap.get?]
  | cons kv m ih =>
    obtain ⟨k1, v1⟩ := kv
    simp only [List.map_cons, List.nodup_cons] at h
    by_cases hk : k1 = k
    · subst hk
      simp only [VarMap.get?, if_true, Option.some.injEq, List.mem_cons, Prod.mk.injEq,
        true_and]
      constructor
      · intro hv
        exact Or.inl hv.symm
      · rintro (hv | hmem)
        · exact hv.symm
        · exact absurd (List.mem_map.mpr ⟨(k1, v), hmem, rfl⟩) h.1
    · simp only [VarMap.get?, if_neg hk, List.mem_cons, Prod.mk.injEq, ih h.2]
      constructor
      · exact fun hmem => Or.inr hmem
      · rintro (⟨hk1, _⟩ | hmem)
        · exact absurd hk1.symm hk
        · exact hmem

/-- An even number of arguments is the list of its pairs, written out. -/
theorem pairsOf_flatten : ∀ (pairs : List GoString), pairs.length % 2 = 0 →
    ((pairsOf pairs).map (fun kv => [kv.1, kv.2])).flatten = pairs
  | [], _ => rfl
  | [_], h => by simp at h
  | k :: v :: rest, h => by
    have ih := pairsOf_flatten rest (by simp only [List.length_cons] at h; omega)
    simp [pairsOf, ih]

/-- The names with a configured value are the names of the pairs. -/
theorem configuredValue_isSome_iff (ps : List (GoString × GoString)) (k : GoString) :
    (∃ v, configuredValue ps k = some v) ↔ k ∈ ps.map Prod.fst := by
  induction ps with
  | nil => simp [configuredValue]
  | cons kv ps ih =>
    obtain ⟨k1, v1⟩ := kv
    simp only [configuredValue, List.map_cons, List.mem_cons]
    cases hc : configuredValue ps k with
    | some v =>
      have : k ∈ ps.map Prod.fst := ih.mp ⟨v, hc⟩
      simp [this]
    | none =>
      have hn : k ∉ ps.map Prod.fst := fun hmem => by
        obtain ⟨v, hv⟩ := ih.mpr hmem
        rw [hc] at hv
        simp at hv
      by_cases hk : k1 = k
      · simp [hk]
      · have hk2 : ¬ k = k1 := fun h => hk h.symm
        simp [hk, hk2, hn]

/-- A configured value is the value of one of the pairs. -/
theorem configuredValue_mem (ps : List (GoString × GoString)) (k v : GoString)
    (h : configuredValue ps k = some v) : (k, v) ∈ ps := by
  induction ps with
  | nil => simp [configuredValue] at h
  | cons kv ps ih =>
    obtain ⟨k1, v1⟩ := kv
    simp only [configuredValue] at h
    cases hc : configuredValue ps k with
    | some v2 =>
      rw [hc] at h
      simp only [Option.some.injEq] at h
      subst h
      exact List.mem_cons_of_mem _ (ih hc)
    | none =>
      rw [hc] at h
      simp only at h
      split at h
      · rename_i hk
        simp only [Option.some.injEq] at h
        rw [← hk, ← h]
        exact List.mem_cons_self _ _
      · simp at h

/-- When the names of the pairs are distinct, the configured values are the pairs. -/
theorem configuredValue_of_nodup (ps : List (GoString × GoString))
    (hnd : (ps.map Prod.fst).Nodup) (k v : GoString) :
    configuredValue ps k = some v ↔ (k, v) ∈ ps := by
  refine ⟨configuredValue_mem ps k v, ?_⟩
  induction ps with
  | nil => intro h; simp at h
  | cons kv ps ih =>
    obtain ⟨k1, v1⟩ := kv
    simp only [List.map_cons, List.nodup_cons] at hnd
    intro hmem
    simp only [configuredValue]
    rcases List.mem_cons.mp hmem with heq | hmem
    · simp only [Prod.mk.injEq] at heq
      obtain ⟨hk, hv⟩ := heq
      subst hk hv
      cases hc : configuredValue ps k with
      | some v2 =>
        exact absurd (List.mem_map.mpr ⟨(k, v2), configuredValue_mem ps k v2 hc, rfl⟩) hnd.1
      | none => simp
    · rw [ih hnd.2 hmem]

/-- The map that the loop of `mapFromPairs` builds: its keys are distinct, and the
lookup of a name returns the value configured for it by the pairs, or else what the
map held before. -/
theorem mapFromPairsLoop_spec : ∀ (pairs : List GoString) (acc : VarMap),
    (acc.map Prod.fst).Nodup →
    ((mapFromPairsLoop pairs acc).map Prod.fst).Nodup ∧
    ∀ k, (mapFromPairsLoop pairs acc).get? k =
      match configuredValue (pairsOf pairs) k with
      | some v => some v
      | none => acc.get? k
  | [], acc, h => ⟨h, fun _ => rfl⟩
  | [_], acc, h => ⟨h, fun _ => rfl⟩
  | k :: v :: rest, acc, h => by
    obtain ⟨hnd, hget⟩ := mapFromPairsLoop_spec rest (acc.set k v) (VarMap.nodup_set acc k v h)
    refine ⟨hnd, fun key => ?_⟩
    simp only [mapFromPairsLoop, pairsOf, configuredValue]
    rw [hget key]
    cases hc : configuredValue (pairsOf rest) key with
    | some x => rfl
    | none =>
      by_cases hk : k = key
      · subst hk
        simp [VarMap.get?_set_self]
      · simp [hk, VarMap.get?_set_ne acc k v key hk]

/-- The map that `mapFromPairs` returns holds exactly the values that the pairs
configure. -/
theorem mapFromPairs_spec (pairs : List GoString) (m : VarMap)
    (h : mapFromPairs pairs = some m) (k v : GoString) :
    (k, v) ∈ m ↔ configuredValue (pairsOf pairs) k = some v := by
  simp only [mapFromPairs] at h
  split at h
  · simp at h
  · simp only [Option.some.injEq] at h
    subst h
    obtain ⟨hnd, hget⟩ := mapFromPairsLoop_spec pairs [] (by simp)
    rw [← VarMap.get?_eq_some_iff _ hnd, hget k]
    cases hc : configuredValue (pairsOf pairs) k with
    | some x => simp
    | none => simp [VarMap.get?]

/-- A loop over a map with one entry visits that entry. -/
theorem MapOrder.visit_single (O : MapOrder) (req : Request) (kv : GoString × GoString) :
    O.visit req [kv] = [kv] :=
  List.perm_singleton.mp (O.perm req [kv])

/-- C13: odd-length pair lists are rejected when the route is configured.
`mapFromPairs` returns an error exactly when the number of arguments is odd;
`Headers` and `Queries` panic exactly when it is odd, and they then leave the route
as it was, with the same filters and the same count; when it is even they return,
having appended exactly one filter at the end of the chain and raised `count` by
one, and leave everything else as it was. -/
theorem pairs_rejected_when_odd (E : RegexEngine) (O : MapOrder) (rt : route)
    (pairs : List GoString) :
    (mapFromPairs pairs = none ↔ pairs.length % 2 = 1) ∧
    ((rt.Headers O pairs).2 = some .panic ↔ pairs.length % 2 = 1) ∧
    ((rt.Queries E O pairs).2 = some .panic ↔ pairs.length % 2 = 1) ∧
    (pairs.length % 2 = 1 →
      rt.Headers O pairs = (rt, some .panic) ∧ rt.Queries E O pairs = (rt, some .panic) ∧
      (rt.Headers O pairs).1.Filters.filters.length = rt.Filters.filters.length ∧
      (rt.Headers O pairs).1.Filters.count = rt.Filters.count ∧
      (rt.Queries E O pairs).1.Filters.filters.length = rt.Filters.filters.length ∧
      (rt.Queries E O pairs).1.Filters.count = rt.Filters.count) ∧
    (pairs.length % 2 = 0 →
      ∃ m, mapFromPairs pairs = some m ∧
        rt.Headers O pairs = ({ rt with Filters :=
          { count := rt.Filters.count + 1, current := rt.Filters.current,
            filters := rt.Filters.filters ++ [headersFilter O m] } }, none) ∧
        rt.Queries E O pairs = ({ rt with Filters :=
          { count := rt.Filters.count + 1, current := rt.Filters.current,
            filters := rt.Filters.filters ++ [queriesFilter E O m] } }, none) ∧
        (rt.Headers O pairs).1.Filters.filters.length = rt.Filters.filters.length + 1 ∧
        (rt.Queries E O pairs).1.Filters.filters.length = rt.Filters.filters.length + 1) := by
  have hnone := mapFromPairs_none_iff pairs
  have hodd : pairs.length % 2 = 1 →
      rt.Headers O pairs = (rt, some .panic) ∧ rt.Queries E O pairs = (rt, some .panic) := by
    intro h
    have hm := hnone.mpr h
    exact ⟨by simp only [route.Headers, hm], by simp only [route.Queries, hm]⟩
  have heven : pairs.length % 2 = 0 →
      rt.Headers O pairs = ({ rt with Filters :=
          { count := rt.Filters.count + 1, current := rt.Filters.current,
            filters := rt.Filters.filters ++ [headersFilter O (mapFromPairsLoop pairs [])] } },
          none) ∧
        rt.Queries E O pairs = ({ rt with Filters :=
          { count := rt.Filters.count + 1, current := rt.Filters.current,
            filters := rt.Filters.filters ++ [queriesFilter E O (mapFromPairsLoop pairs [])] } },
          none) := by
    intro h
    have hm := mapFromPairs_some_of_even pairs h
    exact ⟨by simp only [route.Headers, hm, FilterChain.AddFunc, FilterChain.Add],
      by simp only [route.Queries, hm, FilterChain.AddFunc, FilterChain.Add]⟩
  have hcases : pairs.length % 2 = 1 ∨ pairs.length % 2 = 0 := by omega
  refine ⟨hnone, ?_, ?_, ?_, ?_⟩
  · constructor
    · intro h
      rcases hcases with h1 | h0
      · exact h1
      · rw [(heven h0).1] at h
        simp at h
    · intro h
      rw [(hodd h).1]
  · constructor
    · intro h
      rcases hcases with h1 | h0
      · exact h1
      · rw [(heven h0).2] at h
        simp at h
    · intro h
      rw [(hodd h).2]
  · intro h
    obtain ⟨h1, h2⟩ := hodd h
    refine ⟨h1, h2, ?_, ?_, ?_, ?_⟩
    · rw [h1]
    · rw [h1]
    · rw [h2]
    · rw [h2]
  · intro h
    obtain ⟨h1, h2⟩ := heven h
    refine ⟨_, mapFromPairs_some_of_even pairs h, h1, h2, ?_, ?_⟩
    · rw [h1]
      simp
    · rw [h2]
      simp

/-- C13 at the route `routeB`: with three arguments `Headers` and `Queries` panic and
leave the route as it was, without a filter; with two arguments they return the
route with one filter. -/
theorem pairs_rejected_when_odd_witness :
    [str "X-Auth", str "1", str "X-Id"].length % 2 = 1 ∧
    (routeB.Headers MapOrder.listed [str "X-Auth", str "1", str "X-Id"] = (routeB, some .panic) ∧
      routeB.Queries exampleEngine MapOrder.listed [str "X-Auth", str "1", str "X-Id"]
        = (routeB, some .panic) ∧
      (routeB.Headers MapOrder.listed
        [str "X-Auth", str "1", str "X-Id"]).1.Filters.filters.length
          = routeB.Filters.filters.length ∧
      (routeB.Headers MapOrder.listed [str "X-Auth", str "1", str "X-Id"]).1.Filters.count
        = routeB.Filters.count ∧
      (routeB.Queries exampleEngine MapOrder.listed
        [str "X-Auth", str "1", str "X-Id"]).1.Filters.filters.length
          = routeB.Filters.filters.length ∧
      (routeB.Queries exampleEngine MapOrder.listed
        [str "X-Auth", str "1", str "X-Id"]).1.Filters.count = routeB.Filters.count) ∧
    routeB.Filters.filters.length = 0 ∧
    [str "X-Auth", str "1"].length % 2 = 0 ∧
    (∃ m, mapFromPairs [str "X-Auth", str "1"] = some m ∧
      routeB.Headers MapOrder.listed [str "X-Auth", str "1"] = ({ routeB with Filters :=
        { count := routeB.Filters.count + 1, current := routeB.Filters.current,
          filters := routeB.Filters.filters ++ [headersFilter MapOrder.listed m] } }, none) ∧
      routeB.Queries exampleEngine MapOrder.listed [str "X-Auth", str "1"] =
        ({ routeB with Filters :=
          { count := routeB.Filters.count + 1, current := routeB.Filters.current,
            filters := routeB.Filters.filters ++
              [queriesFilter exampleEngine MapOrder.listed m] } }, none) ∧
      (routeB.Headers MapOrder.listed [str "X-Auth", str "1"]).1.Filters.filters.length
        = routeB.Filters.filters.length + 1 ∧
      (routeB.Queries exampleEngine MapOrder.listed
        [str "X-Auth", str "1"]).1.Filters.filters.length
          = routeB.Filters.filters.length + 1) ∧
    routeB.Headers MapOrder.listed [str "X-Auth", str "1"] = (routeAuth, none) :=
  ⟨by decide,
    (pairs_rejected_when_odd exampleEngine MapOrder.listed routeB
      [str "X-Auth", str "1", str "X-Id"]).2.2.2.1 (by decide),
    rfl, by decide,
    (pairs_rejected_when_odd exampleEngine MapOrder.listed routeB
      [str "X-Auth", str "1"]).2.2.2.2 (by decide),
    rfl⟩

theorem headersLoop_pass (req : Request) (m : List (GoString × GoString))
    (h : ∀ kv ∈ m, req.headerGet kv.1 = kv.2) :
    headersLoop req m = .run (fun b => .ret b) := by
  induction m with
  | nil => rfl
  | cons kv m ih =>
    obtain ⟨k, v⟩ := kv
    have hk : req.headerGet k = v := h (k, v) (List.mem_cons_self _ _)
    simp only [headersLoop, hk, ne_eq, not_true_eq_false, if_false]
    exact ih (fun x hx => h x (List.mem_cons_of_mem _ hx))

theorem headersLoop_fail (req : Request) (m : List (GoString × GoString))
    (h : ¬ ∀ kv ∈ m, req.headerGet kv.1 = kv.2) :
    headersLoop req m = .act Effect.badRequest (.ret false) := by
  induction m with
  | nil => exact absurd (fun _ hx => by simp at hx) h
  | cons kv m ih =>
    obtain ⟨k, v⟩ := kv
    by_cases hk : v = req.headerGet k
    · simp only [headersLoop, hk, ne_eq, not_true_eq_false, if_false]
      apply ih
      intro hall
      apply h
      intro x hx
      rcases List.mem_cons.mp hx with hx | hx
      · rw [hx]
        exact hk.symm
      · exact hall x hx
    · simp [headersLoop, hk]

/-- The filter of `Headers` when every entry of the map agrees with the request, in
whatever order the entries are visited. -/
theorem headersFilter_pass (O : MapOrder) (m : VarMap) (req : Request)
    (h : ∀ kv ∈ m, req.headerGet kv.1 = kv.2) :
    headersFilter O m req = .run (fun b => .ret b) :=
  headersLoop_pass req _ (fun kv hkv => h kv ((O.perm req m).mem_iff.mp hkv))

/-- The filter of `Headers` when some entry of the map differs from the request, in
whatever order the entries are visited. -/
theorem headersFilter_fail (O : MapOrder) (m : VarMap) (req : Request)
    (h : ¬ ∀ kv ∈ m, req.headerGet kv.1 = kv.2) :
    headersFilter O m req = .act Effect.badRequest (.ret false) :=
  headersLoop_fail req _ (fun h1 => h (fun kv hkv => h1 kv ((O.perm req m).mem_iff.mpr hkv)))

/-- When the chain of the first fully matching route is made of accepting and
rejecting gates and one of them rejects, `ServeHTTP` returns without invoking a route
handler, provided the patterns of the routes before that route compile. -/
theorem ServeHTTP_gate_rejects_returns (E : RegexEngine) (fuel : Nat) (r : router)
    (req : Request)
    (i : Nat) (rt : route) (hfirst : r.FirstFullMatch E req i rt)
    (hcomp : r.CompilesBefore E i) (hH : rt.Handler ≠ none)
    (hcount : rt.Filters.count = rt.Filters.filters.length) (hcur : rt.Filters.current = 0)
    (hgates : ∀ f ∈ rt.Filters.filters,
      (f { req with ctxVars := some i }).accepts = true ∨
        (f { req with ctxVars := some i }).rejects = true)
    (hrej : ∃ f ∈ rt.Filters.filters, (f { req with ctxVars := some i }).rejects = true)
    (hfuel : rt.Filters.filters.length < fuel) :
    ∃ r1 evs, r.ServeHTTP E fuel req = .ok (r1, evs) ∧ handlersOf evs = [] := by
  obtain ⟨rt1, hm⟩ := hfirst.2.1
  obtain ⟨vars, hrt1⟩ := matchRequest_full E r rt req rt1 hm
  have hserve := ServeHTTP_first E fuel r req i rt rt1 hcomp hfirst hm
  have hF : rt1.Filters = rt.Filters := by rw [hrt1]
  have hh : rt1.Handler = rt.Handler := by rw [hrt1]
  cases hHd : rt.Handler with
  | none => exact absurd hHd hH
  | some h =>
    rw [hh, hHd, hF] at hserve
    simp only at hserve
    obtain ⟨evs, hrun, _⟩ := Run_wellBehaved { req with ctxVars := some i }
      rt.Filters.filters.length rt.Filters fuel hcount (by omega) hfuel
      (by simpa [hcur] using hgates)
    obtain ⟨_, _, hno⟩ := Run_inv fuel _ _ _ _ _ hrun
    obtain ⟨f, hf, hfr⟩ := hrej
    have hb : ((rt.Filters.filters.drop rt.Filters.current).map
        (fun f => f { req with ctxVars := some i })).all FilterProg.accepts = false := by
      rw [hcur, List.drop_zero, List.all_eq_false]
      exact ⟨_, List.mem_map.mpr ⟨f, hf, rfl⟩, by simp [not_accepts_of_rejects _ hfr]⟩
    rw [hb] at hrun
    rw [hrun] at hserve
    exact ⟨_, _, hserve, by simp [handlersOf_append, hno, handlersOf]⟩

/-- When the chain of the first fully matching route is made of accepting and
rejecting gates and one of them rejects, `ServeHTTP` invokes no route handler: a
dispatch that returns has invoked none, and the dispatch returns when the patterns of
the routes before that route compile (it panics otherwise). -/
theorem ServeHTTP_gate_rejects (E : RegexEngine) (fuel : Nat) (r : router) (req : Request)
    (i : Nat) (rt : route) (hfirst : r.FirstFullMatch E req i rt) (hH : rt.Handler ≠ none)
    (hcount : rt.Filters.count = rt.Filters.filters.length) (hcur : rt.Filters.current = 0)
    (hgates : ∀ f ∈ rt.Filters.filters,
      (f { req with ctxVars := some i }).accepts = true ∨
        (f { req with ctxVars := some i }).rejects = true)
    (hrej : ∃ f ∈ rt.Filters.filters, (f { req with ctxVars := some i }).rejects = true)
    (hfuel : rt.Filters.filters.length < fuel) :
    (∀ r1 evs, r.ServeHTTP E fuel req = .ok (r1, evs) → handlersOf evs = []) ∧
    (r.CompilesBefore E i → ∃ r1 evs, r.ServeHTTP E fuel req = .ok (r1, evs)) := by
  by_cases hcomp : r.CompilesBefore E i
  · obtain ⟨r1, evs, hs, hh⟩ := ServeHTTP_gate_rejects_returns E fuel r req i rt hfirst hcomp
      hH hcount hcur hgates hrej hfuel
    refine ⟨?_, fun _ => ⟨r1, evs, hs⟩⟩
    intro r2 evs2 h2
    rw [hs] at h2
    simp only [Except.ok.injEq, Prod.mk.injEq] at h2
    rw [← h2.2]
    exact hh
  · refine ⟨?_, fun h => absurd h hcomp⟩
    simp only [router.CompilesBefore, not_forall] at hcomp
    obtain ⟨j, rj, hj, hrj, hbad⟩ := hcomp
    have hpanic := ServeHTTP_reaches_bad E fuel r req j rj hrj (by simpa using hbad)
      (fun j1 rj1 hj1 h1 => hfirst.2.2 j1 rj1 (by omega) h1)
    intro r2 evs2 h2
    rw [hpanic] at h2
    simp at h2

/-- C14: the filter of `Headers`, for an even number of arguments.  `Headers` returns,
having appended one filter.  The map it checks holds, for every name among the
arguments, the value configured for it (that of the last pair with the name; when
the names are distinct, the pairs themselves).  When the request has, for every
configured name, the configured value as the value of the header, the filter is
`return chain.Run(w, req)`; otherwise it invokes `BadRequestHandler` once and returns
false without invoking `chain.Run`.  The body is the same in whatever order the
entries are visited.  In the second case a route that carries the filter among
accepting and rejecting filters never has its handler invoked by `ServeHTTP`: a
dispatch that returns has invoked no route handler, and the dispatch returns when
the patterns of the routes before the route compile. -/
theorem headers_filter (O : MapOrder) (rt : route) (pairs : List GoString) (req : Request)
    (heven : pairs.length % 2 = 0) :
    ∃ m, mapFromPairs pairs = some m ∧
      rt.Headers O pairs =
        ({ rt with Filters := rt.Filters.AddFunc (headersFilter O m) }, none) ∧
      ((pairsOf pairs).map (fun kv => [kv.1, kv.2])).flatten = pairs ∧
      (∀ k v, (k, v) ∈ m ↔ configuredValue (pairsOf pairs) k = some v) ∧
      (∀ k, k ∈ (pairsOf pairs).map Prod.fst ↔
        ∃ v, configuredValue (pairsOf pairs) k = some v) ∧
      (((pairsOf pairs).map Prod.fst).Nodup →
        ∀ k v, configuredValue (pairsOf pairs) k = some v ↔ (k, v) ∈ pairsOf pairs) ∧
      ((∀ k v, configuredValue (pairsOf pairs) k = some v → req.headerGet k = v) →
        headersFilter O m req = .run (fun b => .ret b)) ∧
      ((¬ ∀ k v, configuredValue (pairsOf pairs) k = some v → req.headerGet k = v) →
        headersFilter O m req = .act Effect.badRequest (.ret false)) ∧
      (∀ O1 : MapOrder, headersFilter O1 m req = headersFilter O m req) ∧
      ((¬ ∀ k v, configuredValue (pairsOf pairs) k = some v → req.headerGet k = v) →
        ∀ (E : RegexEngine) (fuel : Nat) (r : router) (i : Nat) (rt1 : route),
          r.FirstFullMatch E req i rt1 → rt1.Handler ≠ none →
          rt1.Filters.count = rt1.Filters.filters.length → rt1.Filters.current = 0 →
          headersFilter O m ∈ rt1.Filters.filters →
          (∀ f ∈ rt1.Filters.filters,
            (f { req with ctxVars := some i }).accepts = true ∨
              (f { req with ctxVars := some i }).rejects = true) →
          rt1.Filters.filters.length < fuel →
          (∀ r1 evs, r.ServeHTTP E fuel req = .ok (r1, evs) → handlersOf evs = []) ∧
          (r.CompilesBefore E i → ∃ r1 evs, r.ServeHTTP E fuel req = .ok (r1, evs))) := by
  have hm := mapFromPairs_some_of_even pairs heven
  have hspec := mapFromPairs_spec pairs _ hm
  have hiff : ∀ rq : Request, rq.Header = req.Header →
      ((∀ kv ∈ mapFromPairsLoop pairs [], rq.headerGet kv.1 = kv.2) ↔
        ∀ k v, configuredValue (pairsOf pairs) k = some v → req.headerGet k = v) := by
    intro rq hrq
    have hget : ∀ k, rq.headerGet k = req.headerGet k := by
      intro k
      simp only [Request.headerGet, hrq]
    constructor
    · intro h k v hc
      rw [← hget k]
      exact h (k, v) ((hspec k v).mpr hc)
    · intro h kv hkv
      rw [hget]
      exact h kv.1 kv.2 ((hspec kv.1 kv.2).mp hkv)
  refine ⟨_, hm, by simp only [route.Headers, hm], pairsOf_flatten pairs heven, hspec,
    fun k => (configuredValue_isSome_iff _ k).symm,
    fun hnd k v => configuredValue_of_nodup _ hnd k v, ?_, ?_, ?_, ?_⟩
  · intro hall
    exact headersFilter_pass O _ req ((hiff req rfl).mpr hall)
  · intro hall
    exact headersFilter_fail O _ req (fun h => hall ((hiff req rfl).mp h))
  · intro O1
    by_cases hall : ∀ kv ∈ mapFromPairsLoop pairs [], req.headerGet kv.1 = kv.2
    · rw [headersFilter_pass O1 _ req hall, headersFilter_pass O _ req hall]
    · rw [headersFilter_fail O1 _ req hall, headersFilter_fail O _ req hall]
  · intro hall E fuel r i rt1 hfirst hH hcount hcur hmem hgates hfuel
    refine ServeHTTP_gate_rejects E fuel r req i rt1 hfirst hH hcount hcur hgates
      ⟨_, hmem, ?_⟩ hfuel
    rw [headersFilter_fail O _ { req with ctxVars := some i }
      (fun h => hall ((hiff { req with ctxVars := some i } rfl).mp h))]
    rfl

/-- C14 at the pairs `X-Auth`, `1`, `X-Id`, `9` and at the pairs `X-Auth`, `1`.  With
the four arguments a request that has `X-Auth: 1` but no `X-Id` is answered by the
bad-request handler, in both orders of the check, and a request with both headers
reaches the handler.  With the two arguments a request without the header and a
request with `X-Auth: 2` are answered by the bad-request handler and the handler of
the route is not invoked; a request with `X-Auth: 1` reaches the handler. -/
theorem headers_filter_witness :
    [str "X-Auth", str "1", str "X-Id", str "9"].length % 2 = 0 ∧
    (∃ m, mapFromPairs [str "X-Auth", str "1", str "X-Id", str "9"] = some m ∧
      routeB.Headers MapOrder.listed [str "X-Auth", str "1", str "X-Id", str "9"] =
        ({ routeB with Filters :=
            routeB.Filters.AddFunc (headersFilter MapOrder.listed m) }, none) ∧
      ((pairsOf [str "X-Auth", str "1", str "X-Id", str "9"]).map
        (fun kv => [kv.1, kv.2])).flatten = [str "X-Auth", str "1", str "X-Id", str "9"] ∧
      (∀ k v, (k, v) ∈ m ↔
        configuredValue (pairsOf [str "X-Auth", str "1", str "X-Id", str "9"]) k = some v) ∧
      (∀ k, k ∈ (pairsOf [str "X-Auth", str "1", str "X-Id", str "9"]).map Prod.fst ↔
        ∃ v, configuredValue (pairsOf [str "X-Auth", str "1", str "X-Id", str "9"]) k
          = some v) ∧
      (((pairsOf [str "X-Auth", str "1", str "X-Id", str "9"]).map Prod.fst).Nodup →
        ∀ k v, configuredValue (pairsOf [str "X-Auth", str "1", str "X-Id", str "9"]) k
          = some v ↔ (k, v) ∈ pairsOf [str "X-Auth", str "1", str "X-Id", str "9"]) ∧
      ((∀ k v, configuredValue (pairsOf [str "X-Auth", str "1", str "X-Id", str "9"]) k
          = some v → requestAuth1.headerGet k = v) →
        headersFilter MapOrder.listed m requestAuth1 = .run (fun b => .ret b)) ∧
      ((¬ ∀ k v, configuredValue (pairsOf [str "X-Auth", str "1", str "X-Id", str "9"]) k
          = some v → requestAuth1.headerGet k = v) →
        headersFilter MapOrder.listed m requestAuth1 = .act Effect.badRequest (.ret false)) ∧
      (∀ O1 : MapOrder,
        headersFilter O1 m requestAuth1 = headersFilter MapOrder.listed m requestAuth1) ∧
      ((¬ ∀ k v, configuredValue (pairsOf [str "X-Auth", str "1", str "X-Id", str "9"]) k
          = some v → requestAuth1.headerGet k = v) →
        ∀ (E : RegexEngine) (fuel : Nat) (r : router) (i : Nat) (rt1 : route),
          r.FirstFullMatch E requestAuth1 i rt1 → rt1.Handler ≠ none →
          rt1.Filters.count = rt1.Filters.filters.length → rt1.Filters.current = 0 →
          headersFilter MapOrder.listed m ∈ rt1.Filters.filters →
          (∀ f ∈ rt1.Filters.filters,
            (f { requestAuth1 with ctxVars := some i }).accepts = true ∨
              (f { requestAuth1 with ctxVars := some i }).rejects = true) →
          rt1.Filters.filters.length < fuel →
          (∀ r1 evs, r.ServeHTTP E fuel requestAuth1 = .ok (r1, evs) → handlersOf evs = []) ∧
          (r.CompilesBefore E i →
            ∃ r1 evs, r.ServeHTTP E fuel requestAuth1 = .ok (r1, evs)))) ∧
    mapFromPairs [str "X-Auth", str "1", str "X-Id", str "9"]
      = some [(str "X-Auth", str "1"), (str "X-Id", str "9")] ∧
    routeB.Headers MapOrder.listed [str "X-Auth", str "1", str "X-Id", str "9"]
      = (routeAuthId, none) ∧
    configuredValue (pairsOf [str "X-Auth", str "1", str "X-Id", str "9"]) (str "X-Id")
      = some (str "9") ∧
    requestAuth1.headerGet (str "X-Id") = str "" ∧
    headersFilter MapOrder.listed [(str "X-Auth", str "1"), (str "X-Id", str "9")] requestAuth1
      = .act Effect.badRequest (.ret false) ∧
    headersFilter MapOrder.reversed [(str "X-Auth", str "1"), (str "X-Id", str "9")]
      requestAuth1 = .act Effect.badRequest (.ret false) ∧
    routerAuthId.ServeHTTP demoEngine 2 requestAuth1 =
      .ok (routerAuthId, [Event.gate 0, Event.act Effect.badRequest]) ∧
    routerAuthId.ServeHTTP demoEngine 2 requestAuthId =
      .ok (routerAuthId,
        [Event.gate 0, Event.handler 0 { requestAuthId with ctxVars := some 0 }]) ∧
    routeB.Headers MapOrder.listed [str "X-Auth", str "1"] = (routeAuth, none) ∧
    routerAuth.ServeHTTP demoEngine 2 requestNoAuth =
      .ok (routerAuth, [Event.gate 0, Event.act Effect.badRequest]) ∧
    routerAuth.ServeHTTP demoEngine 2 requestAuth2 =
      .ok (routerAuth, [Event.gate 0, Event.act Effect.badRequest]) ∧
    routerAuth.ServeHTTP demoEngine 2 requestAuth1 =
      .ok (routerAuth, [Event.gate 0, Event.handler 0 { requestAuth1 with ctxVars := some 0 }]) :=
  ⟨by decide,
    headers_filter MapOrder.listed routeB [str "X-Auth", str "1", str "X-Id", str "9"]
      requestAuth1 (by decide),
    rfl, rfl, by decide, by decide, rfl, rfl, rfl, rfl, rfl, rfl, rfl, rfl⟩

/-- The filter of `Queries` on a map with one entry whose pattern does not compile:
the internal-server-error handler is invoked and `log.Fatal` ends the process. -/
theorem queriesFilter_not_compiling (E : RegexEngine) (O : MapOrder) (k v : GoString)
    (req : Request) (hk : k ≠ []) (hcomp : E.compiles (queryPattern k v) = false) :
    queriesFilter E O [(k, v)] req = .act Effect.internalServerError (.fail .fatal) := by
  simp [queriesFilter, MapOrder.visit_single, queriesLoop, hk, hcomp]

/-- The filter of `Queries` on a map with one entry whose pattern compiles. -/
theorem queriesFilter_single (E : RegexEngine) (O : MapOrder) (k v : GoString)
    (req : Request) (hk : k ≠ []) (hcomp : E.compiles (queryPattern k v) = true) :
    queriesFilter E O [(k, v)] req =
      if E.matchString (queryPattern k v) req.RawQuery then .run (fun b => .ret b)
      else .act Effect.badRequest (.ret false) := by
  simp [queriesFilter, MapOrder.visit_single, queriesLoop, hk, hcomp]

/-- C15 fails as stated: `Queries("k", "(")`.  The name and the value pattern are not
empty, and the expression built from them does not compile.  The raw query
`sort=bogus` does not match it, so the claim has the bad-request handler invoked and
false returned; but the filter invokes the internal-server-error handler and ends
the process with `log.Fatal`, for every request. -/
theorem queries_value_does_not_compile :
    str "k" ≠ [] ∧ str "(" ≠ [] ∧
    queryPattern (str "k") (str "(") = str "(?:^|&)k=(?:()(?:$|&)" ∧
    exampleEngine.compiles (str "(?:^|&)k=(?:()(?:$|&)") = false ∧
    exampleEngine.matchString (str "(?:^|&)k=(?:()(?:$|&)") requestSortBogus.RawQuery = false ∧
    (∀ (O : MapOrder) (req : Request),
      queriesFilter exampleEngine O [(str "k", str "(")] req
        = .act Effect.internalServerError (.fail .fatal)) ∧
    (∀ O : MapOrder, queriesFilter exampleEngine O [(str "k", str "(")] requestSortBogus
      ≠ .act Effect.badRequest (.ret false)) ∧
    router.ServeHTTP exampleEngine 2
      { NewRouter with routes :=
          [(routeB.Queries exampleEngine MapOrder.listed [str "k", str "("]).1] }
      requestSortBogus = .error .fatal := by
  have hf : ∀ (O : MapOrder) (req : Request),
      queriesFilter exampleEngine O [(str "k", str "(")] req
        = .act Effect.internalServerError (.fail .fatal) :=
    fun O req => queriesFilter_not_compiling exampleEngine O (str "k") (str "(") req
      (by decide) (by decide)
  refine ⟨by decide, by decide, by decide, by decide, by decide, hf, ?_, rfl⟩
  intro O h
  rw [hf] at h
  simp at h

/-- C15 as amended: the filter of `Queries(k, v)` for a non-empty name `k` and a
non-empty value pattern `v`.  `Queries` returns, having appended the filter.  The
expression tested against the raw query is `(?:^|&)` followed by `k`, `=`, `(?:`, `v`
and `)(?:$|&)`.  When the expression compiles and the raw query matches it, the
filter is `return chain.Run(w, req)`; when it compiles and the raw query does not
match, the filter invokes `BadRequestHandler` once and returns false; when it does
not compile, the filter invokes `InternalServerErrorHandler` and ends the process
with `log.Fatal`. -/
theorem queries_filter (E : RegexEngine) (O : MapOrder) (rt : route) (k v : GoString)
    (req : Request) (hk : k ≠ []) (hv : v ≠ []) :
    mapFromPairs [k, v] = some [(k, v)] ∧
    rt.Queries E O [k, v] =
      ({ rt with Filters := rt.Filters.AddFunc (queriesFilter E O [(k, v)]) }, none) ∧
    queryPattern k v = str "(?:^|&)" ++ k ++ str "=" ++ str "(?:" ++ v ++ str ")(?:$|&)" ∧
    (E.compiles (str "(?:^|&)" ++ k ++ str "=" ++ str "(?:" ++ v ++ str ")(?:$|&)") = true →
      E.matchString (str "(?:^|&)" ++ k ++ str "=" ++ str "(?:" ++ v ++ str ")(?:$|&)")
        req.RawQuery = true →
      queriesFilter E O [(k, v)] req = .run (fun b => .ret b)) ∧
    (E.compiles (str "(?:^|&)" ++ k ++ str "=" ++ str "(?:" ++ v ++ str ")(?:$|&)") = true →
      E.matchString (str "(?:^|&)" ++ k ++ str "=" ++ str "(?:" ++ v ++ str ")(?:$|&)")
        req.RawQuery = false →
      queriesFilter E O [(k, v)] req = .act Effect.badRequest (.ret false)) ∧
    (E.compiles (str "(?:^|&)" ++ k ++ str "=" ++ str "(?:" ++ v ++ str ")(?:$|&)") = false →
      queriesFilter E O [(k, v)] req = .act Effect.internalServerError (.fail .fatal)) := by
  have hpat : queryPattern k v
      = str "(?:^|&)" ++ k ++ str "=" ++ str "(?:" ++ v ++ str ")(?:$|&)" := by
    simp [queryPattern, hv]
  have hm : mapFromPairs [k, v] = some [(k, v)] := mapFromPairs_some_of_even [k, v] (by simp)
  rw [← hpat]
  refine ⟨hm, by simp only [route.Queries, hm], rfl, ?_, ?_, ?_⟩
  · intro hcomp hmatch
    rw [queriesFilter_single E O k v req hk hcomp, if_pos hmatch]
  · intro hcomp hmatch
    rw [queriesFilter_single E O k v req hk hcomp, hmatch]
    simp
  · intro hcomp
    exact queriesFilter_not_compiling E O k v req hk hcomp

/-- C15 as amended, at `Queries("sort", "asc|desc")`: the raw query `sort=asc&x=1`
passes and the raw query `sort=bogus` is answered by the bad-request handler. -/
theorem queries_filter_witness :
    str "sort" ≠ [] ∧ str "asc|desc" ≠ [] ∧
    (mapFromPairs [str "sort", str "asc|desc"] = some [(str "sort", str "asc|desc")] ∧
      routeB.Queries exampleEngine MapOrder.listed [str "sort", str "asc|desc"] =
        ({ routeB with Filters := (routeB.Filters.AddFunc
            (queriesFilter exampleEngine MapOrder.listed [(str "sort", str "asc|desc")])) },
          none) ∧
      queryPattern (str "sort") (str "asc|desc") = str "(?:^|&)" ++ str "sort" ++ str "=" ++
        str "(?:" ++ str "asc|desc" ++ str ")(?:$|&)" ∧
      (exampleEngine.compiles (str "(?:^|&)" ++ str "sort" ++ str "=" ++ str "(?:" ++
          str "asc|desc" ++ str ")(?:$|&)") = true →
        exampleEngine.matchString (str "(?:^|&)" ++ str "sort" ++ str "=" ++ str "(?:" ++
          str "asc|desc" ++ str ")(?:$|&)") requestSortAsc.RawQuery = true →
        queriesFilter exampleEngine MapOrder.listed [(str "sort", str "asc|desc")]
          requestSortAsc = .run (fun b => .ret b)) ∧
      (exampleEngine.compiles (str "(?:^|&)" ++ str "sort" ++ str "=" ++ str "(?:" ++
          str "asc|desc" ++ str ")(?:$|&)") = true →
        exampleEngine.matchString (str "(?:^|&)" ++ str "sort" ++ str "=" ++ str "(?:" ++
          str "asc|desc" ++ str ")(?:$|&)") requestSortAsc.RawQuery = false →
        queriesFilter exampleEngine MapOrder.listed [(str "sort", str "asc|desc")]
          requestSortAsc = .act Effect.badRequest (.ret false)) ∧
      (exampleEngine.compiles (str "(?:^|&)" ++ str "sort" ++ str "=" ++ str "(?:" ++
          str "asc|desc" ++ str ")(?:$|&)") = false →
        queriesFilter exampleEngine MapOrder.listed [(str "sort", str "asc|desc")]
          requestSortAsc = .act Effect.internalServerError (.fail .fatal))) ∧
    exampleEngine.compiles (str "(?:^|&)" ++ str "sort" ++ str "=" ++ str "(?:" ++
      str "asc|desc" ++ str ")(?:$|&)") = true ∧
    queriesFilter exampleEngine MapOrder.listed [(str "sort", str "asc|desc")] requestSortAsc
      = .run (fun b => .ret b) ∧
    queriesFilter exampleEngine MapOrder.listed [(str "sort", str "asc|desc")] requestSortBogus
      = .act Effect.badRequest (.ret false) ∧
    routeB.Queries exampleEngine MapOrder.listed [str "sort", str "asc|desc"]
      = (routeSort, none) ∧
    routerSort.ServeHTTP exampleEngine 2 requestSortAsc =
      .ok (routerSort,
        [Event.gate 0, Event.handler 0 { requestSortAsc with ctxVars := some 0 }]) ∧
    routerSort.ServeHTTP exampleEngine 2 requestSortBogus =
      .ok (routerSort, [Event.gate 0, Event.act Effect.badRequest]) :=
  ⟨by decide, by decide,
    queries_filter exampleEngine MapOrder.listed routeB (str "sort") (str "asc|desc")
      requestSortAsc (by decide) (by decide),
    by decide, rfl, rfl, rfl, rfl, rfl⟩

/-- C16 fails as stated: with the filter of `Queries("debug", "")` the raw query
`debug`, the name without `=`, does not pass; the bad-request handler answers it and
the handler of the route is not invoked. -/
theorem queries_empty_value_key_alone :
    queryPattern (str "debug") (str "") = str "(?:^|&)debug=" ∧
    exampleEngine.matchString (str "(?:^|&)debug=") (str "debug") = false ∧
    (∀ O : MapOrder, queriesFilter exampleEngine O [(str "debug", str "")] requestDebugAlone
      = .act Effect.badRequest (.ret false)) ∧
    routeB.Queries exampleEngine MapOrder.listed [str "debug", str ""] = (routeDebug, none) ∧
    routerDebug.ServeHTTP exampleEngine 2 requestDebugAlone =
      .ok (routerDebug, [Event.gate 0, Event.act Effect.badRequest]) :=
  ⟨by decide, by decide,
    fun O => by
      rw [queriesFilter_single exampleEngine O _ _ _ (by decide) (by decide)]
      rfl,
    rfl, rfl⟩

/-- C16 as amended: with an empty value pattern the filter of `Queries(k, "")` tests
the raw query against `(?:^|&)` followed by `k` and `=`, so it asks for the name
followed by `=`.  For `Queries("debug", "")` the raw query `debug=` passes, and the
raw query `debug` and a raw query without the name are answered by the bad-request
handler. -/
theorem queries_empty_value :
    (∀ (E : RegexEngine) (O : MapOrder) (k : GoString) (req : Request), k ≠ [] →
      E.compiles (str "(?:^|&)" ++ k ++ str "=") = true →
      queryPattern k [] = str "(?:^|&)" ++ k ++ str "=" ∧
      (E.matchString (str "(?:^|&)" ++ k ++ str "=") req.RawQuery = true →
        queriesFilter E O [(k, [])] req = .run (fun b => .ret b)) ∧
      (E.matchString (str "(?:^|&)" ++ k ++ str "=") req.RawQuery = false →
        queriesFilter E O [(k, [])] req = .act Effect.badRequest (.ret false))) ∧
    (∀ O : MapOrder, queriesFilter exampleEngine O [(str "debug", str "")] requestDebugEq
      = .run (fun b => .ret b)) ∧
    (∀ O : MapOrder, queriesFilter exampleEngine O [(str "debug", str "")] requestDebugAlone
      = .act Effect.badRequest (.ret false)) ∧
    (∀ O : MapOrder, queriesFilter exampleEngine O [(str "debug", str "")] requestDebugAbsent
      = .act Effect.badRequest (.ret false)) ∧
    routerDebug.ServeHTTP exampleEngine 2 requestDebugEq =
      .ok (routerDebug,
        [Event.gate 0, Event.handler 0 { requestDebugEq with ctxVars := some 0 }]) ∧
    routerDebug.ServeHTTP exampleEngine 2 requestDebugAlone =
      .ok (routerDebug, [Event.gate 0, Event.act Effect.badRequest]) ∧
    routerDebug.ServeHTTP exampleEngine 2 requestDebugAbsent =
      .ok (routerDebug, [Event.gate 0, Event.act Effect.badRequest]) := by
  have hdebug : ∀ (O : MapOrder) (req : Request),
      queriesFilter exampleEngine O [(str "debug", str "")] req =
        if exampleEngine.matchString (queryPattern (str "debug") (str "")) req.RawQuery
        then .run (fun b => .ret b) else .act Effect.badRequest (.ret false) :=
    fun O req => queriesFilter_single exampleEngine O _ _ req (by decide) (by decide)
  refine ⟨?_, fun O => by rw [hdebug]; rfl, fun O => by rw [hdebug]; rfl,
    fun O => by rw [hdebug]; rfl, rfl, rfl, rfl⟩
  intro E O k req hk hcomp
  have hpat : queryPattern k [] = str "(?:^|&)" ++ k ++ str "=" := by
    simp [queryPattern]
  rw [← hpat] at hcomp ⊢
  refine ⟨rfl, ?_, ?_⟩
  · intro hm
    rw [queriesFilter_single E O k [] req hk hcomp, if_pos hm]
  · intro hm
    rw [queriesFilter_single E O k [] req hk hcomp, hm]
    simp

/-! ## Variable extraction -/

/-- What the loop of `ExtractVarsWithRegex` does to the map: a key that is not
written keeps its entry, a name that is written gets the submatch of its last
group, the keys stay distinct, and every key afterwards was there before or is a
name that is written. -/
theorem extractLoop_spec (m : List GoString) :
    ∀ (names : List GoString) (i : Nat) (vars vars1 : VarMap),
      extractLoop m names i vars = .ok vars1 →
      (∀ key, (∀ j name, names[j]? = some name → i + j ≠ 0 → name ≠ [] → name ≠ key) →
        vars1.get? key = vars.get? key) ∧
      (∀ j name, names[j]? = some name → i + j ≠ 0 → name ≠ [] →
        (∀ j1 name1, j < j1 → names[j1]? = some name1 → name1 ≠ name) →
        ∃ v, m[i + j]? = some v ∧ vars1.get? name = some v) ∧
      ((vars.map Prod.fst).Nodup → (vars1.map Prod.fst).Nodup) ∧
      (∀ key, key ∈ vars1.map Prod.fst →
        key ∈ vars.map Prod.fst ∨ ∃ j, names[j]? = some key ∧ i + j ≠ 0 ∧ key ≠ []) := by
  intro names
  induction names with
  | nil =>
    intro i vars vars1 h
    simp only [extractLoop, Except.ok.injEq] at h
    subst h
    exact ⟨fun _ _ => rfl, fun j name hj => by simp at hj, fun hn => hn, fun key hk => Or.inl hk⟩
  | cons name names ih =>
    intro i vars vars1 h
    simp only [extractLoop] at h
    by_cases hw : i ≠ 0 ∧ name ≠ []
    · rw [if_pos hw] at h
      cases hmi : m[i]? with
      | none => rw [hmi] at h; simp at h
      | some v =>
        rw [hmi] at h
        simp only at h
        obtain ⟨ha, hb, hc, hd⟩ := ih (i + 1) (vars.set name v) vars1 h
        refine ⟨?_, ?_, ?_, ?_⟩
        · intro key hkey
          have hne : name ≠ key := hkey 0 name (by simp) (by simpa using hw.1) hw.2
          rw [ha key (fun j n hj hij hn => hkey (j + 1) n (by simpa using hj) (by omega) hn),
            VarMap.get?_set_ne _ _ _ _ hne]
        · intro j n hj hij hn hlast
          cases j with
          | zero =>
            have hnn : name = n := by simpa using hj
            subst hnn
            refine ⟨v, by simpa using hmi, ?_⟩
            rw [ha name (fun j1 n1 hj1 _ _ => hlast (j1 + 1) n1 (by omega) (by simpa using hj1)),
              VarMap.get?_set_self]
          | succ j =>
            have hidx : i + 1 + j = i + (j + 1) := by omega
            have := hb j n (by simpa using hj) (by omega) hn
              (fun j1 n1 hlt hj1 => hlast (j1 + 1) n1 (by omega) (by simpa using hj1))
            rw [hidx] at this
            exact this
        · intro hn
          exact hc (VarMap.nodup_set vars name v hn)
        · intro key hk
          rcases hd key hk with h1 | ⟨j, hj, hij, hkn⟩
          · rcases (VarMap.keys_set vars name v key).mp h1 with h2 | h2
            · exact Or.inr ⟨0, by simp [h2], by simpa using hw.1, by rw [h2]; exact hw.2⟩
            · exact Or.inl h2
          · exact Or.inr ⟨j + 1, by simpa using hj, by omega, hkn⟩
    · rw [if_neg hw] at h
      obtain ⟨ha, hb, hc, hd⟩ := ih (i + 1) vars vars1 h
      refine ⟨?_, ?_, hc, ?_⟩
      · intro key hkey
        exact ha key (fun j n hj hij hn => hkey (j + 1) n (by simpa using hj) (by omega) hn)
      · intro j n hj hij hn hlast
        cases j with
        | zero =>
          have hnn : name = n := by simpa using hj
          subst hnn
          exact absurd ⟨by simpa using hij, hn⟩ hw
        | succ j =>
          have hidx : i + 1 + j = i + (j + 1) := by omega
          have := hb j n (by simpa using hj) (by omega) hn
            (fun j1 n1 hlt hj1 => hlast (j1 + 1) n1 (by omega) (by simpa using hj1))
          rw [hidx] at this
          exact this
      · intro key hk
        rcases hd key hk with h1 | ⟨j, hj, hij, hkn⟩
        · exact Or.inl h1
        · exact Or.inr ⟨j + 1, by simpa using hj, by omega, hkn⟩

/-- A full match: the prepared path matches and the map afterwards is what the loop
of `ExtractVarsWithRegex` makes of the map before. -/
theorem matchRequest_full_vars (E : RegexEngine) (r : router) (rt : route) (req : Request)
    (rt1 : route) (h : rt.matchRequest E r req = .ok ((true, false), rt1)) :
    ∃ path, r.PreparePath req.Path = .ok path ∧ E.matchString rt.PathRegexp path = true ∧
      extractLoop (E.findStringSubmatch rt.PathRegexp path) (E.subexpNames rt.PathRegexp) 0
        rt.Vars = .ok rt1.Vars := by
  simp only [route.matchRequest] at h
  split at h
  · simp at h
  · split at h
    · simp at h
    · rename_i path hpath
      refine ⟨path, hpath, ?_⟩
      split at h
      · simp at h
      · rename_i hmatch
        split at h
        · simp at h
        · simp only [route.ExtractVarsWithRegex] at h
          split at h
          · simp at h
          · rename_i heq
            split at heq
            · simp at heq
            · rename_i vars hloop
              simp only [Except.ok.injEq] at heq
              simp only [Except.ok.injEq, Prod.mk.injEq, true_and] at h
              refine ⟨by simpa using hmatch, ?_⟩
              rw [hloop, ← h, ← heq]

/-- C17 fails as stated: the route `^/user/(?P<id>[0-9]+)$` whose map holds an entry
`lang` before the call matches `/user/42` fully, and the map afterwards still holds
`lang`, which is not a capture-group name of the pattern. -/
theorem extraction_keeps_stale_key :
    routeUserStale.matchRequest demoEngine exampleRouter requestUser
      = .ok ((true, false),
          { routeUser with Vars := [(str "lang", str "en"), (str "id", str "42")] }) ∧
    demoEngine.subexpNames routeUserStale.PathRegexp = [str "", str "id"] ∧
    VarMap.get? [(str "lang", str "en"), (str "id", str "42")] (str "lang") = some (str "en") ∧
    str "lang" ∉ demoEngine.subexpNames routeUserStale.PathRegexp :=
  ⟨rfl, by decide, by decide, by decide⟩

/-- C17 as amended: after a full match the map of the route holds, for every
non-empty capture-group name of the path pattern (index 0 and unnamed groups
contribute nothing; of several groups with one name the last counts), the substring
that the group captured in this match; every other key keeps the entry it had
before the call, the map is not cleared; the keys stay distinct; and a key of the
map afterwards was a key before or is such a name, so that from the empty map of a
new route the keys afterwards are exactly these names. -/
theorem extraction_merges (E : RegexEngine) (r : router) (rt : route) (req : Request)
    (rt1 : route) (hm : rt.matchRequest E r req = .ok ((true, false), rt1)) :
    ∃ path, r.PreparePath req.Path = .ok path ∧
      (∀ i name, i ≠ 0 → (E.subexpNames rt.PathRegexp)[i]? = some name → name ≠ [] →
        (∀ j name1, i < j → (E.subexpNames rt.PathRegexp)[j]? = some name1 → name1 ≠ name) →
        ∃ v, (E.findStringSubmatch rt.PathRegexp path)[i]? = some v ∧
          rt1.Vars.get? name = some v) ∧
      (∀ key, (∀ i name, i ≠ 0 → (E.subexpNames rt.PathRegexp)[i]? = some name →
          name ≠ [] → name ≠ key) →
        rt1.Vars.get? key = rt.Vars.get? key) ∧
      ((rt.Vars.map Prod.fst).Nodup → (rt1.Vars.map Prod.fst).Nodup) ∧
      (∀ key, key ∈ rt1.Vars.map Prod.fst →
        key ∈ rt.Vars.map Prod.fst ∨
          ∃ i, i ≠ 0 ∧ (E.subexpNames rt.PathRegexp)[i]? = some key ∧ key ≠ []) := by
  obtain ⟨path, hpath, _, hloop⟩ := matchRequest_full_vars E r rt req rt1 hm
  obtain ⟨ha, hb, hc, hd⟩ := extractLoop_spec _ _ 0 rt.Vars rt1.Vars hloop
  refine ⟨path, hpath, ?_, ?_, hc, ?_⟩
  · intro i name hi hn hne hlast
    have := hb i name hn (by omega) hne hlast
    simpa using this
  · intro key hkey
    exact ha key (fun j name hj hij hn => hkey j name (by omega) hj hn)
  · intro key hk
    rcases hd key hk with h1 | ⟨j, hj, hij, hkn⟩
    · exact Or.inl h1
    · exact Or.inr ⟨j, by omega, hj, hkn⟩

/-- C17 as amended, at the new route `^/user/(?P<id>[0-9]+)$` and the path
`/user/42`: the map afterwards is exactly `id` set to `42`. -/
theorem extraction_merges_witness :
    routeUser.matchRequest demoEngine exampleRouter requestUser
      = .ok ((true, false), routeUserMatched) ∧
    routeUserMatched.Vars = [(str "id", str "42")] ∧
    ∃ path, exampleRouter.PreparePath requestUser.Path = .ok path ∧
      (∀ i name, i ≠ 0 → (demoEngine.subexpNames routeUser.PathRegexp)[i]? = some name →
        name ≠ [] →
        (∀ j name1, i < j → (demoEngine.subexpNames routeUser.PathRegexp)[j]? = some name1 →
          name1 ≠ name) →
        ∃ v, (demoEngine.findStringSubmatch routeUser.PathRegexp path)[i]? = some v ∧
          routeUserMatched.Vars.get? name = some v) ∧
      (∀ key, (∀ i name, i ≠ 0 → (demoEngine.subexpNames routeUser.PathRegexp)[i]? = some name →
          name ≠ [] → name ≠ key) →
        routeUserMatched.Vars.get? key = routeUser.Vars.get? key) ∧
      ((routeUser.Vars.map Prod.fst).Nodup → (routeUserMatched.Vars.map Prod.fst).Nodup) ∧
      (∀ key, key ∈ routeUserMatched.Vars.map Prod.fst →
        key ∈ routeUser.Vars.map Prod.fst ∨
          ∃ i, i ≠ 0 ∧ (demoEngine.subexpNames routeUser.PathRegexp)[i]? = some key ∧
            key ≠ []) :=
  ⟨rfl, rfl, extraction_merges demoEngine exampleRouter routeUser requestUser routeUserMatched rfl⟩

/-! ## Patterns that do not compile -/

theorem matchRequest_panics (E : RegexEngine) (r : router) (rt : route) (req : Request)
    (hc : E.compiles rt.PathRegexp = false) : rt.matchRequest E r req = .error .panic := by
  simp [route.matchRequest, hc]

/-- The scan panics when it reaches a route whose pattern does not compile. -/
theorem scanRoutes_panics (E : RegexEngine) (r : router) (req : Request) (rt : route)
    (post : List route) (hc : E.compiles rt.PathRegexp = false) :
    ∀ (pre : List route) (i : Nat) (wrong : Bool),
      (∀ x ∈ pre, E.compiles x.PathRegexp = true) → (∀ x ∈ pre, ¬ x.FullMatch E r req) →
      scanRoutes E r req (pre ++ rt :: post) i wrong = .error .panic := by
  intro pre
  induction pre with
  | nil =>
    intro i wrong _ _
    simp [scanRoutes, matchRequest_panics E r rt req hc]
  | cons x pre ih =>
    intro i wrong hcomp hnone
    have hrec : ∀ w, scanRoutes E r req (pre ++ rt :: post) (i + 1) w = .error .panic :=
      fun w => ih (i + 1) w (fun y hy => hcomp y (List.mem_cons_of_mem _ hy))
        (fun y hy => hnone y (List.mem_cons_of_mem _ hy))
    obtain ⟨path, _, hcase⟩ := matchRequest_cases E r x req (hcomp x (List.mem_cons_self _ _))
    rcases hcase with ⟨_, hm⟩ | ⟨_, _, hm⟩ | ⟨_, _, vars, hm⟩
    · simp [scanRoutes, hm, hrec]
    · simp [scanRoutes, hm, hrec]
    · exact absurd ⟨_, hm⟩ (hnone x (List.mem_cons_self _ _))

/-- C18 fails as stated: the pattern `(` does not compile, yet `Handle` returns and
the route table then holds the route with the pattern `^($`; it is the first
request that panics, in `route.match`. -/
theorem bad_pattern_is_registered :
    demoEngine.compiles (str "^($") = false ∧
    NewRouter.Handle (str "(") (some 1) =
      .ok ({ NewRouter with routes :=
          [{ PathRegexp := str "^($", Handler := some 1, Vars := [], Filters := newFilterChain,
             methods := none }] },
        { PathRegexp := str "^($", Handler := some 1, Vars := [], Filters := newFilterChain,
          methods := none }) ∧
    router.ServeHTTP demoEngine 1
      { NewRouter with routes :=
          [{ PathRegexp := str "^($", Handler := some 1, Vars := [], Filters := newFilterChain,
             methods := none }] } requestA = .error .panic :=
  ⟨by decide, rfl, rfl⟩

/-- C18 as amended: registration does not compile the pattern.  For every non-empty
pattern, whether it compiles or not, `NewRoute`, `Handle` and `HandlePartial` return
and append the new route to the route table.  `route.match` compiles the pattern at
every request: for a route whose pattern does not compile it panics, and `ServeHTTP`
panics as soon as its scan reaches such a route, that is when the routes before it
compile and none of them matches fully. -/
theorem bad_pattern_fails_at_request (E : RegexEngine) (r : router) (p : GoString)
    (h : Option HandlerId) (hp : p ≠ []) :
    (∃ r1 rt, r.NewRoute p h = .ok (r1, rt) ∧ r1.routes = r.routes ++ [rt]) ∧
    (∃ r1 rt, r.Handle p h = .ok (r1, rt) ∧ r1.routes = r.routes ++ [rt]) ∧
    (∃ r1 rt, r.HandlePartial p h = .ok (r1, rt) ∧ r1.routes = r.routes ++ [rt]) ∧
    (∀ (rt : route) (req : Request), E.compiles rt.PathRegexp = false →
      rt.matchRequest E r req = .error .panic) ∧
    (∀ (fuel : Nat) (req : Request) (pre post : List route) (rt : route),
      r.routes = pre ++ rt :: post → E.compiles rt.PathRegexp = false →
      (∀ x ∈ pre, E.compiles x.PathRegexp = true) → (∀ x ∈ pre, ¬ x.FullMatch E r req) →
      r.ServeHTTP E fuel req = .error .panic) := by
  refine ⟨⟨_, _, NewRoute_ok r p h hp, rfl⟩, ?_, ⟨_, _, NewRoute_ok r p h hp, rfl⟩,
    fun rt req hc => matchRequest_panics E r rt req hc, ?_⟩
  · have hne : (if p.getLast? = some 36 then p else p ++ [36]) ≠ [] := by
      split
      · exact hp
      · simp
    exact ⟨_, _, by rw [Handle_eq_NewRoute r p h hp, NewRoute_ok r _ h hne], rfl⟩
  · intro fuel req pre post rt hroutes hc hcomp hnone
    have := scanRoutes_panics E r req rt post hc pre 0 false hcomp hnone
    simp [router.ServeHTTP, hroutes, this]

/-- C18 as amended, at the pattern `(`. -/
theorem bad_pattern_fails_at_request_witness :
    str "(" ≠ [] ∧ demoEngine.compiles (str "(") = false ∧
    (∃ r1 rt, NewRouter.NewRoute (str "(") (some 1) = .ok (r1, rt) ∧
      r1.routes = NewRouter.routes ++ [rt]) ∧
    (∃ r1 rt, NewRouter.Handle (str "(") (some 1) = .ok (r1, rt) ∧
      r1.routes = NewRouter.routes ++ [rt]) ∧
    (∃ r1 rt, NewRouter.HandlePartial (str "(") (some 1) = .ok (r1, rt) ∧
      r1.routes = NewRouter.routes ++ [rt]) :=
  ⟨by decide, by decide,
    (bad_pattern_fails_at_request demoEngine NewRouter (str "(") (some 1) (by decide)).1,
    (bad_pattern_fails_at_request demoEngine NewRouter (str "(") (some 1) (by decide)).2.1,
    (bad_pattern_fails_at_request demoEngine NewRouter (str "(") (some 1) (by decide)).2.2.1⟩

/-! ## Well-formedness of the chain -/

theorem Reachable_inv (c : FilterChain) (h : c.Reachable) :
    c.count = c.filters.length ∧ c.current = 0 := by
  induction h with
  | new => exact ⟨rfl, rfl⟩
  | add c f _ ih => exact ⟨by simp [FilterChain.Add, ih.1], ih.2⟩
  | addFunc c f _ ih => exact ⟨by simp [FilterChain.AddFunc, FilterChain.Add, ih.1], ih.2⟩
  | run c fuel req b c1 evs _ hrun ih =>
    obtain ⟨h1, h2, _⟩ := Run_inv fuel req c b c1 evs hrun
    exact ⟨by rw [h1, h2, ih.1], Run_current fuel req c b c1 evs ih.2 hrun⟩

/-- C19: well-formedness of the chain.  For a chain that arises from a new chain by
calls of `Add` and `AddFunc` and by completed top-level calls of `Run`: `count` is
the length of `filters` and `current` is at most `count`; `Add` appends the filter
as the last element, raises `count` by one and leaves `current` and the earlier
filters as they were; and whenever `Run` gets past its guard, at the top level or
nested with the cursor anywhere, the index it reads is in range. -/
theorem chain_well_formed (c : FilterChain) (h : c.Reachable) :
    c.count = c.filters.length ∧ 0 ≤ c.current ∧ c.current ≤ c.count ∧
    (∀ f : Filter, (c.Add f).filters = c.filters ++ [f] ∧ (c.Add f).count = c.count + 1 ∧
      (c.Add f).current = c.current ∧
      (∀ i, i < c.filters.length → (c.Add f).filters[i]? = c.filters[i]?) ∧
      (c.Add f).filters[c.filters.length]? = some f) ∧
    (∀ cur, ¬ (c.count = 0 ∨ cur ≥ c.count) → ∃ f, c.filters[cur]? = some f) ∧
    (∀ fuel req, c.Run fuel req = .error .panic →
      ∃ f, c.filters[c.current]? = some f) := by
  obtain ⟨hcount, hcur⟩ := Reachable_inv c h
  refine ⟨hcount, Nat.zero_le _, by omega, ?_, ?_, ?_⟩
  · intro f
    refine ⟨rfl, rfl, rfl, ?_, ?_⟩
    · intro i hi
      simp [FilterChain.Add, List.getElem?_append_left hi]
    · simp [FilterChain.Add]
  · intro cur hguard
    have hlt : cur < c.filters.length := by omega
    exact ⟨_, List.getElem?_eq_getElem hlt⟩
  · intro fuel req hpanic
    cases fuel with
    | zero => simp [FilterChain.Run] at hpanic
    | succ fuel =>
      simp only [FilterChain.Run] at hpanic
      split at hpanic
      · simp at hpanic
      · rename_i hguard
        have hlt : c.current < c.filters.length := by omega
        exact ⟨_, List.getElem?_eq_getElem hlt⟩

/-- C19 at the chain pass, deny, pass after a completed run. -/
theorem chain_well_formed_witness :
    chainPassDenyPass.Reachable ∧
    chainPassDenyPass.count = chainPassDenyPass.filters.length ∧
    0 ≤ chainPassDenyPass.current ∧ chainPassDenyPass.current ≤ chainPassDenyPass.count :=
  ⟨FilterChain.Reachable.run chainPassDenyPass 3 requestA false chainPassDenyPass _
      (.add _ _ (.add _ _ (.add _ _ .new))) rfl,
    (chain_well_formed chainPassDenyPass
      (FilterChain.Reachable.run chainPassDenyPass 3 requestA false chainPassDenyPass _
        (.add _ _ (.add _ _ (.add _ _ .new))) rfl)).1,
    (chain_well_formed chainPassDenyPass
      (FilterChain.Reachable.run chainPassDenyPass 3 requestA false chainPassDenyPass _
        (.add _ _ (.add _ _ (.add _ _ .new))) rfl)).2.1,
    (chain_well_formed chainPassDenyPass
      (FilterChain.Reachable.run chainPassDenyPass 3 requestA false chainPassDenyPass _
        (.add _ _ (.add _ _ (.add _ _ .new))) rfl)).2.2.1⟩

/-! ## Nested runs -/

/-- A call of `Run` that gets past the guard hands control to the filter under the
cursor and leaves the chain with the cursor at 0. -/
theorem Run_nontrivial (fuel : Nat) (req : Request) (c : FilterChain) (b : Bool)
    (c1 : FilterChain) (evs : List Event) (hguard : ¬ (c.count = 0 ∨ c.current ≥ c.count))
    (h : c.Run fuel req = .ok (b, c1, evs)) :
    c1 = { c with current := 0 } ∧ ∃ rest, evs = Event.gate c.current :: rest := by
  cases fuel with
  | zero => simp [FilterChain.Run] at h
  | succ fuel =>
    simp only [FilterChain.Run, if_neg hguard] at h
    split at h
    · simp at h
    · split at h
      · simp at h
      · rename_i b2 c2 evs2 he
        simp only [Except.ok.injEq, Prod.mk.injEq] at h
        obtain ⟨_, h2, h3⟩ := h
        obtain ⟨d1, d2, _⟩ := execFilter_inv (FilterChain.Run fuel req)
          (fun c b c1 evs hr => Run_inv fuel req c b c1 evs hr) _ _ _ _ _ he
        refine ⟨?_, _, h3.symm⟩
        rw [← h2]
        simp only at d1 d2
        rw [d1, d2]

theorem execFilter_run_fails
    (runChain : FilterChain → Except Fault (Bool × FilterChain × List Event)) :
    ∀ (p : FilterProg) (c : FilterChain), p.runsAtLeast 1 = true →
      (∀ res, runChain c ≠ .ok res) → ∀ res, execFilter runChain p c ≠ .ok res := by
  intro p
  induction p with
  | ret b0 => intro c h; simp [FilterProg.runsAtLeast] at h
  | run k _ =>
    intro c _ hfail res
    simp only [execFilter]
    cases hr : runChain c with
    | error f => simp
    | ok r => exact absurd hr (hfail r)
  | act e k ih =>
    intro c h hfail res
    have hk : k.runsAtLeast 1 = true := by simpa [FilterProg.runsAtLeast] using h
    simp only [execFilter]
    cases he : execFilter runChain k c with
    | error f => simp
    | ok r => exact absurd he (ih c hk hfail r)
  | fail f => intro c h; simp [FilterProg.runsAtLeast] at h

theorem execFilter_second_run_fails
    (runChain : FilterChain → Except Fault (Bool × FilterChain × List Event)) :
    ∀ (p : FilterProg) (c : FilterChain), p.runsAtLeast 2 = true →
      (∀ b c1 evs, runChain c = .ok (b, c1, evs) → ∀ res, runChain c1 ≠ .ok res) →
      ∀ res, execFilter runChain p c ≠ .ok res := by
  intro p
  induction p with
  | ret b0 => intro c h; simp [FilterProg.runsAtLeast] at h
  | run k _ =>
    intro c h hfail res
    simp only [execFilter]
    cases hr : runChain c with
    | error f => simp
    | ok r =>
      obtain ⟨b, c1, evs⟩ := r
      have hk : (k b).runsAtLeast 1 = true := by
        simp only [FilterProg.runsAtLeast, Bool.and_eq_true] at h
        cases b
        · exact h.2
        · exact h.1
      simp only
      cases he : execFilter runChain (k b) c1 with
      | error f => simp
      | ok r2 => exact absurd he (execFilter_run_fails runChain (k b) c1 hk (hfail b c1 evs hr) r2)
  | act e k ih =>
    intro c h hfail res
    have hk : k.runsAtLeast 2 = true := by simpa [FilterProg.runsAtLeast] using h
    simp only [execFilter]
    cases he : execFilter runChain k c with
    | error f => simp
    | ok r => exact absurd he (ih c hk hfail r)
  | fail f => intro c h; simp [FilterProg.runsAtLeast] at h

theorem runsAtLeast_one_of_accepts : ∀ (p : FilterProg), p.accepts = true →
    p.runsAtLeast 1 = true := by
  intro p
  induction p with
  | ret b0 => intro h; simp [FilterProg.accepts] at h
  | run k _ => intro _; simp [FilterProg.runsAtLeast]
  | act e k ih =>
    intro h
    simpa [FilterProg.runsAtLeast] using ih (by simpa [FilterProg.accepts] using h)
  | fail f => intro h; simp [FilterProg.accepts] at h

/-- With gate `i` invoking `chain.Run` twice and the gates before it accepting, a run
from the cursor `j ≤ i` does not return when no run from the cursor 0 with a smaller
budget returns. -/
theorem Run_descent (c : FilterChain) (req : Request) (i : Nat)
    (hcount : c.count = c.filters.length) (hi : i + 1 < c.count) (f : Filter)
    (hf : c.filters[i]? = some f) (htwice : (f req).runsAtLeast 2 = true)
    (hbefore : ∀ j g, j < i → c.filters[j]? = some g → (g req).accepts = true) :
    ∀ (d fuel : Nat),
      (∀ fuel1, fuel1 < fuel → ∀ res, ({ c with current := 0 } : FilterChain).Run fuel1 req ≠ .ok res) →
      ∀ j, j + d = i → ∀ res, ({ c with current := j } : FilterChain).Run fuel req ≠ .ok res := by
  intro d
  induction d with
  | zero =>
    intro fuel hsmall j hj res
    have hji : j = i := by omega
    subst hji
    cases fuel with
    | zero => simp [FilterChain.Run]
    | succ fuel =>
      have hguard : ¬ (c.count = 0 ∨ j ≥ c.count) := by omega
      simp only [FilterChain.Run, if_neg hguard, hf]
      have hex := execFilter_second_run_fails (FilterChain.Run fuel req) (f req)
        { c with current := j + 1 } htwice
        (fun b c1 evs hr => by
          have hg2 : ¬ (({ c with current := j + 1 } : FilterChain).count = 0 ∨
              ({ c with current := j + 1 } : FilterChain).current ≥
                ({ c with current := j + 1 } : FilterChain).count) := by
            simp only
            omega
          obtain ⟨hc1, _⟩ := Run_nontrivial fuel req _ b c1 evs hg2 hr
          rw [hc1]
          exact hsmall fuel (by omega))
      cases he : execFilter (FilterChain.Run fuel req) (f req) { c with current := j + 1 } with
      | error e => simp
      | ok r => exact absurd he (hex r)
  | succ d ih =>
    intro fuel hsmall j hj res
    cases fuel with
    | zero => simp [FilterChain.Run]
    | succ fuel =>
      have hlt : j < c.filters.length := by omega
      have hguard : ¬ (c.count = 0 ∨ j ≥ c.count) := by omega
      have hget : c.filters[j]? = some c.filters[j] := List.getElem?_eq_getElem hlt
      simp only [FilterChain.Run, if_neg hguard, hget]
      have hacc : (c.filters[j] req).accepts = true := hbefore j _ (by omega) hget
      have hnext := ih fuel (fun fuel1 h1 => hsmall fuel1 (by omega)) (j + 1) (by omega)
      have hex := execFilter_run_fails (FilterChain.Run fuel req) (c.filters[j] req)
        { c with current := j + 1 } (runsAtLeast_one_of_accepts _ hacc) hnext
      cases he : execFilter (FilterChain.Run fuel req) (c.filters[j] req)
          { c with current := j + 1 } with
      | error e => simp
      | ok r => exact absurd he (hex r)

/-- C20: a nested `Run` resets the cursor that the calling gate sees.  In a chain
with `i + 1 < count`, when the call of `chain.Run` that gate `i` makes (the cursor
is then `i + 1`) returns, the cursor is 0 and not `i + 1`; a second call of
`chain.Run` from the same gate therefore starts with gate 0; and when gate `i`
invokes `chain.Run` twice on every path and the gates before it hand control on,
the top-level `Run` never returns, whatever the budget. -/
theorem nested_Run_resets_cursor (c : FilterChain) (req : Request) (i : Nat)
    (hcount : c.count = c.filters.length) (hi : i + 1 < c.count) :
    (∀ fuel b c1 evs, ({ c with current := i + 1 } : FilterChain).Run fuel req = .ok (b, c1, evs) →
      c1.current = 0 ∧ c1.current ≠ i + 1 ∧ c1 = { c with current := 0 } ∧
      ∀ fuel2 b2 c2 evs2, c1.Run fuel2 req = .ok (b2, c2, evs2) →
        ∃ rest, evs2 = Event.gate 0 :: rest) ∧
    (∀ f, c.filters[i]? = some f → (f req).runsAtLeast 2 = true →
      (∀ j g, j < i → c.filters[j]? = some g → (g req).accepts = true) →
      ∀ fuel res, ({ c with current := 0 } : FilterChain).Run fuel req ≠ .ok res) := by
  constructor
  · intro fuel b c1 evs hrun
    have hg : ¬ (({ c with current := i + 1 } : FilterChain).count = 0 ∨
        ({ c with current := i + 1 } : FilterChain).current ≥
          ({ c with current := i + 1 } : FilterChain).count) := by
      simp only
      omega
    obtain ⟨hc1, _⟩ := Run_nontrivial fuel req _ b c1 evs hg hrun
    simp only at hc1
    refine ⟨by rw [hc1], by rw [hc1]; simp, hc1, ?_⟩
    intro fuel2 b2 c2 evs2 hrun2
    rw [hc1] at hrun2
    have hg2 : ¬ (({ c with current := 0 } : FilterChain).count = 0 ∨
        ({ c with current := 0 } : FilterChain).current ≥
          ({ c with current := 0 } : FilterChain).count) := by
      simp only
      omega
    obtain ⟨_, rest, hrest⟩ := Run_nontrivial fuel2 req _ b2 c2 evs2 hg2 hrun2
    exact ⟨rest, hrest⟩
  · intro f hf htwice hbefore fuel
    induction fuel using Nat.strong_induction_on with
    | _ fuel ih =>
      exact Run_descent c req i hcount hi f hf htwice hbefore i fuel
        (fun fuel1 h1 => ih fuel1 h1) 0 (by omega)

/-- C20 at the chain of `twiceFilter` and `passFilter`: the nested run that gate 0
makes returns with the cursor at 0, and the top-level run never returns. -/
theorem nested_Run_resets_cursor_witness :
    chainTwicePass.count = chainTwicePass.filters.length ∧ 0 + 1 < chainTwicePass.count ∧
    ({ chainTwicePass with current := 0 + 1 } : FilterChain).Run 2 requestA
      = .ok (true, chainTwicePass, [Event.gate 1]) ∧
    chainTwicePass.filters[0]? = some twiceFilter ∧
    (twiceFilter requestA).runsAtLeast 2 = true ∧
    (∀ fuel res, ({ chainTwicePass with current := 0 } : FilterChain).Run fuel requestA
      ≠ .ok res) ∧
    chainTwicePass.Run 10 requestA = .error .outOfFuel :=
  ⟨rfl, by decide, rfl, rfl, rfl,
    (nested_Run_resets_cursor chainTwicePass requestA 0 rfl (by decide)).2 twiceFilter rfl rfl
      (fun j g hj => absurd hj (Nat.not_lt_zero j)),
    rfl⟩

/-! ## The built-in filters keep to the contract of `Filter` -/

theorem hostExtract_accepts (m : List GoString) :
    ∀ (names : List GoString) (i : Nat) (k : FilterProg),
      m.length = names.length + i → k.accepts = true → (hostExtract m names i k).accepts = true := by
  intro names
  induction names with
  | nil => intro i k _ hk; exact hk
  | cons name names ih =>
    intro i k hlen hk
    simp only [List.length_cons] at hlen
    simp only [hostExtract]
    split
    · have hi : i < m.length := by omega
      rw [List.getElem?_eq_getElem hi]
      simp only [FilterProg.accepts]
      exact ih (i + 1) k (by omega) hk
    · exact ih (i + 1) k (by omega) hk

/-- The filters of `Schemes`, `Host` and `Headers` accept or reject, for every
request and every order of the loop; so does the filter of `Queries` when its names
are not empty and its patterns compile. -/
theorem builtin_filters_accept_or_reject (E : RegexEngine) (req : Request) :
    (∀ scheme, (schemesFilter scheme req).accepts = true ∨
      (schemesFilter scheme req).rejects = true) ∧
    (∀ pattern, (hostFilter E pattern req).accepts = true ∨
      (hostFilter E pattern req).rejects = true) ∧
    (∀ O m, (headersFilter O m req).accepts = true ∨ (headersFilter O m req).rejects = true) ∧
    (∀ (O : MapOrder) (m : VarMap),
      (∀ kv ∈ m, kv.1 ≠ [] ∧ E.compiles (queryPattern kv.1 kv.2) = true) →
      (queriesFilter E O m req).accepts = true ∨ (queriesFilter E O m req).rejects = true) := by
  refine ⟨?_, ?_, ?_, ?_⟩
  · intro scheme
    simp only [schemesFilter]
    split
    · exact Or.inl rfl
    · exact Or.inr rfl
  · intro pattern
    simp only [hostFilter]
    split
    · rename_i hm
      exact Or.inl (hostExtract_accepts _ _ 0 _
        (by simpa using E.submatch_length pattern req.Host hm) rfl)
    · exact Or.inr rfl
  · intro O m
    by_cases hall : ∀ kv ∈ m, req.headerGet kv.1 = kv.2
    · left
      rw [headersFilter_pass O m req hall]
      rfl
    · right
      rw [headersFilter_fail O m req hall]
      rfl
  · intro O m hm
    have hloop : ∀ l : List (GoString × GoString),
        (∀ kv ∈ l, kv.1 ≠ [] ∧ E.compiles (queryPattern kv.1 kv.2) = true) →
        (queriesLoop E req l).accepts = true ∨ (queriesLoop E req l).rejects = true := by
      intro l
      induction l with
      | nil => intro _; exact Or.inl rfl
      | cons kv l ih =>
        intro hl
        obtain ⟨k, v⟩ := kv
        obtain ⟨hk, hc⟩ := hl (k, v) (List.mem_cons_self _ _)
        simp only at hk hc
        simp only [queriesLoop, if_neg hk, hc, if_true]
        split
        · exact ih (fun x hx => hl x (List.mem_cons_of_mem _ hx))
        · exact Or.inr rfl
    exact hloop _ (fun kv hkv => hm kv ((O.perm req m).mem_iff.mp hkv))

/-! ## Evaluations of the model on concrete inputs -/

/-- The model of `path.Clean` on the cases of the test table of Go's package `path`. -/
theorem Clean_eval :
    ([("abc", "abc"),
     ("abc/def", "abc/def"),
     (".", "."),
     ("..", ".."),
     ("../..", "../.."),
     ("../../abc", "../../abc"),
     ("/abc", "/abc"),
     ("/", "/"),
     ("", "."),
     ("abc/", "abc"),
     ("a/b/c/", "a/b/c"),
     ("./", "."),
     ("../", ".."),
     ("../../", "../.."),
     ("/abc/", "/abc"),
     ("abc//def//ghi", "abc/def/ghi"),
     ("//abc", "/abc"),
     ("///abc", "/abc"),
     ("//abc//", "/abc"),
     ("abc//", "abc"),
     ("abc/./def", "abc/def"),
     ("/./abc/def", "/abc/def"),
     ("abc/.", "abc"),
     ("abc/def/ghi/../jkl", "abc/def/jkl"),
     ("abc/def/../ghi/../jkl", "abc/jkl"),
     ("abc/def/..", "abc"),
     ("abc/def/../..", "."),
     ("/abc/def/../..", "/"),
     ("abc/def/../../..", ".."),
     ("/abc/def/../../..", "/"),
     ("abc/def/../../../ghi/jkl/../../../mno", "../../mno"),
     ("abc/./../def", "def"),
     ("abc//./../def", "def"),
     ("abc/../../././../def", "../../def")] : List (String × String)).all
      (fun t => Clean (str t.1) == str t.2) = true := by
  decide

theorem TrimRight_eval : TrimRight (str "/a//b/..///") = str "/a//b/.." := by
  decide

theorem PreparePath_eval :
    NewRouter.PreparePath (str "a/./b//") = .ok (str "/a/b") ∧
    (NewRouter.CleanPath false).PreparePath (str "/a//b/../") = .ok (str "/a//b/..") ∧
    ((NewRouter.CleanPath false).TrimTrailingSlashes false).PreparePath (str "/a//b/../")
      = .ok (str "/a//b/../") :=
  ⟨rfl, rfl, rfl⟩

theorem demoEngine_eval :
    demoEngine.matchString (str "^/user/(?P<id>[0-9]+)$") (str "/user/42") = true ∧
    demoEngine.findStringSubmatch (str "^/user/(?P<id>[0-9]+)$") (str "/user/42")
      = [str "/user/42", str "42"] ∧
    demoEngine.subexpNames (str "^/user/(?P<id>[0-9]+)$") = [str "", str "id"] ∧
    demoEngine.matchString (str "^/user/(?P<id>[0-9]+)$") (str "/user/4x") = false ∧
    demoEngine.matchString (str "^/user/(?P<id>[0-9]+)$") (str "/user/") = false ∧
    demoEngine.matchString (str "^/a") (str "/ab") = true ∧
    demoEngine.matchString (str "^/a$") (str "/ab") = false ∧
    demoEngine.compiles (str "^(") = false := by
  decide

theorem ServeHTTP_eval :
    exampleRouter.ServeHTTP demoEngine 3 requestUser =
      .ok ({ exampleRouter with routes := [routeB, routePostUser, routeUserMatched] },
        [Event.gate 0, Event.gate 1, Event.handler 2 requestUserVars]) ∧
    exampleRouter.ServeHTTP demoEngine 1 { requestUser with Method := str "POST" } =
      .ok ({ exampleRouter with routes :=
          [routeB, { routePostUser with Vars := [(str "id", str "42")] }, routeUser] },
        [Event.handler 1 { requestUser with Method := str "POST", ctxVars := some 1 }]) ∧
    exampleRouter.ServeHTTP demoEngine 0 requestA =
      .ok (exampleRouter, [Event.act Effect.notFound]) :=
  ⟨rfl, rfl, rfl⟩

/-- With several pairs the order of the loop shows: for `Queries("", "x", "a", "1")`
and the raw query `sort=bogus`, the entry with the empty name ends the process when
it is visited first, and the entry `a` gets the bad-request answer when it is. -/
theorem queriesFilter_order_eval :
    mapFromPairs [str "", str "x", str "a", str "1"]
      = some [(str "", str "x"), (str "a", str "1")] ∧
    queriesFilter exampleEngine MapOrder.listed [(str "", str "x"), (str "a", str "1")]
      requestSortBogus = .act Effect.internalServerError (.fail .fatal) ∧
    queriesFilter exampleEngine MapOrder.reversed [(str "", str "x"), (str "a", str "1")]
      requestSortBogus = .act Effect.badRequest (.ret false) :=
  ⟨rfl, rfl, rfl⟩

/-- The map that the filter of a route writes to is the map that the request carries:
after the dispatch of `GET /b` to the host `node-7` the entries behind the reference
held by the request of the handler include `shard`. -/
theorem ServeHTTP_live_map_eval :
    (routerShard.ServeHTTP demoEngine 2 requestShard).toOption.map
        (fun res => (handlersOf res.2, res.1.varsOf 0))
      = some ([(0, { requestShard with ctxVars := some 0 })],
          some [(str "shard", str "7")]) := by
  rfl

theorem exampleEngine_eval :
    exampleEngine.compiles (queryPattern (str "sort") (str "asc|desc")) = true ∧
    queryPattern (str "sort") (str "asc|desc") = str "(?:^|&)sort=(?:asc|desc)(?:$|&)" ∧
    queryPattern (str "debug") (str "") = str "(?:^|&)debug=" ∧
    exampleEngine.matchString (str "(?:^|&)sort=(?:asc|desc)(?:$|&)") (str "sort=asc&x=1") = true ∧
    exampleEngine.findStringSubmatch (str "(?:^|&)sort=(?:asc|desc)(?:$|&)") (str "sort=asc&x=1")
      = [str "sort=asc&"] ∧
    exampleEngine.findStringSubmatch (str "(?:^|&)sort=(?:asc|desc)(?:$|&)") (str "x=1&sort=desc")
      = [str "&sort=desc"] ∧
    exampleEngine.matchString (str "(?:^|&)sort=(?:asc|desc)(?:$|&)") (str "sort=bogus") = false ∧
    exampleEngine.matchString (str "(?:^|&)sort=(?:asc|desc)(?:$|&)") (str "xsort=asc") = false ∧
    exampleEngine.matchString (str "(?:^|&)sort=(?:asc|desc)(?:$|&)") (str "sort=ascx") = false ∧
    exampleEngine.matchString (str "(?:^|&)debug=") (str "debug=") = true ∧
    exampleEngine.matchString (str "(?:^|&)debug=") (str "a=1&debug=yes") = true ∧
    exampleEngine.matchString (str "(?:^|&)debug=") (str "debug") = false ∧
    exampleEngine.matchString (str "(?:^|&)debug=") (str "x=1") = false ∧
    exampleEngine.compiles (str "(?:^|&)k=(?:()(?:$|&)") = false ∧
    exampleEngine.matchString (str "^/user/(?P<id>[0-9]+)$") (str "/user/42") = true := by
  decide

end Reroute
